import Mathlib

/-!
Verification of the stash packing engine (src/services/optimizer.ts and its
collaborators in src/constants.ts, src/types.ts).

The data model and every operation below are shallow embeddings of the
TypeScript source: JavaScript numbers that only ever hold non-negative
integers become Nat, fractional scores become ℚ, and the genetic packer's
calls to Math.random() are modelled by an explicit oracle of naturals
(each call x = Math.random() used as Math.floor(x * bound) becomes one
draw reduced modulo bound).
-/

def GRID_WIDTH : Nat := 10

structure CaseInstance where
  id : String
  type : String
  width : Nat
  height : Nat
deriving DecidableEq, Repr

instance : Inhabited CaseInstance := ⟨⟨"", "", 0, 0⟩⟩

structure PlacedCase where
  id : String
  type : String
  x : Nat
  y : Nat
  width : Nat
  height : Nat
  rotated : Bool
  isLocked : Bool
deriving DecidableEq, Repr

instance : Inhabited PlacedCase := ⟨⟨"", "", 0, 0, 0, 0, false, false⟩⟩

abbrev StashGrid := List (List (Option String))

structure StashLayout where
  grid : StashGrid
  placedCases : List PlacedCase
  unplacedCases : List CaseInstance
  stashHeight : Nat
deriving DecidableEq, Repr

inductive OptimizationMethod where
  | greedy
  | genetic
deriving DecidableEq, Repr

/-- The empty occupancy grid: stashHeight rows of GRID_WIDTH cells. -/
def mkGrid (stashHeight : Nat) : StashGrid :=
  List.replicate stashHeight (List.replicate GRID_WIDTH none)

def getCell (grid : StashGrid) (x y : Nat) : Option String :=
  (grid.getD y []).getD x none

def setCell (grid : StashGrid) (x y : Nat) (v : Option String) : StashGrid :=
  grid.set y ((grid.getD y []).set x v)

/-- One guarded write `if (y >= 0 && y < stashHeight && x >= 0 && x < GRID_WIDTH) grid[y][x] = id`. -/
def markCell (stashHeight : Nat) (grid : StashGrid) (x y : Nat) (id : String) : StashGrid :=
  if y < stashHeight ∧ x < GRID_WIDTH then setCell grid x y (some id) else grid

/-- The guarded double loop that marks a rectangle cell by cell (used for locked
cases and in the genetic operators). -/
def markRect (stashHeight : Nat) (grid : StashGrid) (px py w h : Nat) (id : String) : StashGrid :=
  (List.range h).foldl
    (fun g dy => (List.range w).foldl (fun g2 dx => markCell stashHeight g2 (px + dx) (py + dy) id) g)
    grid

/-- The unguarded double loop `grid[y_fill][x_fill] = id` used after a
bounds-checked placement. -/
def fillRect (grid : StashGrid) (px py w h : Nat) (id : String) : StashGrid :=
  (List.range h).foldl
    (fun g dy => (List.range w).foldl (fun g2 dx => setCell g2 (px + dx) (py + dy) (some id)) g)
    grid

/-- Mark every locked case's rectangle (guarded writes). -/
def placeLocked (stashHeight : Nat) (lockedPositions : List PlacedCase) (grid : StashGrid) : StashGrid :=
  lockedPositions.foldl (fun g lc => markRect stashHeight g lc.x lc.y lc.width lc.height lc.id) grid

/-- `{ ...lockedCase, isLocked: true }`. -/
def withLockedFlag (lc : PlacedCase) : PlacedCase :=
  { lc with isLocked := true }

/-- Count of contiguous empty cells rightward in a row, with an explicit fuel
mirroring the loop bound (`x_check < GRID_WIDTH`, or the tighter inner bound). -/
def rowRun (row : List (Option String)) (x fuel : Nat) : Nat :=
  match fuel with
  | 0 => 0
  | f + 1 =>
    match row.getD x none with
    | some _ => 0
    | none => rowRun row (x + 1) f + 1

/-- Count of contiguous empty cells downward in a column (`y_check < stashHeight`). -/
def colRun (grid : StashGrid) (x y fuel : Nat) : Nat :=
  match fuel with
  | 0 => 0
  | f + 1 =>
    match getCell grid x y with
    | some _ => 0
    | none => colRun grid x (y + 1) f + 1

/-- `getAvailableSpace(x, y)`: right run in row y, down run in column x, then the
width is shrunk to the minimum row run within that height. -/
def getAvailableSpace (grid : StashGrid) (stashHeight : Nat) (x y : Nat) : Nat × Nat :=
  let maxWidth := rowRun (grid.getD y []) x (GRID_WIDTH - x)
  let maxHeight := colRun grid x y (stashHeight - y)
  let actualWidth :=
    (List.range maxHeight).foldl
      (fun acc dy => min acc (rowRun (grid.getD (y + dy) []) x maxWidth)) maxWidth
  (actualWidth, maxHeight)

/-- `scorePlacement`: the greedy scoring formula, floats modelled as ℚ. -/
def scorePlacement (caseWidth caseHeight availableWidth availableHeight : Nat) : ℚ :=
  let caseArea : ℚ := (caseWidth : ℚ) * (caseHeight : ℚ)
  let availableArea : ℚ := (availableWidth : ℚ) * (availableHeight : ℚ)
  let waste : ℚ := availableArea - caseArea
  let base : ℚ := caseArea * 1000
  let s1 : ℚ := if caseWidth = availableWidth then base + 5000 else base
  let s2 : ℚ := if caseHeight = availableHeight then s1 + 3000 else s1
  let s3 : ℚ := s2 - waste * 10
  let widthFit : ℚ := (caseWidth : ℚ) / (availableWidth : ℚ)
  let heightFit : ℚ := (caseHeight : ℚ) / (availableHeight : ℚ)
  s3 + (widthFit + heightFit) * 1000

/-- The two candidate orientations (rotated one only when width ≠ height). -/
def orientationsOf (w h : Nat) : List (Nat × Nat × Bool) :=
  if w = h then [(w, h, false)] else [(w, h, false), (h, w, true)]

/-- Unguarded collision scan `grid[y_check][x_check] !== null` over a rectangle. -/
def rectFree (grid : StashGrid) (px py w h : Nat) : Bool :=
  (List.range h).all fun dy =>
    (List.range w).all fun dx => (getCell grid (px + dx) (py + dy)).isNone

structure BestPlacement where
  caseIndex : Nat
  orientW : Nat
  orientH : Nat
  rotated : Bool
  score : ℚ

/-- Evaluate one (case index, orientation) candidate at cell (x,y), keeping the
strictly better of it and the best so far (first found wins ties). -/
def considerOrient (grid : StashGrid) (stashHeight x y availW availH i ow oh : Nat)
    (rot : Bool) (best : Option BestPlacement) : Option BestPlacement :=
  if ow ≤ availW ∧ oh ≤ availH ∧ x + ow ≤ GRID_WIDTH ∧ y + oh ≤ stashHeight then
    if rectFree grid x y ow oh then
      let score := scorePlacement ow oh availW availH
      match best with
      | none => some ⟨i, ow, oh, rot, score⟩
      | some b => if b.score < score then some ⟨i, ow, oh, rot, score⟩ else some b
    else best
  else best

/-- Scan every remaining case (in list order) and both orientations for the best
placement at cell (x,y). -/
def findBest (grid : StashGrid) (stashHeight x y availW availH : Nat)
    (remaining : List CaseInstance) : Option BestPlacement :=
  remaining.enum.foldl
    (fun best ic =>
      (orientationsOf ic.2.width ic.2.height).foldl
        (fun b o => considerOrient grid stashHeight x y availW availH ic.1 o.1 o.2.1 o.2.2 b)
        best)
    none

structure GreedyState where
  grid : StashGrid
  placedCases : List PlacedCase
  remaining : List CaseInstance

/-- The body of the greedy scan at one grid cell. -/
def greedyCell (stashHeight : Nat) (st : GreedyState) (x y : Nat) : GreedyState :=
  if (getCell st.grid x y).isSome then st
  else
    let avail := getAvailableSpace st.grid stashHeight x y
    match findBest st.grid stashHeight x y avail.1 avail.2 st.remaining with
    | none => st
    | some bp =>
      let c := st.remaining.getD bp.caseIndex default
      let placedItem : PlacedCase := ⟨c.id, c.type, x, y, bp.orientW, bp.orientH, bp.rotated, false⟩
      { grid := fillRect st.grid x y bp.orientW bp.orientH c.id
        placedCases := st.placedCases ++ [placedItem]
        remaining := st.remaining.eraseIdx bp.caseIndex }

/-- `greedyOptimization`: locked cases first, then the row-major cell scan. -/
def greedyOptimization (allCases : List CaseInstance) (stashHeight : Nat)
    (lockedPositions : List PlacedCase) : StashLayout :=
  let grid0 := placeLocked stashHeight lockedPositions (mkGrid stashHeight)
  let st0 : GreedyState := ⟨grid0, lockedPositions.map withLockedFlag, allCases⟩
  let stF :=
    (List.range stashHeight).foldl
      (fun st y => (List.range GRID_WIDTH).foldl (fun st2 x => greedyCell stashHeight st2 x y) st)
      st0
  ⟨stF.grid, stF.placedCases, stF.remaining, stashHeight⟩

/-! ### Item catalog and instance expansion (src/constants.ts, optimizeStashLayout step 1/2) -/

def CASE_TYPES : List String :=
  ["ammo", "cards", "docs", "food", "grenades", "items", "junk", "Key_case", "keytool",
   "mags", "medicine", "money", "pistol", "plates", "sicc", "stims", "tags", "THICCItems",
   "thiicweapons", "toolbox", "twitch", "wallet", "weapons",
   "custom_1x1", "custom_1x2", "custom_2x1", "custom_2x2", "custom_2x3", "custom_3x1",
   "custom_3x2", "custom_3x3", "custom_3x4", "custom_4x1", "custom_4x3", "custom_4x4"]

structure CaseDef where
  width : Nat
  height : Nat
deriving DecidableEq, Repr

/-- The static catalog (name, colour and image fields are irrelevant to the engine). -/
def CASES : List (String × CaseDef) :=
  [("items", ⟨4, 4⟩), ("THICCItems", ⟨5, 3⟩), ("weapons", ⟨5, 2⟩), ("thiicweapons", ⟨5, 2⟩),
   ("food", ⟨3, 3⟩), ("medicine", ⟨3, 3⟩), ("grenades", ⟨3, 3⟩), ("mags", ⟨3, 2⟩),
   ("money", ⟨3, 2⟩), ("ammo", ⟨2, 2⟩), ("pistol", ⟨2, 2⟩), ("toolbox", ⟨2, 2⟩),
   ("junk", ⟨4, 4⟩), ("docs", ⟨1, 2⟩), ("sicc", ⟨2, 1⟩), ("plates", ⟨4, 2⟩),
   ("Key_case", ⟨3, 2⟩), ("cards", ⟨1, 1⟩), ("keytool", ⟨1, 1⟩), ("stims", ⟨1, 1⟩),
   ("tags", ⟨1, 1⟩), ("wallet", ⟨1, 1⟩), ("twitch", ⟨3, 3⟩),
   ("custom_1x1", ⟨1, 1⟩), ("custom_2x1", ⟨2, 1⟩), ("custom_1x2", ⟨1, 2⟩),
   ("custom_2x2", ⟨2, 2⟩), ("custom_2x3", ⟨2, 3⟩), ("custom_3x1", ⟨3, 1⟩),
   ("custom_3x2", ⟨3, 2⟩), ("custom_3x3", ⟨3, 3⟩), ("custom_3x4", ⟨3, 4⟩),
   ("custom_4x1", ⟨4, 1⟩), ("custom_4x3", ⟨4, 3⟩), ("custom_4x4", ⟨4, 4⟩)]

def isValidCaseType (t : String) : Bool :=
  CASE_TYPES.contains t

def lookupCase (t : String) : CaseDef :=
  (((CASES.find? fun p => p.1 = t).map fun p => p.2).getD ⟨0, 0⟩)

/-- JavaScript Map.get with `|| 0`. -/
def mapGet (m : List (String × Nat)) (t : String) : Nat :=
  (((m.find? fun p => p.1 = t).map fun p => p.2).getD 0)

/-- JavaScript Map.set: replace in place, or append preserving insertion order. -/
def mapSet (m : List (String × Nat)) (t : String) (v : Nat) : List (String × Nat) :=
  if m.any fun p => p.1 = t then m.map fun p => if p.1 = t then (t, v) else p
  else m ++ [(t, v)]

/-- `id: &#96;${caseType}-${idCounter++}&#96;` as a string. -/
def mkId (t : String) (n : Nat) : String :=
  t ++ "-" ++ Nat.repr n

structure ExpandState where
  allCases : List CaseInstance
  caseTypeCounts : List (String × Nat)
  idCounter : Nat

/-- One `for (const caseType in caseCounts)` iteration. -/
def expandStep (st : ExpandState) (entry : String × Nat) : ExpandState :=
  if isValidCaseType entry.1 then
    if 0 < entry.2 then
      let cd := lookupCase entry.1
      { allCases := st.allCases ++
          ((List.range entry.2).map fun i =>
            ⟨mkId entry.1 (st.idCounter + i), entry.1, cd.width, cd.height⟩)
        caseTypeCounts := mapSet st.caseTypeCounts entry.1 entry.2
        idCounter := st.idCounter + entry.2 }
    else st
  else st

/-- Step 1 of optimizeStashLayout: expand the counts map into a flat instance list.
The counts map is modelled as its (insertion-ordered) entry list. -/
def expandInstances (caseCounts : List (String × Nat)) : ExpandState :=
  caseCounts.foldl expandStep ⟨[], [], 0⟩

/-- Primary collation weight of a character.  The comparator's final tie-break
is `a.type.localeCompare(b.type)`; the collation library behind it is not part
of the repository, so it is modelled here from the ECMA-402 / ICU root
collation restricted to the alphabet of the catalog's identifiers (underscore,
decimal digits, ASCII letters): punctuation sorts before digits, digits before
letters, and letters by base letter — case is ignored at the primary level. -/
def collPrimary (c : Char) : Nat :=
  if c = '_' then 1
  else if '0' ≤ c ∧ c ≤ '9' then 10 + (c.toNat - 48)
  else 100 + (Char.toLower c).toNat

/-- Tertiary collation weight: lowercase sorts before uppercase (the root
collation's default, caseFirst off). -/
def collTertiary (c : Char) : Nat := if c.isUpper then 1 else 0

/-- Lexicographic three-way comparison of weight lists. -/
def lexCmp : List Nat → List Nat → Int
  | [], [] => 0
  | [], _ :: _ => -1
  | _ :: _, [] => 1
  | a :: l1, b :: l2 => if a < b then -1 else if b < a then 1 else lexCmp l1 l2

/-- `a.localeCompare(b)`, modelled from the ECMA-402 / ICU root collation on
the catalog's identifier alphabet: compare the primary weights
lexicographically, then, on a full primary tie, the tertiary (case) weights.
Under this order "custom_3x2" sorts before "Key_case" (primary c < k, case
being only tertiary), the reverse of code-point order. -/
def strCmp (a b : String) : Int :=
  let p := lexCmp (a.data.map collPrimary) (b.data.map collPrimary)
  if p = 0 then lexCmp (a.data.map collTertiary) (b.data.map collTertiary) else p

/-- The sort comparator of optimizeStashLayout step 2. -/
def compareCases (caseTypeCounts : List (String × Nat)) (a b : CaseInstance) : Int :=
  let aCount := mapGet caseTypeCounts a.type
  let bCount := mapGet caseTypeCounts b.type
  if 1 < aCount ∧ bCount = 1 then -1
  else if aCount = 1 ∧ 1 < bCount then 1
  else if a.width ≠ b.width then (b.width : Int) - (a.width : Int)
  else if a.height ≠ b.height then (b.height : Int) - (a.height : Int)
  else strCmp a.type b.type

/-- The stable comparator sort (Array.prototype.sort). -/
def sortCases (caseTypeCounts : List (String × Nat)) (l : List CaseInstance) : List CaseInstance :=
  List.insertionSort (fun a b => compareCases caseTypeCounts a b ≤ 0) l

def expandAndSort (caseCounts : List (String × Nat)) : List CaseInstance :=
  let st := expandInstances caseCounts
  sortCases st.caseTypeCounts st.allCases

/-! ### Genetic algorithm (geneticOptimization) -/

/-- The random oracle: an arbitrary stream of naturals with a cursor.  Each
`Math.floor(Math.random() * bound)` becomes one draw reduced mod `bound`. -/
structure RS where
  fn : Nat → Nat
  idx : Nat

def RS.draw (g : RS) (bound : Nat) : Nat × RS :=
  (g.fn g.idx % bound, ⟨g.fn, g.idx + 1⟩)

def POPULATION_SIZE : Nat := 50
def GENERATIONS : Nat := 100
/-- floor(POPULATION_SIZE * 0.2), exact in IEEE doubles as in the source. -/
def ELITE_COUNT : Nat := POPULATION_SIZE * 2 / 10
/-- floor(POPULATION_SIZE * 0.3), exact in IEEE doubles as in the source. -/
def SORTED_INDIVIDUAL_COUNT : Nat := POPULATION_SIZE * 3 / 10

/-- `evaluateFitness`: placed ratio, compactness of the origin-anchored bounding
box, and the row alignment bonus.  (In JavaScript `x % 0` is NaN, never 0, so a
zero-width item gets no bonus.) -/
def evaluateFitness (totalCases stashHeight : Nat) (individual : List PlacedCase) : ℚ :=
  let placedCount := (individual.filter fun c => !c.isLocked).length
  let maxX : Nat := individual.foldl (fun m c => max m (c.x + c.width)) 0
  let maxY : Nat := individual.foldl (fun m c => max m (c.y + c.height)) 0
  let boundingBoxArea : ℚ := (maxX : ℚ) * (maxY : ℚ)
  let maxPossibleArea : ℚ := (GRID_WIDTH : ℚ) * (stashHeight : ℚ)
  let rowAlignmentBonus : ℚ :=
    individual.foldl (fun acc c => if 0 < c.width ∧ c.x % c.width = 0 then acc + 10 else acc)
      (0 : ℚ)
  let placedRatio : ℚ := (placedCount : ℚ) / (totalCases : ℚ)
  let compactness : ℚ := 1 - boundingBoxArea / maxPossibleArea
  placedRatio * 1000 + compactness * 500 + rowAlignmentBonus

/-- The collision scan of crossover, which only lets in-bounds cells veto. -/
def rectFreeGuarded (stashHeight : Nat) (grid : StashGrid) (px py w h : Nat) : Bool :=
  (List.range h).all fun dy =>
    (List.range w).all fun dx =>
      !(py + dy < stashHeight && px + dx < GRID_WIDTH && (getCell grid (px + dx) (py + dy)).isSome)

/-- JavaScript Set insertion order: first occurrences, in order. -/
def setOrder (l : List String) : List String :=
  l.foldl (fun acc a => if acc.contains a then acc else acc ++ [a]) []

structure CrossAcc where
  child : List PlacedCase
  grid : StashGrid
  rng : RS

/-- One iteration of crossover's loop over the distinct non-locked case ids. -/
def crossoverStep (stashHeight : Nat) (parent1Cases parent2Cases : List PlacedCase)
    (acc : CrossAcc) (caseId : String) : CrossAcc :=
  let fromParent1 := parent1Cases.find? fun c => c.id = caseId
  let fromParent2 := parent2Cases.find? fun c => c.id = caseId
  let d := acc.rng.draw 2
  let chosenCase := if d.1 = 0 then fromParent1 else fromParent2
  match chosenCase with
  | none => ⟨acc.child, acc.grid, d.2⟩
  | some c =>
    if rectFreeGuarded stashHeight acc.grid c.x c.y c.width c.height then
      ⟨acc.child ++ [c], markRect stashHeight acc.grid c.x c.y c.width c.height caseId, d.2⟩
    else ⟨acc.child, acc.grid, d.2⟩

/-- `crossover(parent1, parent2)`. -/
def crossover (stashHeight : Nat) (parent1 parent2 : List PlacedCase) (g : RS) :
    List PlacedCase × RS :=
  let lockedCases := parent1.filter fun c => c.isLocked
  let grid0 := placeLocked stashHeight lockedCases (mkGrid stashHeight)
  let parent1Cases := parent1.filter fun c => !c.isLocked
  let parent2Cases := parent2.filter fun c => !c.isLocked
  let allCaseIds := setOrder ((parent1Cases.map fun c => c.id) ++ (parent2Cases.map fun c => c.id))
  let acc := allCaseIds.foldl (crossoverStep stashHeight parent1Cases parent2Cases) ⟨[], grid0, g⟩
  (lockedCases ++ acc.child, acc.rng)

/-- The bounded rejection sampling shared by the random initializer and mutate:
draw orientation, x, y; accept if in bounds and collision free. -/
def tryPlaceCase (stashHeight : Nat) (orientations : List (Nat × Nat × Bool))
    (grid : StashGrid) : Nat → RS → Option (Nat × Nat × Nat × Nat × Bool) × RS
  | 0, g => (none, g)
  | fuel + 1, g =>
    let d1 := g.draw orientations.length
    let o := orientations.getD d1.1 default
    let d2 := d1.2.draw GRID_WIDTH
    let d3 := d2.2.draw stashHeight
    if d2.1 + o.1 ≤ GRID_WIDTH ∧ d3.1 + o.2.1 ≤ stashHeight then
      if rectFree grid d2.1 d3.1 o.1 o.2.1 then
        (some (d2.1, d3.1, o.1, o.2.1, o.2.2), d3.2)
      else tryPlaceCase stashHeight orientations grid fuel d3.2
    else tryPlaceCase stashHeight orientations grid fuel d3.2

structure BuildAcc where
  individual : List PlacedCase
  grid : StashGrid
  rng : RS

/-- Try to place one case at up to 100 random positions (random initializer body). -/
def randomPlaceStep (stashHeight : Nat) (acc : BuildAcc) (c : CaseInstance) : BuildAcc :=
  let orientations := orientationsOf c.width c.height
  match tryPlaceCase stashHeight orientations acc.grid 100 acc.rng with
  | (none, g) => ⟨acc.individual, acc.grid, g⟩
  | (some (rx, ry, ow, oh, rot), g) =>
    ⟨acc.individual ++ [⟨c.id, c.type, rx, ry, ow, oh, rot, false⟩],
     fillRect acc.grid rx ry ow oh c.id, g⟩

/-- The uniformly random permutation produced by sorting with a random
comparator, modelled as repeated random extraction. -/
def shuffleGo : Nat → List CaseInstance → RS → List CaseInstance × RS
  | 0, l, g => (l, g)
  | fuel + 1, l, g =>
    if l.isEmpty then (l, g)
    else
      let d := g.draw l.length
      let picked := l.getD d.1 default
      let rest := shuffleGo fuel (l.eraseIdx d.1) d.2
      (picked :: rest.1, rest.2)

def shuffle (l : List CaseInstance) (g : RS) : List CaseInstance × RS :=
  shuffleGo l.length l g

/-- One random individual of the initial population (shuffled order, random
positions). -/
def randomIndividual (stashHeight : Nat) (lockedPositions : List PlacedCase)
    (allCases : List CaseInstance) (g : RS) : List PlacedCase × RS :=
  let individual0 := lockedPositions.map withLockedFlag
  let grid0 := placeLocked stashHeight lockedPositions (mkGrid stashHeight)
  let s := shuffle allCases g
  let acc := s.1.foldl (randomPlaceStep stashHeight) ⟨individual0, grid0, s.2⟩
  (acc.individual, acc.rng)

/-- `mutate(individual)`. -/
def mutate (stashHeight : Nat) (allCases : List CaseInstance)
    (individual : List PlacedCase) (g : RS) : List PlacedCase × RS :=
  let nonLockedCases := individual.filter fun c => !c.isLocked
  if nonLockedCases.length = 0 then (individual, g)
  else
    let d := g.draw nonLockedCases.length
    let caseToMutate := nonLockedCases.getD d.1 default
    let index := individual.findIdx fun c => decide (c = caseToMutate)
    let grid :=
      individual.foldl
        (fun gr pc =>
          if pc.id = caseToMutate.id then gr
          else markRect stashHeight gr pc.x pc.y pc.width pc.height pc.id)
        (mkGrid stashHeight)
    match allCases.find? fun c => c.id = caseToMutate.id with
    | none => (individual, d.2)
    | some caseDef =>
      let orientations := orientationsOf caseDef.width caseDef.height
      match tryPlaceCase stashHeight orientations grid 50 d.2 with
      | (none, g2) => (individual, g2)
      | (some (rx, ry, ow, oh, rot), g2) =>
        (individual.set index
          { caseToMutate with x := rx, y := ry, width := ow, height := oh, rotated := rot }, g2)

structure ScoredInd where
  individual : List PlacedCase
  fitness : ℚ

instance : Inhabited ScoredInd := ⟨⟨[], 0⟩⟩

/-- `.sort((a, b) => b.fitness - a.fitness)`: sort by fitness descending. -/
def sortScores (scores : List ScoredInd) : List ScoredInd :=
  List.insertionSort (fun a b => b.fitness ≤ a.fitness) scores

def scorePopulation (totalCases stashHeight : Nat) (population : List (List PlacedCase)) :
    List ScoredInd :=
  population.map fun ind => ⟨ind, evaluateFitness totalCases stashHeight ind⟩

/-- The 5 random draws of one tournament. -/
def tournamentDraw (sortedScores : List ScoredInd) :
    Nat → List ScoredInd → RS → List ScoredInd × RS
  | 0, acc, g => (acc, g)
  | n + 1, acc, g =>
    let d := g.draw sortedScores.length
    tournamentDraw sortedScores n (acc ++ [sortedScores.getD d.1 default]) d.2

/-- Tournament selection: draw 5 random entries, keep the fittest. -/
def tournamentSelect (sortedScores : List ScoredInd) (g : RS) : List PlacedCase × RS :=
  let t := tournamentDraw sortedScores 5 [] g
  (((sortScores t.1).headD default).individual, t.2)

/-- One offspring: two tournaments, crossover, then mutation with probability 0.1. -/
def makeOffspring (stashHeight : Nat) (allCases : List CaseInstance)
    (sortedScores : List ScoredInd) (g : RS) : List PlacedCase × RS :=
  let p1 := tournamentSelect sortedScores g
  let p2 := tournamentSelect sortedScores p1.2
  let child := crossover stashHeight p1.1 p2.1 p2.2
  let d := child.2.draw 10
  if d.1 = 0 then mutate stashHeight allCases child.1 d.2 else (child.1, d.2)

def makeOffspringList (stashHeight : Nat) (allCases : List CaseInstance)
    (sortedScores : List ScoredInd) : Nat → RS → List (List PlacedCase) × RS
  | 0, g => ([], g)
  | n + 1, g =>
    let o := makeOffspring stashHeight allCases sortedScores g
    let rest := makeOffspringList stashHeight allCases sortedScores n o.2
    (o.1 :: rest.1, rest.2)

/-- One generation: score, sort, keep the elite, refill with offspring. -/
def generationStep (stashHeight : Nat) (allCases : List CaseInstance)
    (population : List (List PlacedCase)) (g : RS) : List (List PlacedCase) × RS :=
  let sorted := sortScores (scorePopulation allCases.length stashHeight population)
  let elites := (sorted.take ELITE_COUNT).map fun s => s.individual
  let off := makeOffspringList stashHeight allCases sorted (POPULATION_SIZE - ELITE_COUNT) g
  (elites ++ off.1, off.2)

def runGenerations (stashHeight : Nat) (allCases : List CaseInstance) :
    Nat → List (List PlacedCase) → RS → List (List PlacedCase) × RS
  | 0, pop, g => (pop, g)
  | n + 1, pop, g =>
    let s := generationStep stashHeight allCases pop g
    runGenerations stashHeight allCases n s.1 s.2

/-- The initial population: 30% greedy-seeded, 70% shuffled random individuals. -/
def initPopulation (stashHeight : Nat) (lockedPositions : List PlacedCase)
    (allCases : List CaseInstance) : Nat → RS → List (List PlacedCase) × RS
  | 0, g => ([], g)
  | n + 1, g =>
    let ind := randomIndividual stashHeight lockedPositions allCases g
    let rest := initPopulation stashHeight lockedPositions allCases n ind.2
    (ind.1 :: rest.1, rest.2)

/-- `geneticOptimization`, parametrized by the random oracle. -/
def geneticOptimization (allCases : List CaseInstance) (stashHeight : Nat)
    (lockedPositions : List PlacedCase) (rng : Nat → Nat) : StashLayout :=
  let seeds :=
    (List.range SORTED_INDIVIDUAL_COUNT).map fun _ =>
      (greedyOptimization allCases stashHeight lockedPositions).placedCases
  let rnd := initPopulation stashHeight lockedPositions allCases
    (POPULATION_SIZE - SORTED_INDIVIDUAL_COUNT) ⟨rng, 0⟩
  let pop0 := seeds ++ rnd.1
  let evolved := runGenerations stashHeight allCases GENERATIONS pop0 rnd.2
  let sorted := sortScores (scorePopulation allCases.length stashHeight evolved.1)
  let bestIndividual := (sorted.headD default).individual
  let grid :=
    bestIndividual.foldl
      (fun gr pc => markRect stashHeight gr pc.x pc.y pc.width pc.height pc.id)
      (mkGrid stashHeight)
  let placedCaseIds := bestIndividual.map fun c => c.id
  let unplacedCases := allCases.filter fun c => !placedCaseIds.contains c.id
  ⟨grid, bestIndividual, unplacedCases, stashHeight⟩

/-- The facade `optimizeStashLayout(caseCounts, stashHeight, lockedPositions, method)`.
The random oracle is threaded through so the genetic path can consume it; the
greedy path never touches it. -/
def optimizeStashLayout (caseCounts : List (String × Nat)) (stashHeight : Nat)
    (lockedPositions : List PlacedCase) (method : OptimizationMethod)
    (rng : Nat → Nat) : StashLayout :=
  let allCases := expandAndSort caseCounts
  match method with
  | .greedy => greedyOptimization allCases stashHeight lockedPositions
  | .genetic => geneticOptimization allCases stashHeight lockedPositions rng

/-- Numeric value of a decimal digit character (used to invert Nat.repr). -/
def charVal (c : Char) : Nat := c.toNat - 48

/-- Left inverse of the decimal rendering of a natural number. -/
def unDigits (l : List Char) : Nat :=
  l.foldl (fun acc c => acc * 10 + charVal c) 0

/-! ### Geometric predicates used to state the spec properties -/

/-- Cell (cx, cy) lies in the rectangle of a placed case. -/
def cellOf (c : PlacedCase) (cx cy : Nat) : Prop :=
  c.x ≤ cx ∧ cx < c.x + c.width ∧ c.y ≤ cy ∧ cy < c.y + c.height

/-- The cell rectangles of two placed cases are disjoint. -/
def noCommonCell (a b : PlacedCase) : Prop :=
  ∀ cx cy : Nat, ¬ (cellOf a cx cy ∧ cellOf b cx cy)

/-- The rectangle lies fully inside the width-10, height-stashHeight grid. -/
def inBounds (stashHeight : Nat) (c : PlacedCase) : Prop :=
  c.x + c.width ≤ GRID_WIDTH ∧ c.y + c.height ≤ stashHeight

/-- An empty axis-aligned rectangle anchored at (x, y). -/
def emptyRect (grid : StashGrid) (x y w h : Nat) : Prop :=
  ∀ dx dy : Nat, dx < w → dy < h → getCell grid (x + dx) (y + dy) = none

/-- The number of non-locked entries of a placement list. -/
def countNonLocked (l : List PlacedCase) : Nat :=
  (l.filter fun c => !c.isLocked).length

/-- The right edge maximum of the origin-anchored bounding box that
evaluateFitness actually uses. -/
def originMaxX (l : List PlacedCase) : Nat :=
  l.foldl (fun m c => max m (c.x + c.width)) 0

/-- The bottom edge maximum of the origin-anchored bounding box. -/
def originMaxY (l : List PlacedCase) : Nat :=
  l.foldl (fun m c => max m (c.y + c.height)) 0

/-- How many entries receive the row alignment bonus. -/
def alignedCount (l : List PlacedCase) : Nat :=
  l.countP fun c => decide (0 < c.width ∧ c.x % c.width = 0)

/-- The identity of a locked item as the spec compares it: id, position,
dimensions and rotation. -/
def lockedKey (c : PlacedCase) : String × Nat × Nat × Nat × Nat × Bool :=
  (c.id, c.x, c.y, c.width, c.height, c.rotated)

/-- The area of the smallest axis-aligned rectangle containing all placed
items.  Modelled from the spec: the spec defines the fitness bounding box as
the smallest rectangle containing all placed items (locked or not); the code
is compared against this definition. -/
def specSmallestEnclosingArea (individual : List PlacedCase) : Nat :=
  match individual with
  | [] => 0
  | c :: rest =>
    let minX := rest.foldl (fun m q => min m q.x) c.x
    let minY := rest.foldl (fun m q => min m q.y) c.y
    let maxX := rest.foldl (fun m q => max m (q.x + q.width)) (c.x + c.width)
    let maxY := rest.foldl (fun m q => max m (q.y + q.height)) (c.y + c.height)
    (maxX - minX) * (maxY - minY)

/-- Priority class of the sort's first rule: kinds with count above one first. -/
def instPriority (m : List (String × Nat)) (c : CaseInstance) : Nat :=
  if 1 < mapGet m c.type then 0 else 1

/-- The ordering the claim describes for the expanded instance list:
multi-count kinds first, then wider, then taller, then kind id in ascending
lexical (code-point) order.  This is the claim's reading; the program's
tie-break is localeCompare's collation, which disagrees with it. -/
def claimOrder (m : List (String × Nat)) (a b : CaseInstance) : Prop :=
  instPriority m a < instPriority m b ∨
    (instPriority m a = instPriority m b ∧
      (b.width < a.width ∨
        (a.width = b.width ∧
          (b.height < a.height ∨ (a.height = b.height ∧ a.type ≤ b.type)))))

/-- Ascending in the collation order of the comparator's localeCompare model. -/
def localeLe (a b : String) : Prop := strCmp a b ≤ 0

/-- The corrected ordering: as claimOrder, but rule (4) is the collation order
the comparator actually uses, not ascending code-point order. -/
def claimOrderColl (m : List (String × Nat)) (a b : CaseInstance) : Prop :=
  instPriority m a < instPriority m b ∨
    (instPriority m a = instPriority m b ∧
      (b.width < a.width ∨
        (a.width = b.width ∧
          (b.height < a.height ∨ (a.height = b.height ∧ localeLe a.type b.type)))))

/-- The claim's reading of getAvailableSpace: the returned rectangle is empty
and no empty rectangle anchored at the same corner beats its area. -/
def isLargestAnchored (grid : StashGrid) (stashHeight x y : Nat) : Prop :=
  emptyRect grid x y (getAvailableSpace grid stashHeight x y).1
    (getAvailableSpace grid stashHeight x y).2 ∧
  ∀ w h : Nat, emptyRect grid x y w h →
    w * h ≤ (getAvailableSpace grid stashHeight x y).1 * (getAvailableSpace grid stashHeight x y).2

/-- The grid has exactly stashHeight rows of GRID_WIDTH cells each. -/
def gridWF (stashHeight : Nat) (grid : StashGrid) : Prop :=
  grid.length = stashHeight ∧ ∀ row ∈ grid, row.length = GRID_WIDTH

/-- Every cell of every entry of the list reads occupied in the grid. -/
def covers (grid : StashGrid) (l : List PlacedCase) : Prop :=
  ∀ c ∈ l, ∀ cx cy : Nat, cellOf c cx cy → (getCell grid cx cy).isSome

/-- The ids of the non-locked entries of a placement list, in order. -/
def nlIds (l : List PlacedCase) : List String :=
  (l.filter fun c => !c.isLocked).map fun c => c.id

/-- The structural invariant each genetic individual keeps: its locked block
is exactly the caller's locked list, every entry lies in bounds, entries are
pairwise disjoint, and its non-locked entries carry distinct instance ids. -/
def IndOk (stashHeight : Nat) (locked : List PlacedCase) (allIds : List String)
    (ind : List PlacedCase) : Prop :=
  ind.filter (fun c => c.isLocked) = locked.map withLockedFlag ∧
  (∀ c ∈ ind, inBounds stashHeight c) ∧
  List.Pairwise noCommonCell ind ∧
  (nlIds ind).Nodup ∧
  (∀ i ∈ nlIds ind, i ∈ allIds)

/-- The caller precondition on locked items: pairwise disjoint, in bounds,
and with ids distinct from every generated instance id. -/
def LockedOk (stashHeight : Nat) (allIds : List String) (locked : List PlacedCase) : Prop :=
  List.Pairwise noCommonCell locked ∧
  (∀ lc ∈ locked, inBounds stashHeight lc) ∧
  (∀ lc ∈ locked, lc.id ∉ allIds)

/-- A property of individuals preserved by the four individual producers of
the genetic engine. -/
def PresPred (stashHeight : Nat) (allCases : List CaseInstance)
    (locked : List PlacedCase) (P : List PlacedCase → Prop) : Prop :=
  P (greedyOptimization allCases stashHeight locked).placedCases ∧
  (∀ g, P (randomIndividual stashHeight locked allCases g).1) ∧
  (∀ p1 p2 g, P p1 → P p2 → P (crossover stashHeight p1 p2 g).1) ∧
  (∀ ind g, P ind → P (mutate stashHeight allCases ind g).1)

/-! ### Concrete inputs used to settle the claims that fail on the code -/

def zeroOracle : Nat → Nat := fun _ => 0

/-- One 2x2 ammo case instance, as expanded from the counts map (ammo, 1). -/
def ammoCases : List CaseInstance := [⟨"ammo-0", "ammo", 2, 2⟩]

/-- A locked item whose id collides with the generated instance id "ammo-0". -/
def ce1Locked : List PlacedCase := [⟨"ammo-0", "ammo", 0, 0, 2, 2, false, false⟩]

/-- The occupancy grid with the single ce1 locked case marked. -/
def ce1Grid : StashGrid :=
  List.replicate 2 ([some "ammo-0", some "ammo-0"] ++ List.replicate 8 none)

/-- The greedy-seeded individual for the ce1 input. -/
def ce1Seed : List PlacedCase :=
  [⟨"ammo-0", "ammo", 0, 0, 2, 2, false, true⟩, ⟨"ammo-0", "ammo", 2, 0, 2, 2, false, false⟩]

/-- The locked-only individual for the ce1 input. -/
def ce1Bare : List PlacedCase := [⟨"ammo-0", "ammo", 0, 0, 2, 2, false, true⟩]

/-- The overlapping individual mutation produces for the ce1 input. -/
def ce1Overlap : List PlacedCase :=
  [⟨"ammo-0", "ammo", 0, 0, 2, 2, false, true⟩, ⟨"ammo-0", "ammo", 0, 0, 2, 2, false, false⟩]

def ce1Pop0 : List (List PlacedCase) := List.replicate 15 ce1Seed ++ List.replicate 35 ce1Bare
def ce1Pop1 : List (List PlacedCase) := List.replicate 10 ce1Seed ++ List.replicate 40 ce1Overlap
def ce1Pop2 : List (List PlacedCase) := List.replicate 10 ce1Overlap ++ List.replicate 40 ce1Bare

def ce1Sorted0 : List ScoredInd := List.replicate 15 ⟨ce1Seed, 1320⟩ ++ List.replicate 35 ⟨ce1Bare, 410⟩
def ce1Sorted1 : List ScoredInd := List.replicate 40 ⟨ce1Overlap, 1420⟩ ++ List.replicate 10 ⟨ce1Seed, 1320⟩
def ce1Sorted2 : List ScoredInd := List.replicate 10 ⟨ce1Overlap, 1420⟩ ++ List.replicate 40 ⟨ce1Bare, 410⟩

/-- A locked item covering the whole 10 x 2 grid, with the colliding id. -/
def ce2Locked : List PlacedCase := [⟨"ammo-0", "ammo", 0, 0, 10, 2, false, false⟩]

def ce2Bare : List PlacedCase := [⟨"ammo-0", "ammo", 0, 0, 10, 2, false, true⟩]

def ce2Grid : StashGrid := List.replicate 2 (List.replicate 10 (some "ammo-0"))

def ce2Pop : List (List PlacedCase) := List.replicate 50 ce2Bare

def ce2Sorted : List ScoredInd := List.replicate 50 ⟨ce2Bare, 10⟩

/-- The locked layout of the greedy no-thrashing counterexample. -/
def ce4Locked : List PlacedCase :=
  [⟨"L1", "custom_2x2", 5, 3, 2, 2, false, false⟩,
   ⟨"L2", "custom_1x2", 9, 1, 1, 2, false, false⟩,
   ⟨"L3", "ammo", 1, 1, 2, 2, false, false⟩]

/-- An individual placed away from the origin, separating the two bounding box
readings of the fitness formula. -/
def ce8Ind : List PlacedCase := [⟨"stims-0", "stims", 5, 5, 1, 1, false, false⟩]

/-- The same single item placed at the origin, where both bounding box
readings coincide. -/
def ce8bInd : List PlacedCase := [⟨"stims-0", "stims", 0, 0, 1, 1, false, false⟩]

/-- A 10 x 2 grid where the anchored 5 x 1 empty strip at the origin beats the
1 x 2 rectangle getAvailableSpace reports. -/
def ce9Grid : StashGrid :=
  [[none, none, none, none, none, some "B", none, none, none, none],
   [none, some "C", none, none, none, none, none, none, none, none]]

/-!
## Theorems

Generic list and oracle helpers first, then the lemma chains that settle each
claim.
-/

set_option maxRecDepth 1000000

theorem getD_replicate {α : Type} (a d : α) : ∀ {n k : Nat}, k < n →
    (List.replicate n a).getD k d = a
  | n + 1, 0, _ => rfl
  | n + 1, k + 1, h => by
    simpa [List.replicate_succ] using getD_replicate a d (Nat.lt_of_succ_lt_succ h)

theorem range_map_const {α : Type} (a : α) (n : Nat) :
    (List.range n).map (fun _ => a) = List.replicate n a := by
  induction n with
  | zero => rfl
  | succ n ih => simp [List.range_succ, List.replicate_succ', ih]

theorem draw_eq (g : RS) (b : Nat) : g.draw b = (g.fn g.idx % b, ⟨g.fn, g.idx + 1⟩) := rfl

/-! ### The genetic packer on the full-grid colliding-id input (ce2): every
individual is exactly the locked item, yet the instance is reported placed. -/

theorem ce2_grid_eval : placeLocked 2 ce2Locked (mkGrid 2) = ce2Grid := by
  with_unfolding_all rfl

theorem ce2_getCell {x y : Nat} (hx : x < 10) (hy : y < 2) :
    getCell ce2Grid x y = some "ammo-0" := by
  unfold getCell ce2Grid
  rw [getD_replicate _ _ hy, getD_replicate _ _ hx]

theorem ce2_rectFree {rx ry : Nat} (hx : rx < 10) (hy : ry < 2) :
    rectFree ce2Grid rx ry 2 2 = false := by
  have h0 : getCell ce2Grid rx ry = some "ammo-0" := ce2_getCell hx hy
  simp [rectFree, List.range_succ, h0]

theorem ce2_tryPlace_step (fuel : Nat) (g : RS) :
    tryPlaceCase 2 [(2, 2, false)] ce2Grid (fuel + 1) g =
      tryPlaceCase 2 [(2, 2, false)] ce2Grid fuel ⟨g.fn, g.idx + 3⟩ := by
  by_cases hb : g.fn (g.idx + 1) % GRID_WIDTH + 2 ≤ GRID_WIDTH ∧
      g.fn (g.idx + 1 + 1) % 2 + 2 ≤ 2
  · have hw : GRID_WIDTH = 10 := rfl
    have hfree : rectFree ce2Grid (g.fn (g.idx + 1) % GRID_WIDTH)
        (g.fn (g.idx + 1 + 1) % 2) 2 2 = false := by
      refine ce2_rectFree ?_ ?_
      · rw [hw]; exact Nat.mod_lt _ (by norm_num)
      · omega
    simp [tryPlaceCase, draw_eq, Nat.mod_one, hb, hfree]
  · simp [tryPlaceCase, draw_eq, Nat.mod_one]
    intro h1 h2 _
    exact absurd ⟨h1, by omega⟩ hb

theorem ce2_tryPlace : ∀ (fuel : Nat) (g : RS), ∃ g2,
    tryPlaceCase 2 [(2, 2, false)] ce2Grid fuel g = (none, g2)
  | 0, g => ⟨g, rfl⟩
  | fuel + 1, g => by
    obtain ⟨g2, ih⟩ := ce2_tryPlace fuel ⟨g.fn, g.idx + 3⟩
    exact ⟨g2, by rw [ce2_tryPlace_step, ih]⟩

theorem shuffle_singleton (c : CaseInstance) (g : RS) :
    shuffle [c] g = ([c], ⟨g.fn, g.idx + 1⟩) := by
  simp [shuffle, shuffleGo, draw_eq, Nat.mod_one]

theorem ce2_randomInd (g : RS) : ∃ g2,
    randomIndividual 2 ce2Locked ammoCases g = (ce2Bare, g2) := by
  obtain ⟨g2, htry⟩ := ce2_tryPlace 100 ⟨g.fn, g.idx + 1⟩
  refine ⟨g2, ?_⟩
  simp only [randomIndividual, ammoCases, shuffle_singleton, ce2_grid_eval]
  simp [randomPlaceStep, orientationsOf, ce2_grid_eval, htry, ce2Locked, ce2Bare, withLockedFlag]

theorem ce2_initPop : ∀ (n : Nat) (g : RS), ∃ g2,
    initPopulation 2 ce2Locked ammoCases n g = (List.replicate n ce2Bare, g2)
  | 0, g => ⟨g, rfl⟩
  | n + 1, g => by
    obtain ⟨g1, h1⟩ := ce2_randomInd g
    obtain ⟨g2, h2⟩ := ce2_initPop n g1
    exact ⟨g2, by simp [initPopulation, h1, h2, List.replicate_succ]⟩

theorem ce2_seed : (greedyOptimization ammoCases 2 ce2Locked).placedCases = ce2Bare := by
  with_unfolding_all rfl

theorem ce2_sorted_eval :
    sortScores (scorePopulation ammoCases.length 2 ce2Pop) = ce2Sorted := by
  with_unfolding_all rfl

theorem ce2_sorted_len : ce2Sorted.length = 50 := by with_unfolding_all rfl

theorem ce2_tournamentDraw : ∀ (n : Nat) (acc : List ScoredInd) (g : RS), ∃ g2,
    tournamentDraw ce2Sorted n acc g = (acc ++ List.replicate n ⟨ce2Bare, 10⟩, g2)
  | 0, acc, g => ⟨g, by simp [tournamentDraw]⟩
  | n + 1, acc, g => by
    have hlt : g.fn g.idx % ce2Sorted.length < 50 := by
      rw [ce2_sorted_len]; exact Nat.mod_lt _ (by norm_num)
    have hget : ce2Sorted.getD (g.fn g.idx % ce2Sorted.length) default = ⟨ce2Bare, 10⟩ :=
      getD_replicate _ _ hlt
    obtain ⟨g2, ih⟩ := ce2_tournamentDraw n (acc ++ [⟨ce2Bare, 10⟩]) ⟨g.fn, g.idx + 1⟩
    refine ⟨g2, ?_⟩
    rw [show tournamentDraw ce2Sorted (n + 1) acc g =
        tournamentDraw ce2Sorted n (acc ++ [ce2Sorted.getD (g.fn g.idx % ce2Sorted.length) default])
          ⟨g.fn, g.idx + 1⟩ from rfl, hget, ih]
    simp [List.replicate_succ]

theorem ce2_tournament (g : RS) : ∃ g2, tournamentSelect ce2Sorted g = (ce2Bare, g2) := by
  obtain ⟨g2, hd⟩ := ce2_tournamentDraw 5 [] g
  refine ⟨g2, ?_⟩
  simp only [tournamentSelect, hd]
  with_unfolding_all rfl

theorem ce2_crossover (g : RS) : crossover 2 ce2Bare ce2Bare g = (ce2Bare, g) := rfl

theorem ce2_mutate (g : RS) : mutate 2 ammoCases ce2Bare g = (ce2Bare, g) := rfl

theorem ce2_makeOffspring (g : RS) : ∃ g2,
    makeOffspring 2 ammoCases ce2Sorted g = (ce2Bare, g2) := by
  obtain ⟨g1, h1⟩ := ce2_tournament g
  obtain ⟨g2, h2⟩ := ce2_tournament g1
  refine ⟨⟨g2.fn, g2.idx + 1⟩, ?_⟩
  simp [makeOffspring, h1, h2, ce2_crossover, ce2_mutate, draw_eq, ite_self]

theorem ce2_offspringList : ∀ (n : Nat) (g : RS), ∃ g2,
    makeOffspringList 2 ammoCases ce2Sorted n g = (List.replicate n ce2Bare, g2)
  | 0, g => ⟨g, rfl⟩
  | n + 1, g => by
    obtain ⟨g1, h1⟩ := ce2_makeOffspring g
    obtain ⟨g2, h2⟩ := ce2_offspringList n g1
    exact ⟨g2, by simp [makeOffspringList, h1, h2, List.replicate_succ]⟩

theorem ce2_genStep (g : RS) : ∃ g2, generationStep 2 ammoCases ce2Pop g = (ce2Pop, g2) := by
  obtain ⟨g2, ho⟩ := ce2_offspringList (POPULATION_SIZE - ELITE_COUNT) g
  refine ⟨g2, ?_⟩
  simp only [generationStep, ce2_sorted_eval, ho]
  with_unfolding_all rfl

theorem ce2_runGen : ∀ (n : Nat) (g : RS), ∃ g2,
    runGenerations 2 ammoCases n ce2Pop g = (ce2Pop, g2)
  | 0, g => ⟨g, rfl⟩
  | n + 1, g => by
    obtain ⟨g1, h1⟩ := ce2_genStep g
    obtain ⟨g2, h2⟩ := ce2_runGen n g1
    exact ⟨g2, by simp [runGenerations, h1, h2]⟩

theorem expand_ammo : expandAndSort [("ammo", 1)] = ammoCases := by
  with_unfolding_all rfl

theorem ce2_pop_glue :
    List.replicate SORTED_INDIVIDUAL_COUNT ce2Bare ++
      List.replicate (POPULATION_SIZE - SORTED_INDIVIDUAL_COUNT) ce2Bare = ce2Pop := by
  with_unfolding_all rfl

theorem ce2_result :
    optimizeStashLayout [("ammo", 1)] 2 ce2Locked .genetic zeroOracle =
      ⟨ce2Grid, ce2Bare, [], 2⟩ := by
  obtain ⟨g1, hinit⟩ := ce2_initPop (POPULATION_SIZE - SORTED_INDIVIDUAL_COUNT) ⟨zeroOracle, 0⟩
  obtain ⟨g2, hrun⟩ := ce2_runGen GENERATIONS g1
  simp only [optimizeStashLayout, expand_ammo, geneticOptimization, ce2_seed, range_map_const,
    List.length_range, hinit, ce2_pop_glue, hrun]
  with_unfolding_all rfl

/-! ### The genetic packer on the colliding-id input (ce1): mutation ignores the
locked case with the same id and moves the instance on top of it. -/

theorem tournamentDraw_succ (s : List ScoredInd) (n : Nat) (acc : List ScoredInd) (g : RS) :
    tournamentDraw s (n + 1) acc g =
      tournamentDraw s n (acc ++ [s.getD (g.fn g.idx % s.length) default]) ⟨g.fn, g.idx + 1⟩ :=
  rfl

theorem runGenerations_succ (h : Nat) (ac : List CaseInstance) (n : Nat)
    (pop : List (List PlacedCase)) (g : RS) :
    runGenerations h ac (n + 1) pop g =
      runGenerations h ac n (generationStep h ac pop g).1 (generationStep h ac pop g).2 :=
  rfl

theorem ce1_grid_eval : placeLocked 2 ce1Locked (mkGrid 2) = ce1Grid := by
  with_unfolding_all rfl

theorem ce1_tryPlace_step (fuel i : Nat) :
    tryPlaceCase 2 [(2, 2, false)] ce1Grid (fuel + 1) ⟨zeroOracle, i⟩ =
      tryPlaceCase 2 [(2, 2, false)] ce1Grid fuel ⟨zeroOracle, i + 3⟩ := by
  with_unfolding_all rfl

theorem ce1_tryPlace : ∀ (fuel i : Nat), ∃ j,
    tryPlaceCase 2 [(2, 2, false)] ce1Grid fuel ⟨zeroOracle, i⟩ = (none, ⟨zeroOracle, j⟩)
  | 0, i => ⟨i, rfl⟩
  | fuel + 1, i => by
    obtain ⟨j, ih⟩ := ce1_tryPlace fuel (i + 3)
    exact ⟨j, by rw [ce1_tryPlace_step, ih]⟩

theorem ce1_randomInd (i : Nat) : ∃ j,
    randomIndividual 2 ce1Locked ammoCases ⟨zeroOracle, i⟩ = (ce1Bare, ⟨zeroOracle, j⟩) := by
  obtain ⟨j, htry⟩ := ce1_tryPlace 100 (i + 1)
  refine ⟨j, ?_⟩
  simp only [randomIndividual, ammoCases, shuffle_singleton, ce1_grid_eval]
  simp [randomPlaceStep, orientationsOf, ce1_grid_eval, htry, ce1Locked, ce1Bare, withLockedFlag]

theorem ce1_initPop : ∀ (n i : Nat), ∃ j,
    initPopulation 2 ce1Locked ammoCases n ⟨zeroOracle, i⟩ =
      (List.replicate n ce1Bare, ⟨zeroOracle, j⟩)
  | 0, i => ⟨i, rfl⟩
  | n + 1, i => by
    obtain ⟨j1, h1⟩ := ce1_randomInd i
    obtain ⟨j2, h2⟩ := ce1_initPop n j1
    exact ⟨j2, by simp [initPopulation, h1, h2, List.replicate_succ]⟩

theorem ce1_seed : (greedyOptimization ammoCases 2 ce1Locked).placedCases = ce1Seed := by
  with_unfolding_all rfl

theorem ce1_sorted0_eval :
    sortScores (scorePopulation ammoCases.length 2 ce1Pop0) = ce1Sorted0 := by
  with_unfolding_all rfl

theorem ce1_sorted1_eval :
    sortScores (scorePopulation ammoCases.length 2 ce1Pop1) = ce1Sorted1 := by
  with_unfolding_all rfl

theorem ce1_sorted2_eval :
    sortScores (scorePopulation ammoCases.length 2 ce1Pop2) = ce1Sorted2 := by
  with_unfolding_all rfl

theorem tournamentDraw_zero (s : List ScoredInd) (X : ScoredInd) (hX : s.getD 0 default = X) :
    ∀ (n : Nat) (acc : List ScoredInd) (i : Nat),
      tournamentDraw s n acc ⟨zeroOracle, i⟩ = (acc ++ List.replicate n X, ⟨zeroOracle, i + n⟩)
  | 0, acc, i => by simp [tournamentDraw]
  | n + 1, acc, i => by
    rw [tournamentDraw_succ]
    show tournamentDraw s n (acc ++ [s.getD (zeroOracle i % s.length) default])
        ⟨zeroOracle, i + 1⟩ = _
    have h0 : zeroOracle i % s.length = 0 := by simp [zeroOracle]
    rw [h0, hX, tournamentDraw_zero s X hX n (acc ++ [X]) (i + 1), List.append_assoc]
    have hrep : [X] ++ List.replicate n X = List.replicate (n + 1) X := by
      simp [List.replicate_succ]
    rw [hrep]
    have harith : i + 1 + n = i + (n + 1) := by omega
    rw [harith]

theorem ce1_tournament0 (i : Nat) : ∃ j,
    tournamentSelect ce1Sorted0 ⟨zeroOracle, i⟩ = (ce1Seed, ⟨zeroOracle, j⟩) := by
  refine ⟨i + 5, ?_⟩
  simp only [tournamentSelect,
    tournamentDraw_zero ce1Sorted0 ⟨ce1Seed, 1320⟩ (by with_unfolding_all rfl)]
  with_unfolding_all rfl

theorem ce1_tournament1 (i : Nat) : ∃ j,
    tournamentSelect ce1Sorted1 ⟨zeroOracle, i⟩ = (ce1Overlap, ⟨zeroOracle, j⟩) := by
  refine ⟨i + 5, ?_⟩
  simp only [tournamentSelect,
    tournamentDraw_zero ce1Sorted1 ⟨ce1Overlap, 1420⟩ (by with_unfolding_all rfl)]
  with_unfolding_all rfl

theorem ce1_tournament2 (i : Nat) : ∃ j,
    tournamentSelect ce1Sorted2 ⟨zeroOracle, i⟩ = (ce1Overlap, ⟨zeroOracle, j⟩) := by
  refine ⟨i + 5, ?_⟩
  simp only [tournamentSelect,
    tournamentDraw_zero ce1Sorted2 ⟨ce1Overlap, 1420⟩ (by with_unfolding_all rfl)]
  with_unfolding_all rfl

theorem ce1_crossover_seed (i : Nat) :
    crossover 2 ce1Seed ce1Seed ⟨zeroOracle, i⟩ = (ce1Seed, ⟨zeroOracle, i + 1⟩) := by
  with_unfolding_all rfl

theorem ce1_crossover_overlap (i : Nat) :
    crossover 2 ce1Overlap ce1Overlap ⟨zeroOracle, i⟩ = (ce1Bare, ⟨zeroOracle, i + 1⟩) := by
  with_unfolding_all rfl

theorem ce1_mutate_seed (i : Nat) :
    mutate 2 ammoCases ce1Seed ⟨zeroOracle, i⟩ = (ce1Overlap, ⟨zeroOracle, i + 4⟩) := by
  with_unfolding_all rfl

theorem ce1_mutate_bare (i : Nat) :
    mutate 2 ammoCases ce1Bare ⟨zeroOracle, i⟩ = (ce1Bare, ⟨zeroOracle, i⟩) := rfl

theorem ce1_makeOffspring0 (i : Nat) : ∃ j,
    makeOffspring 2 ammoCases ce1Sorted0 ⟨zeroOracle, i⟩ = (ce1Overlap, ⟨zeroOracle, j⟩) := by
  obtain ⟨j1, h1⟩ := ce1_tournament0 i
  obtain ⟨j2, h2⟩ := ce1_tournament0 j1
  refine ⟨j2 + 1 + 1 + 4, ?_⟩
  simp [makeOffspring, h1, h2, ce1_crossover_seed, draw_eq, zeroOracle, ce1_mutate_seed]

theorem ce1_makeOffspring1 (i : Nat) : ∃ j,
    makeOffspring 2 ammoCases ce1Sorted1 ⟨zeroOracle, i⟩ = (ce1Bare, ⟨zeroOracle, j⟩) := by
  obtain ⟨j1, h1⟩ := ce1_tournament1 i
  obtain ⟨j2, h2⟩ := ce1_tournament1 j1
  refine ⟨j2 + 1 + 1, ?_⟩
  simp [makeOffspring, h1, h2, ce1_crossover_overlap, draw_eq, zeroOracle, ce1_mutate_bare]

theorem ce1_makeOffspring2 (i : Nat) : ∃ j,
    makeOffspring 2 ammoCases ce1Sorted2 ⟨zeroOracle, i⟩ = (ce1Bare, ⟨zeroOracle, j⟩) := by
  obtain ⟨j1, h1⟩ := ce1_tournament2 i
  obtain ⟨j2, h2⟩ := ce1_tournament2 j1
  refine ⟨j2 + 1 + 1, ?_⟩
  simp [makeOffspring, h1, h2, ce1_crossover_overlap, draw_eq, zeroOracle, ce1_mutate_bare]

theorem ce1_offspringList0 : ∀ (n i : Nat), ∃ j,
    makeOffspringList 2 ammoCases ce1Sorted0 n ⟨zeroOracle, i⟩ =
      (List.replicate n ce1Overlap, ⟨zeroOracle, j⟩)
  | 0, i => ⟨i, rfl⟩
  | n + 1, i => by
    obtain ⟨j1, h1⟩ := ce1_makeOffspring0 i
    obtain ⟨j2, h2⟩ := ce1_offspringList0 n j1
    exact ⟨j2, by simp [makeOffspringList, h1, h2, List.replicate_succ]⟩

theorem ce1_offspringList1 : ∀ (n i : Nat), ∃ j,
    makeOffspringList 2 ammoCases ce1Sorted1 n ⟨zeroOracle, i⟩ =
      (List.replicate n ce1Bare, ⟨zeroOracle, j⟩)
  | 0, i => ⟨i, rfl⟩
  | n + 1, i => by
    obtain ⟨j1, h1⟩ := ce1_makeOffspring1 i
    obtain ⟨j2, h2⟩ := ce1_offspringList1 n j1
    exact ⟨j2, by simp [makeOffspringList, h1, h2, List.replicate_succ]⟩

theorem ce1_offspringList2 : ∀ (n i : Nat), ∃ j,
    makeOffspringList 2 ammoCases ce1Sorted2 n ⟨zeroOracle, i⟩ =
      (List.replicate n ce1Bare, ⟨zeroOracle, j⟩)
  | 0, i => ⟨i, rfl⟩
  | n + 1, i => by
    obtain ⟨j1, h1⟩ := ce1_makeOffspring2 i
    obtain ⟨j2, h2⟩ := ce1_offspringList2 n j1
    exact ⟨j2, by simp [makeOffspringList, h1, h2, List.replicate_succ]⟩

theorem ce1_genStep0 (i : Nat) : ∃ j,
    generationStep 2 ammoCases ce1Pop0 ⟨zeroOracle, i⟩ = (ce1Pop1, ⟨zeroOracle, j⟩) := by
  obtain ⟨j, ho⟩ := ce1_offspringList0 (POPULATION_SIZE - ELITE_COUNT) i
  refine ⟨j, ?_⟩
  simp only [generationStep, ce1_sorted0_eval, ho]
  with_unfolding_all rfl

theorem ce1_genStep1 (i : Nat) : ∃ j,
    generationStep 2 ammoCases ce1Pop1 ⟨zeroOracle, i⟩ = (ce1Pop2, ⟨zeroOracle, j⟩) := by
  obtain ⟨j, ho⟩ := ce1_offspringList1 (POPULATION_SIZE - ELITE_COUNT) i
  refine ⟨j, ?_⟩
  simp only [generationStep, ce1_sorted1_eval, ho]
  with_unfolding_all rfl

theorem ce1_genStep2 (i : Nat) : ∃ j,
    generationStep 2 ammoCases ce1Pop2 ⟨zeroOracle, i⟩ = (ce1Pop2, ⟨zeroOracle, j⟩) := by
  obtain ⟨j, ho⟩ := ce1_offspringList2 (POPULATION_SIZE - ELITE_COUNT) i
  refine ⟨j, ?_⟩
  simp only [generationStep, ce1_sorted2_eval, ho]
  with_unfolding_all rfl

theorem ce1_runGenTail : ∀ (n i : Nat), ∃ j,
    runGenerations 2 ammoCases n ce1Pop2 ⟨zeroOracle, i⟩ = (ce1Pop2, ⟨zeroOracle, j⟩)
  | 0, i => ⟨i, rfl⟩
  | n + 1, i => by
    obtain ⟨j1, h1⟩ := ce1_genStep2 i
    obtain ⟨j2, h2⟩ := ce1_runGenTail n j1
    exact ⟨j2, by rw [runGenerations_succ, h1]; simpa using h2⟩

theorem ce1_runGenFull (i : Nat) : ∃ j,
    runGenerations 2 ammoCases GENERATIONS ce1Pop0 ⟨zeroOracle, i⟩ =
      (ce1Pop2, ⟨zeroOracle, j⟩) := by
  obtain ⟨j1, h1⟩ := ce1_genStep0 i
  obtain ⟨j2, h2⟩ := ce1_genStep1 j1
  obtain ⟨j3, h3⟩ := ce1_runGenTail 98 j2
  refine ⟨j3, ?_⟩
  show runGenerations 2 ammoCases (98 + 1 + 1) ce1Pop0 ⟨zeroOracle, i⟩ = _
  rw [runGenerations_succ, h1]
  show runGenerations 2 ammoCases (98 + 1) ce1Pop1 ⟨zeroOracle, j1⟩ = _
  rw [runGenerations_succ, h2]
  exact h3

theorem ce1_pop_glue :
    List.replicate SORTED_INDIVIDUAL_COUNT ce1Seed ++
      List.replicate (POPULATION_SIZE - SORTED_INDIVIDUAL_COUNT) ce1Bare = ce1Pop0 := by
  with_unfolding_all rfl

theorem ce1_result :
    optimizeStashLayout [("ammo", 1)] 2 ce1Locked .genetic zeroOracle =
      ⟨ce1Grid, ce1Overlap, [], 2⟩ := by
  obtain ⟨j1, hinit⟩ := ce1_initPop (POPULATION_SIZE - SORTED_INDIVIDUAL_COUNT) 0
  obtain ⟨j2, hrun⟩ := ce1_runGenFull j1
  simp only [optimizeStashLayout, expand_ammo, geneticOptimization, ce1_seed, range_map_const,
    List.length_range, hinit, ce1_pop_glue, hrun]
  with_unfolding_all rfl

/-! ### Greedy re-run (no-thrashing) counterexample evaluations -/

theorem ce4_run1_placed :
    (optimizeStashLayout [("THICCItems", 2)] 6 ce4Locked .greedy zeroOracle).placedCases =
      [⟨"L1", "custom_2x2", 5, 3, 2, 2, false, true⟩,
       ⟨"L2", "custom_1x2", 9, 1, 1, 2, false, true⟩,
       ⟨"L3", "ammo", 1, 1, 2, 2, false, true⟩,
       ⟨"THICCItems-0", "THICCItems", 0, 3, 5, 3, false, false⟩] := by
  with_unfolding_all rfl

theorem ce4_run1_unplaced :
    (optimizeStashLayout [("THICCItems", 2)] 6 ce4Locked .greedy zeroOracle).unplacedCases =
      [⟨"THICCItems-1", "THICCItems", 5, 3⟩] := by
  with_unfolding_all rfl

theorem ce4_run2_unplaced :
    (optimizeStashLayout [("THICCItems", 1)] 6
        [⟨"L1", "custom_2x2", 5, 3, 2, 2, false, true⟩,
         ⟨"L2", "custom_1x2", 9, 1, 1, 2, false, true⟩,
         ⟨"L3", "ammo", 1, 1, 2, 2, false, true⟩,
         ⟨"THICCItems-0", "THICCItems", 0, 3, 5, 3, false, false⟩] .greedy
        zeroOracle).unplacedCases = [] := by
  with_unfolding_all rfl

theorem ce4_run2_newPlacement :
    countNonLocked (optimizeStashLayout [("THICCItems", 1)] 6
        [⟨"L1", "custom_2x2", 5, 3, 2, 2, false, true⟩,
         ⟨"L2", "custom_1x2", 9, 1, 1, 2, false, true⟩,
         ⟨"L3", "ammo", 1, 1, 2, 2, false, true⟩,
         ⟨"THICCItems-0", "THICCItems", 0, 3, 5, 3, false, false⟩] .greedy
        zeroOracle).placedCases = 1 := by
  with_unfolding_all rfl

/-! ### Fitness formula lemmas -/

theorem bonus_fold_eq (l : List PlacedCase) : ∀ q : ℚ,
    l.foldl (fun acc c => if 0 < c.width ∧ c.x % c.width = 0 then acc + 10 else acc) q =
      q + 10 * alignedCount l := by
  induction l with
  | nil => intro q; simp [alignedCount]
  | cons a l ih =>
    intro q
    by_cases hp : 0 < a.width ∧ a.x % a.width = 0
    · simp only [List.foldl_cons, if_pos hp, ih (q + 10), alignedCount, List.countP_cons,
        decide_eq_true_eq, if_pos hp]
      push_cast
      ring
    · simp only [List.foldl_cons, if_neg hp, ih q, alignedCount, List.countP_cons,
        decide_eq_true_eq, if_neg hp]
      push_cast
      ring

theorem evaluateFitness_formula (t h : Nat) (ind : List PlacedCase) :
    evaluateFitness t h ind =
      ((countNonLocked ind : ℚ) / (t : ℚ)) * 1000 +
        (1 - ((originMaxX ind : ℚ) * (originMaxY ind : ℚ)) / ((GRID_WIDTH : ℚ) * (h : ℚ))) * 500 +
        10 * (alignedCount ind : ℚ) := by
  simp only [evaluateFitness, countNonLocked, originMaxX, originMaxY]
  rw [bonus_fold_eq]
  ring

theorem ce8_lhs : evaluateFitness 1 10 ce8Ind = 1330 := by
  with_unfolding_all rfl

theorem ce8_rhs :
    ((countNonLocked ce8Ind : ℚ) / (1 : ℚ)) * 1000 +
        (1 - (specSmallestEnclosingArea ce8Ind : ℚ) / ((GRID_WIDTH : ℚ) * (10 : ℚ))) * 500 +
        10 * (alignedCount ce8Ind : ℚ) = 1505 := by
  with_unfolding_all rfl

/-! ### getAvailableSpace: runs, minima, and the maximal anchored rectangle -/

theorem rowRun_succ_occ (row : List (Option String)) (x f : Nat) (s : String)
    (hc : row.getD x none = some s) : rowRun row x (f + 1) = 0 := by
  have he : rowRun row x (f + 1) =
      (match row.getD x none with
       | some _ => 0
       | none => rowRun row (x + 1) f + 1) := rfl
  rw [he, hc]

theorem rowRun_succ_empty (row : List (Option String)) (x f : Nat)
    (hc : row.getD x none = none) : rowRun row x (f + 1) = rowRun row (x + 1) f + 1 := by
  have he : rowRun row x (f + 1) =
      (match row.getD x none with
       | some _ => 0
       | none => rowRun row (x + 1) f + 1) := rfl
  rw [he, hc]

theorem colRun_succ_occ (grid : StashGrid) (x y f : Nat) (s : String)
    (hc : getCell grid x y = some s) : colRun grid x y (f + 1) = 0 := by
  have he : colRun grid x y (f + 1) =
      (match getCell grid x y with
       | some _ => 0
       | none => colRun grid x (y + 1) f + 1) := rfl
  rw [he, hc]

theorem colRun_succ_empty (grid : StashGrid) (x y f : Nat)
    (hc : getCell grid x y = none) : colRun grid x y (f + 1) = colRun grid x (y + 1) f + 1 := by
  have he : colRun grid x y (f + 1) =
      (match getCell grid x y with
       | some _ => 0
       | none => colRun grid x (y + 1) f + 1) := rfl
  rw [he, hc]

theorem rowRun_le (row : List (Option String)) : ∀ (fuel x : Nat), rowRun row x fuel ≤ fuel
  | 0, _ => Nat.le_refl 0
  | fuel + 1, x => by
    cases hc : row.getD x none with
    | some s => rw [rowRun_succ_occ row x fuel s hc]; exact Nat.zero_le _
    | none =>
      rw [rowRun_succ_empty row x fuel hc]
      exact Nat.succ_le_succ (rowRun_le row fuel (x + 1))

theorem rowRun_empty (row : List (Option String)) : ∀ (fuel x k : Nat),
    k < rowRun row x fuel → row.getD (x + k) none = none
  | 0, x, k => by intro h; exact absurd h (by simp [rowRun])
  | fuel + 1, x, k => by
    cases hc : row.getD x none with
    | some s => rw [rowRun_succ_occ row x fuel s hc]; intro h; exact absurd h (by omega)
    | none =>
      rw [rowRun_succ_empty row x fuel hc]
      intro h
      match k with
      | 0 => simpa using hc
      | k + 1 =>
        have := rowRun_empty row fuel (x + 1) k (by omega)
        simpa [Nat.add_comm, Nat.add_assoc, Nat.add_left_comm] using this

theorem rowRun_stop (row : List (Option String)) : ∀ (fuel x : Nat),
    rowRun row x fuel < fuel → row.getD (x + rowRun row x fuel) none ≠ none
  | 0, x => by intro h; exact absurd h (by omega)
  | fuel + 1, x => by
    cases hc : row.getD x none with
    | some s =>
      rw [rowRun_succ_occ row x fuel s hc]
      intro _
      rw [Nat.add_zero, hc]
      simp
    | none =>
      rw [rowRun_succ_empty row x fuel hc]
      intro h
      have := rowRun_stop row fuel (x + 1) (by omega)
      simpa [Nat.add_comm, Nat.add_assoc, Nat.add_left_comm] using this

theorem rowRun_pos (row : List (Option String)) (f x : Nat)
    (hc : row.getD x none = none) : 0 < rowRun row x (f + 1) := by
  rw [rowRun_succ_empty row x f hc]
  exact Nat.succ_pos _

theorem colRun_le (grid : StashGrid) (x : Nat) : ∀ (fuel y : Nat), colRun grid x y fuel ≤ fuel
  | 0, _ => Nat.le_refl 0
  | fuel + 1, y => by
    cases hc : getCell grid x y with
    | some s => rw [colRun_succ_occ grid x y fuel s hc]; exact Nat.zero_le _
    | none =>
      rw [colRun_succ_empty grid x y fuel hc]
      exact Nat.succ_le_succ (colRun_le grid x fuel (y + 1))

theorem colRun_empty (grid : StashGrid) (x : Nat) : ∀ (fuel y k : Nat),
    k < colRun grid x y fuel → getCell grid x (y + k) = none
  | 0, y, k => by intro h; exact absurd h (by simp [colRun])
  | fuel + 1, y, k => by
    cases hc : getCell grid x y with
    | some s => rw [colRun_succ_occ grid x y fuel s hc]; intro h; exact absurd h (by omega)
    | none =>
      rw [colRun_succ_empty grid x y fuel hc]
      intro h
      match k with
      | 0 => simpa using hc
      | k + 1 =>
        have := colRun_empty grid x fuel (y + 1) k (by omega)
        simpa [Nat.add_comm, Nat.add_assoc, Nat.add_left_comm] using this

theorem colRun_stop (grid : StashGrid) (x : Nat) : ∀ (fuel y : Nat),
    colRun grid x y fuel < fuel → getCell grid x (y + colRun grid x y fuel) ≠ none
  | 0, y => by intro h; exact absurd h (by omega)
  | fuel + 1, y => by
    cases hc : getCell grid x y with
    | some s =>
      rw [colRun_succ_occ grid x y fuel s hc]
      intro _
      rw [Nat.add_zero, hc]
      simp
    | none =>
      rw [colRun_succ_empty grid x y fuel hc]
      intro h
      have := colRun_stop grid x fuel (y + 1) (by omega)
      simpa [Nat.add_comm, Nat.add_assoc, Nat.add_left_comm] using this

theorem colRun_pos (grid : StashGrid) (f x y : Nat)
    (hc : getCell grid x y = none) : 0 < colRun grid x y (f + 1) := by
  rw [colRun_succ_empty grid x y f hc]
  exact Nat.succ_pos _

theorem foldl_min_le_init {α : Type} (f : α → Nat) : ∀ (l : List α) (i : Nat),
    l.foldl (fun acc a => min acc (f a)) i ≤ i
  | [], i => Nat.le_refl i
  | a :: l, i => Nat.le_trans (foldl_min_le_init f l (min i (f a))) (Nat.min_le_left _ _)

theorem foldl_min_le_elem {α : Type} (f : α → Nat) : ∀ (l : List α) (i : Nat) (a : α),
    a ∈ l → l.foldl (fun acc b => min acc (f b)) i ≤ f a
  | [], i, a, ha => absurd ha (List.not_mem_nil a)
  | b :: l, i, a, ha => by
    rcases List.mem_cons.mp ha with h | h
    · subst h
      exact Nat.le_trans (foldl_min_le_init f l (min i (f a))) (Nat.min_le_right _ _)
    · exact foldl_min_le_elem f l (min i (f b)) a h

theorem foldl_min_cases {α : Type} (f : α → Nat) : ∀ (l : List α) (i : Nat),
    l.foldl (fun acc a => min acc (f a)) i = i ∨
      ∃ a ∈ l, l.foldl (fun acc b => min acc (f b)) i = f a
  | [], i => Or.inl rfl
  | a :: l, i => by
    rcases foldl_min_cases f l (min i (f a)) with h | ⟨b, hb, h⟩
    · rcases Nat.le_total i (f a) with hle | hle
      · left; simpa [Nat.min_eq_left hle] using h
      · right; exact ⟨a, List.mem_cons_self a l, by simpa [Nat.min_eq_right hle] using h⟩
    · right; exact ⟨b, List.mem_cons_of_mem a hb, h⟩

theorem foldl_min_lb {α : Type} (f : α → Nat) (m : Nat) : ∀ (l : List α) (i : Nat),
    m ≤ i → (∀ a ∈ l, m ≤ f a) → m ≤ l.foldl (fun acc a => min acc (f a)) i
  | [], i, hi, _ => hi
  | a :: l, i, hi, hl => by
    refine foldl_min_lb f m l (min i (f a)) ?_ ?_
    · exact Nat.le_min.mpr ⟨hi, hl a (List.mem_cons_self a l)⟩
    · exact fun b hb => hl b (List.mem_cons_of_mem a hb)

theorem avail_emptyRect (grid : StashGrid) (h x y : Nat) :
    emptyRect grid x y (getAvailableSpace grid h x y).1 (getAvailableSpace grid h x y).2 := by
  intro dx dy hdx hdy
  have hdx2 : dx < (List.range (colRun grid x y (h - y))).foldl
      (fun acc dy2 => min acc (rowRun (grid.getD (y + dy2) []) x
        (rowRun (grid.getD y []) x (GRID_WIDTH - x))))
      (rowRun (grid.getD y []) x (GRID_WIDTH - x)) := hdx
  have hdy2 : dy < colRun grid x y (h - y) := hdy
  have hle := foldl_min_le_elem
    (fun dy2 => rowRun (grid.getD (y + dy2) []) x (rowRun (grid.getD y []) x (GRID_WIDTH - x)))
    (List.range (colRun grid x y (h - y)))
    (rowRun (grid.getD y []) x (GRID_WIDTH - x)) dy (List.mem_range.mpr hdy2)
  exact rowRun_empty (grid.getD (y + dy) []) _ x dx (Nat.lt_of_lt_of_le hdx2 hle)

theorem avail_height_max (grid : StashGrid) (h x y : Nat) (hy : y < h) :
    y + (getAvailableSpace grid h x y).2 = h ∨
      getCell grid x (y + (getAvailableSpace grid h x y).2) ≠ none := by
  have hle : colRun grid x y (h - y) ≤ h - y := colRun_le grid x (h - y) y
  by_cases heq : colRun grid x y (h - y) = h - y
  · left
    show y + colRun grid x y (h - y) = h
    omega
  · right
    show getCell grid x (y + colRun grid x y (h - y)) ≠ none
    exact colRun_stop grid x (h - y) y (by omega)

theorem avail_pos (grid : StashGrid) (h x y : Nat) (hx : x < GRID_WIDTH) (hy : y < h)
    (hc : getCell grid x y = none) :
    0 < (getAvailableSpace grid h x y).1 ∧ 0 < (getAvailableSpace grid h x y).2 := by
  have hmH : 0 < colRun grid x y (h - y) := by
    obtain ⟨k, hk⟩ : ∃ k, h - y = k + 1 := ⟨h - y - 1, by omega⟩
    rw [hk]
    exact colRun_pos grid k x y hc
  have hmW : 0 < rowRun (grid.getD y []) x (GRID_WIDTH - x) := by
    obtain ⟨k, hk⟩ : ∃ k, GRID_WIDTH - x = k + 1 := ⟨GRID_WIDTH - x - 1, by omega⟩
    rw [hk]
    exact rowRun_pos (grid.getD y []) k x hc
  refine ⟨?_, hmH⟩
  show 0 < (List.range (colRun grid x y (h - y))).foldl
      (fun acc dy2 => min acc (rowRun (grid.getD (y + dy2) []) x
        (rowRun (grid.getD y []) x (GRID_WIDTH - x))))
      (rowRun (grid.getD y []) x (GRID_WIDTH - x))
  refine foldl_min_lb _ 1 _ _ hmW ?_
  intro dy hdy
  have hdy2 : dy < colRun grid x y (h - y) := List.mem_range.mp hdy
  have hcol : getCell grid x (y + dy) = none := colRun_empty grid x (h - y) y dy hdy2
  obtain ⟨k, hk⟩ : ∃ k, rowRun (grid.getD y []) x (GRID_WIDTH - x) = k + 1 :=
    ⟨rowRun (grid.getD y []) x (GRID_WIDTH - x) - 1, by omega⟩
  rw [hk]
  exact rowRun_pos (grid.getD (y + dy) []) k x hcol

theorem avail_width_max (grid : StashGrid) (h x y : Nat) (hx : x < GRID_WIDTH) (hy : y < h)
    (hc : getCell grid x y = none) :
    x + (getAvailableSpace grid h x y).1 = GRID_WIDTH ∨
      ∃ dy, dy < (getAvailableSpace grid h x y).2 ∧
        getCell grid (x + (getAvailableSpace grid h x y).1) (y + dy) ≠ none := by
  have hpos := avail_pos grid h x y hx hy hc
  have hinit : (getAvailableSpace grid h x y).1 ≤ rowRun (grid.getD y []) x (GRID_WIDTH - x) :=
    foldl_min_le_init
      (fun dy2 => rowRun (grid.getD (y + dy2) []) x (rowRun (grid.getD y []) x (GRID_WIDTH - x)))
      (List.range (colRun grid x y (h - y))) (rowRun (grid.getD y []) x (GRID_WIDTH - x))
  by_cases heq : (getAvailableSpace grid h x y).1 = rowRun (grid.getD y []) x (GRID_WIDTH - x)
  · have hfle : rowRun (grid.getD y []) x (GRID_WIDTH - x) ≤ GRID_WIDTH - x :=
      rowRun_le (grid.getD y []) (GRID_WIDTH - x) x
    by_cases hfull : rowRun (grid.getD y []) x (GRID_WIDTH - x) = GRID_WIDTH - x
    · left
      rw [heq, hfull]
      omega
    · right
      refine ⟨0, hpos.2, ?_⟩
      rw [Nat.add_zero, heq]
      exact rowRun_stop (grid.getD y []) (GRID_WIDTH - x) x (by omega)
  · rcases foldl_min_cases
      (fun dy2 => rowRun (grid.getD (y + dy2) []) x (rowRun (grid.getD y []) x (GRID_WIDTH - x)))
      (List.range (colRun grid x y (h - y)))
      (rowRun (grid.getD y []) x (GRID_WIDTH - x)) with hca | ⟨dy, hdy, hca⟩
    · exact absurd hca heq
    · right
      refine ⟨dy, List.mem_range.mp hdy, ?_⟩
      have hlt : (getAvailableSpace grid h x y).1 <
          rowRun (grid.getD y []) x (GRID_WIDTH - x) := by
        have : (getAvailableSpace grid h x y).1 =
            rowRun (grid.getD (y + dy) []) x (rowRun (grid.getD y []) x (GRID_WIDTH - x)) := hca
        omega
      have hstop := rowRun_stop (grid.getD (y + dy) []) 
        (rowRun (grid.getD y []) x (GRID_WIDTH - x)) x (by
          have : (getAvailableSpace grid h x y).1 =
              rowRun (grid.getD (y + dy) []) x
                (rowRun (grid.getD y []) x (GRID_WIDTH - x)) := hca
          omega)
      have hrw : rowRun (grid.getD (y + dy) []) x
          (rowRun (grid.getD y []) x (GRID_WIDTH - x)) = (getAvailableSpace grid h x y).1 :=
        hca.symm
      rw [hrw] at hstop
      exact hstop

/-! ### getAvailableSpace does not return the largest anchored rectangle -/

theorem ce9_avail : getAvailableSpace ce9Grid 2 0 0 = (1, 2) := by
  with_unfolding_all rfl

theorem ce9_empty_cell : getCell ce9Grid 0 0 = none := rfl

theorem ce9_wideStrip : emptyRect ce9Grid 0 0 5 1 := by
  intro dx dy hdx hdy
  interval_cases dy
  interval_cases dx <;> rfl

theorem ce9_not_largest : ¬ isLargestAnchored ce9Grid 2 0 0 := by
  intro h
  have h5 := h.2 5 1 ce9_wideStrip
  rw [ce9_avail] at h5
  norm_num at h5

/-! ### The expansion sort order (claim about optimizeStashLayout step 2) -/

theorem foldl_invariant {α β : Type} (P : β → Prop) (step : β → α → β) :
    ∀ (l : List α) (b : β), P b → (∀ b2 a, P b2 → P (step b2 a)) → P (l.foldl step b)
  | [], b, hb, _ => hb
  | a :: l, b, hb, hstep => foldl_invariant P step l (step b a) (hstep b a hb) hstep

theorem mapGet_nil (t : String) : mapGet [] t = 0 := rfl

theorem mapGet_cons_self (p : String × Nat) (m : List (String × Nat)) (t : String)
    (hp : p.1 = t) : mapGet (p :: m) t = p.2 := by
  simp [mapGet, List.find?, hp]

theorem mapGet_cons_ne (p : String × Nat) (m : List (String × Nat)) (t : String)
    (hp : ¬ p.1 = t) : mapGet (p :: m) t = mapGet m t := by
  simp [mapGet, List.find?, hp]

theorem mapGet_append_self (t : String) (v : Nat) : ∀ (m : List (String × Nat)),
    (¬ m.any fun p => p.1 = t) → mapGet (m ++ [(t, v)]) t = v
  | [], _ => by simp [mapGet]
  | p :: m, hany => by
    have hp : ¬ p.1 = t := fun hcon => hany (by simp [List.any_cons, hcon])
    have hm : ¬ m.any fun p => p.1 = t := fun hcon => hany (by simp [List.any_cons, hcon])
    rw [List.cons_append, mapGet_cons_ne p _ t hp]
    exact mapGet_append_self t v m hm

theorem mapGet_map_self (t : String) (v : Nat) : ∀ (m : List (String × Nat)),
    (m.any fun p => p.1 = t) → mapGet (m.map fun q => if q.1 = t then (t, v) else q) t = v
  | [], hany => by simp at hany
  | p :: m, hany => by
    by_cases hp : p.1 = t
    · rw [List.map_cons, if_pos hp, mapGet_cons_self _ _ t rfl]
    · have hm : m.any fun p => p.1 = t := by
        simp only [List.any_cons, hp] at hany
        simpa using hany
      rw [List.map_cons, if_neg hp, mapGet_cons_ne p _ t hp]
      exact mapGet_map_self t v m hm

theorem mapGet_append_ne (t τ : String) (v : Nat) (hne : ¬ τ = t) :
    ∀ (m : List (String × Nat)), mapGet (m ++ [(t, v)]) τ = mapGet m τ
  | [] => by
    rw [List.nil_append, mapGet_cons_ne _ _ τ (fun h => hne h.symm), mapGet_nil]
  | p :: m => by
    by_cases hp : p.1 = τ
    · rw [List.cons_append, mapGet_cons_self _ _ τ hp, mapGet_cons_self _ _ τ hp]
    · rw [List.cons_append, mapGet_cons_ne _ _ τ hp, mapGet_cons_ne _ _ τ hp]
      exact mapGet_append_ne t τ v hne m

theorem mapGet_map_ne (t τ : String) (v : Nat) (hne : ¬ τ = t) :
    ∀ (m : List (String × Nat)), mapGet (m.map fun q => if q.1 = t then (t, v) else q) τ = mapGet m τ
  | [] => rfl
  | p :: m => by
    by_cases hp : p.1 = t
    · rw [List.map_cons, if_pos hp]
      rw [mapGet_cons_ne _ _ τ (by simpa using fun h => hne h.symm),
        mapGet_cons_ne _ _ τ (by rw [hp]; exact fun h => hne h.symm)]
      exact mapGet_map_ne t τ v hne m
    · rw [List.map_cons, if_neg hp]
      by_cases hpτ : p.1 = τ
      · rw [mapGet_cons_self _ _ τ hpτ, mapGet_cons_self _ _ τ hpτ]
      · rw [mapGet_cons_ne _ _ τ hpτ, mapGet_cons_ne _ _ τ hpτ]
        exact mapGet_map_ne t τ v hne m

theorem mapGet_mapSet_self (t : String) (v : Nat) (m : List (String × Nat)) :
    mapGet (mapSet m t v) t = v := by
  unfold mapSet
  by_cases hany : m.any fun p => p.1 = t
  · rw [if_pos hany]; exact mapGet_map_self t v m hany
  · rw [if_neg hany]; exact mapGet_append_self t v m hany

theorem mapGet_mapSet_ne (t τ : String) (v : Nat) (hne : ¬ τ = t) (m : List (String × Nat)) :
    mapGet (mapSet m t v) τ = mapGet m τ := by
  unfold mapSet
  by_cases hany : m.any fun p => p.1 = t
  · rw [if_pos hany]; exact mapGet_map_ne t τ v hne m
  · rw [if_neg hany]; exact mapGet_append_ne t τ v hne m

theorem expand_counts_ge (caseCounts : List (String × Nat)) :
    ∀ c ∈ (expandInstances caseCounts).allCases,
      1 ≤ mapGet (expandInstances caseCounts).caseTypeCounts c.type := by
  unfold expandInstances
  refine foldl_invariant
    (fun st => ∀ c ∈ st.allCases, 1 ≤ mapGet st.caseTypeCounts c.type) expandStep
    caseCounts ⟨[], [], 0⟩ (by intro c hc; exact absurd hc (List.not_mem_nil c)) ?_
  intro st entry hst
  unfold expandStep
  by_cases hv : isValidCaseType entry.1
  · rw [if_pos hv]
    by_cases hcnt : 0 < entry.2
    · rw [if_pos hcnt]
      intro c hc
      rcases List.mem_append.mp hc with hold | hnew
      · by_cases hty : c.type = entry.1
        · rw [hty, mapGet_mapSet_self]; omega
        · rw [mapGet_mapSet_ne entry.1 c.type entry.2 hty]
          exact hst c hold
      · obtain ⟨i, _, hi⟩ := List.mem_map.mp hnew
        have hty : c.type = entry.1 := by rw [← hi]
        rw [hty, mapGet_mapSet_self]
        omega
    · rw [if_neg hcnt]; exact hst
  · rw [if_neg hv]; exact hst

theorem lexCmp_refl : ∀ l : List Nat, lexCmp l l = 0
  | [] => rfl
  | a :: l => by
    have he : lexCmp (a :: l) (a :: l) =
        if a < a then -1 else if a < a then 1 else lexCmp l l := rfl
    rw [he, if_neg (lt_irrefl a), if_neg (lt_irrefl a)]
    exact lexCmp_refl l

theorem lexCmp_neg : ∀ l1 l2 : List Nat, lexCmp l1 l2 = - lexCmp l2 l1
  | [], [] => rfl
  | [], _ :: _ => rfl
  | _ :: _, [] => rfl
  | a :: l1, b :: l2 => by
    have e1 : lexCmp (a :: l1) (b :: l2) =
        if a < b then -1 else if b < a then 1 else lexCmp l1 l2 := rfl
    have e2 : lexCmp (b :: l2) (a :: l1) =
        if b < a then -1 else if a < b then 1 else lexCmp l2 l1 := rfl
    rw [e1, e2]
    have ih := lexCmp_neg l1 l2
    split_ifs <;> omega

theorem lexCmp_eq_zero_iff : ∀ l1 l2 : List Nat, lexCmp l1 l2 = 0 ↔ l1 = l2
  | [], [] => ⟨fun _ => rfl, fun _ => rfl⟩
  | [], b :: l2 => by
    have e : lexCmp [] (b :: l2) = -1 := rfl
    rw [e]
    constructor
    · intro h; exact absurd h (by decide)
    · intro h; exact absurd h (by simp)
  | a :: l1, [] => by
    have e : lexCmp (a :: l1) [] = 1 := rfl
    rw [e]
    constructor
    · intro h; exact absurd h (by decide)
    · intro h; exact absurd h (by simp)
  | a :: l1, b :: l2 => by
    have e1 : lexCmp (a :: l1) (b :: l2) =
        if a < b then -1 else if b < a then 1 else lexCmp l1 l2 := rfl
    rw [e1]
    rcases Nat.lt_trichotomy a b with h | h | h
    · rw [if_pos h]
      constructor
      · intro hc; exact absurd hc (by decide)
      · intro hc; injection hc with h1 _; omega
    · subst h
      rw [if_neg (lt_irrefl a), if_neg (lt_irrefl a)]
      rw [lexCmp_eq_zero_iff l1 l2]
      constructor
      · intro hc; rw [hc]
      · intro hc; injection hc with _ h2
    · rw [if_neg (Nat.lt_asymm h), if_pos h]
      constructor
      · intro hc; exact absurd hc (by decide)
      · intro hc; injection hc with h1 _; omega

theorem lexCmp_nil_le : ∀ l : List Nat, lexCmp [] l ≤ 0
  | [] => by decide
  | b :: l2 => by
    have e : lexCmp [] (b :: l2) = -1 := rfl
    rw [e]
    decide

theorem lexCmp_trans : ∀ l1 l2 l3 : List Nat,
    lexCmp l1 l2 ≤ 0 → lexCmp l2 l3 ≤ 0 → lexCmp l1 l3 ≤ 0
  | [], _, l3, _, _ => lexCmp_nil_le l3
  | a :: l1, [], _, h12, _ => by
    have e : lexCmp (a :: l1) [] = 1 := rfl
    rw [e] at h12
    exact absurd h12 (by decide)
  | a :: l1, b :: l2, [], _, h23 => by
    have e : lexCmp (b :: l2) [] = 1 := rfl
    rw [e] at h23
    exact absurd h23 (by decide)
  | a :: l1, b :: l2, c :: l3, h12, h23 => by
    have e12 : lexCmp (a :: l1) (b :: l2) =
        if a < b then -1 else if b < a then 1 else lexCmp l1 l2 := rfl
    have e23 : lexCmp (b :: l2) (c :: l3) =
        if b < c then -1 else if c < b then 1 else lexCmp l2 l3 := rfl
    have e13 : lexCmp (a :: l1) (c :: l3) =
        if a < c then -1 else if c < a then 1 else lexCmp l1 l3 := rfl
    rw [e12] at h12
    rw [e23] at h23
    rw [e13]
    rcases Nat.lt_trichotomy a b with hab | hab | hab
    · rcases Nat.lt_trichotomy b c with hbc | hbc | hbc
      · rw [if_pos (Nat.lt_trans hab hbc)]; decide
      · rw [if_pos (hbc ▸ hab)]; decide
      · rw [if_neg (by omega), if_pos hbc] at h23
        exact absurd h23 (by decide)
    · subst hab
      rcases Nat.lt_trichotomy a c with hac | hac | hac
      · rw [if_pos hac]; decide
      · subst hac
        rw [if_neg (lt_irrefl a), if_neg (lt_irrefl a)] at h12 h23 ⊢
        exact lexCmp_trans l1 l2 l3 h12 h23
      · rw [if_neg (by omega), if_pos hac] at h23
        exact absurd h23 (by decide)
    · rw [if_neg (by omega), if_pos hab] at h12
      exact absurd h12 (by decide)

theorem strCmp_refl (s : String) : strCmp s s = 0 := by
  simp [strCmp, lexCmp_refl]

theorem strCmp_neg (s t : String) : strCmp s t = - strCmp t s := by
  simp only [strCmp]
  have hp := lexCmp_neg (s.data.map collPrimary) (t.data.map collPrimary)
  have ht := lexCmp_neg (s.data.map collTertiary) (t.data.map collTertiary)
  by_cases h : lexCmp (s.data.map collPrimary) (t.data.map collPrimary) = 0
  · rw [if_pos h, if_pos (by omega)]
    exact ht
  · rw [if_neg h, if_neg (by omega)]
    exact hp

theorem strCmp_trans (s t u : String) (h1 : strCmp s t ≤ 0) (h2 : strCmp t u ≤ 0) :
    strCmp s u ≤ 0 := by
  simp only [strCmp] at h1 h2 ⊢
  by_cases hst : lexCmp (s.data.map collPrimary) (t.data.map collPrimary) = 0
  · have hseq : s.data.map collPrimary = t.data.map collPrimary :=
      (lexCmp_eq_zero_iff _ _).mp hst
    rw [if_pos hst] at h1
    by_cases htu : lexCmp (t.data.map collPrimary) (u.data.map collPrimary) = 0
    · rw [if_pos htu] at h2
      rw [if_pos (by rw [hseq]; exact htu)]
      exact lexCmp_trans _ _ _ h1 h2
    · rw [if_neg htu] at h2
      rw [hseq, if_neg htu]
      exact h2
  · rw [if_neg hst] at h1
    by_cases htu : lexCmp (t.data.map collPrimary) (u.data.map collPrimary) = 0
    · have hteq : t.data.map collPrimary = u.data.map collPrimary :=
        (lexCmp_eq_zero_iff _ _).mp htu
      rw [← hteq, if_neg hst]
      exact h1
    · rw [if_neg htu] at h2
      have hsu := lexCmp_trans _ _ _ h1 h2
      by_cases hsu0 : lexCmp (s.data.map collPrimary) (u.data.map collPrimary) = 0
      · exfalso
        have hseq2 : s.data.map collPrimary = u.data.map collPrimary :=
          (lexCmp_eq_zero_iff _ _).mp hsu0
        rw [hseq2] at h1
        have hn := lexCmp_neg (u.data.map collPrimary) (t.data.map collPrimary)
        omega
      · rw [if_neg hsu0]
        exact hsu

theorem claimOrderColl_total (m : List (String × Nat)) (a b : CaseInstance) :
    claimOrderColl m a b ∨ claimOrderColl m b a := by
  unfold claimOrderColl localeLe
  rcases Nat.lt_trichotomy (instPriority m a) (instPriority m b) with h | h | h
  · exact Or.inl (Or.inl h)
  · rcases Nat.lt_trichotomy a.width b.width with hw | hw | hw
    · exact Or.inr (Or.inr ⟨h.symm, Or.inl hw⟩)
    · rcases Nat.lt_trichotomy a.height b.height with hh | hh | hh
      · exact Or.inr (Or.inr ⟨h.symm, Or.inr ⟨hw.symm, Or.inl hh⟩⟩)
      · have hneg := strCmp_neg a.type b.type
        rcases le_or_lt (strCmp a.type b.type) 0 with ht | ht
        · exact Or.inl (Or.inr ⟨h, Or.inr ⟨hw, Or.inr ⟨hh, ht⟩⟩⟩)
        · exact Or.inr (Or.inr ⟨h.symm, Or.inr ⟨hw.symm, Or.inr ⟨hh.symm, by omega⟩⟩⟩)
      · exact Or.inl (Or.inr ⟨h, Or.inr ⟨hw, Or.inl hh⟩⟩)
    · exact Or.inl (Or.inr ⟨h, Or.inl hw⟩)
  · exact Or.inr (Or.inl h)

theorem claimOrderColl_trans (m : List (String × Nat)) (a b c : CaseInstance)
    (hab : claimOrderColl m a b) (hbc : claimOrderColl m b c) : claimOrderColl m a c := by
  unfold claimOrderColl localeLe at *
  rcases hab with h1 | ⟨e1, t1⟩
  · rcases hbc with h2 | ⟨e2, _⟩
    · exact Or.inl (Nat.lt_trans h1 h2)
    · exact Or.inl (e2 ▸ h1)
  · rcases hbc with h2 | ⟨e2, t2⟩
    · exact Or.inl (e1 ▸ h2)
    · refine Or.inr ⟨e1.trans e2, ?_⟩
      rcases t1 with hw1 | ⟨ew1, t1⟩
      · rcases t2 with hw2 | ⟨ew2, _⟩
        · exact Or.inl (Nat.lt_trans hw2 hw1)
        · exact Or.inl (ew2 ▸ hw1)
      · rcases t2 with hw2 | ⟨ew2, t2⟩
        · exact Or.inl (ew1 ▸ hw2)
        · refine Or.inr ⟨ew1.trans ew2, ?_⟩
          rcases t1 with hh1 | ⟨eh1, ht1⟩
          · rcases t2 with hh2 | ⟨eh2, _⟩
            · exact Or.inl (Nat.lt_trans hh2 hh1)
            · exact Or.inl (eh2 ▸ hh1)
          · rcases t2 with hh2 | ⟨eh2, ht2⟩
            · exact Or.inl (eh1 ▸ hh2)
            · exact Or.inr ⟨eh1.trans eh2, strCmp_trans _ _ _ ht1 ht2⟩

theorem compareCases_le_iff (m : List (String × Nat)) (a b : CaseInstance)
    (ha : 1 ≤ mapGet m a.type) (hb : 1 ≤ mapGet m b.type) :
    compareCases m a b ≤ 0 ↔ claimOrderColl m a b := by
  unfold compareCases claimOrderColl localeLe instPriority
  by_cases h1 : 1 < mapGet m a.type ∧ mapGet m b.type = 1
  · rw [if_pos h1]
    constructor
    · intro _
      exact Or.inl (by rw [if_pos h1.1, if_neg (by omega)]; omega)
    · intro _
      norm_num
  · rw [if_neg h1]
    by_cases h2 : mapGet m a.type = 1 ∧ 1 < mapGet m b.type
    · rw [if_pos h2]
      constructor
      · intro hc; exact absurd hc (by norm_num)
      · intro hco
        exfalso
        rw [if_neg (by omega), if_pos h2.2] at hco
        rcases hco with hlt | ⟨heq, _⟩
        · omega
        · omega
    · have hprio : (if 1 < mapGet m a.type then 0 else 1) =
          (if 1 < mapGet m b.type then 0 else 1) := by
        by_cases hA1 : 1 < mapGet m a.type
        · rw [if_pos hA1, if_pos (by omega)]
        · rw [if_neg hA1, if_neg (by omega)]
      rw [if_neg h2, hprio]
      by_cases hw : a.width = b.width
      · rw [if_neg (by simpa using hw)]
        by_cases hh : a.height = b.height
        · rw [if_neg (by simpa using hh)]
          constructor
          · intro ht
            exact Or.inr ⟨rfl, Or.inr ⟨hw, Or.inr ⟨hh, ht⟩⟩⟩
          · intro hco
            rcases hco with hlt | ⟨_, hco⟩
            · omega
            · rcases hco with hwlt | ⟨_, hco⟩
              · omega
              · rcases hco with hhlt | ⟨_, ht⟩
                · omega
                · exact ht
        · rw [if_pos (by simpa using hh)]
          constructor
          · intro hc
            have : b.height ≤ a.height := by omega
            exact Or.inr ⟨rfl, Or.inr ⟨hw, Or.inl (by omega)⟩⟩
          · intro hco
            rcases hco with hlt | ⟨_, hco⟩
            · omega
            · rcases hco with hwlt | ⟨_, hco⟩
              · omega
              · rcases hco with hhlt | ⟨heq, _⟩
                · omega
                · exact absurd heq hh
      · rw [if_pos (by simpa using hw)]
        constructor
        · intro hc
          exact Or.inr ⟨rfl, Or.inl (by omega)⟩
        · intro hco
          rcases hco with hlt | ⟨_, hco⟩
          · omega
          · rcases hco with hwlt | ⟨heq, _⟩
            · omega
            · exact absurd heq hw

theorem orderedInsert_sorted_local {α : Type} (r : α → α → Prop) [DecidableRel r]
    (s : α → α → Prop) (P : α → Prop)
    (strans : ∀ x y z, s x y → s y z → s x z)
    (stotal : ∀ x y, s x y ∨ s y x)
    (hrs : ∀ x y, P x → P y → (r x y ↔ s x y)) :
    ∀ (L : List α) (a : α), P a → (∀ x ∈ L, P x) → L.Sorted s →
      (List.orderedInsert r a L).Sorted s
  | [], a, _, _, _ => List.sorted_singleton a
  | b :: L, a, hPa, hPL, hsort => by
    by_cases hr : r a b
    · rw [List.orderedInsert, if_pos hr]
      have hsab : s a b := (hrs a b hPa (hPL b (List.mem_cons_self b L))).mp hr
      rw [List.sorted_cons]
      refine ⟨?_, hsort⟩
      intro y hy
      rcases List.mem_cons.mp hy with rfl | hyL
      · exact hsab
      · exact strans a b y hsab ((List.sorted_cons.mp hsort).1 y hyL)
    · rw [List.orderedInsert, if_neg hr]
      have hsba : s b a := by
        rcases stotal a b with hab | hba
        · exact absurd ((hrs a b hPa (hPL b (List.mem_cons_self b L))).mpr hab) hr
        · exact hba
      have ih := orderedInsert_sorted_local r s P strans stotal hrs L a hPa
        (fun x hx => hPL x (List.mem_cons_of_mem b hx)) (List.sorted_cons.mp hsort).2
      rw [List.sorted_cons]
      refine ⟨?_, ih⟩
      intro y hy
      have hy2 : y ∈ a :: L := (List.perm_orderedInsert r a L).mem_iff.mp hy
      rcases List.mem_cons.mp hy2 with rfl | hyL
      · exact hsba
      · exact (List.sorted_cons.mp hsort).1 y hyL

theorem insertionSort_sorted_local {α : Type} (r : α → α → Prop) [DecidableRel r]
    (s : α → α → Prop) (P : α → Prop)
    (strans : ∀ x y z, s x y → s y z → s x z)
    (stotal : ∀ x y, s x y ∨ s y x)
    (hrs : ∀ x y, P x → P y → (r x y ↔ s x y)) :
    ∀ (L : List α), (∀ x ∈ L, P x) → (List.insertionSort r L).Sorted s
  | [], _ => List.sorted_nil
  | a :: L, hPL => by
    rw [List.insertionSort]
    refine orderedInsert_sorted_local r s P strans stotal hrs _ a
      (hPL a (List.mem_cons_self a L)) ?_ ?_
    · intro x hx
      exact hPL x (List.mem_cons_of_mem a ((List.perm_insertionSort r L).mem_iff.mp hx))
    · exact insertionSort_sorted_local r s P strans stotal hrs L
        (fun x hx => hPL x (List.mem_cons_of_mem a hx))

theorem expandAndSort_sorted (caseCounts : List (String × Nat)) :
    (expandAndSort caseCounts).Sorted
      (claimOrderColl (expandInstances caseCounts).caseTypeCounts) := by
  unfold expandAndSort sortCases
  exact insertionSort_sorted_local _ _
    (fun c => 1 ≤ mapGet (expandInstances caseCounts).caseTypeCounts c.type)
    (claimOrderColl_trans (expandInstances caseCounts).caseTypeCounts)
    (claimOrderColl_total (expandInstances caseCounts).caseTypeCounts)
    (fun x y hx hy => compareCases_le_iff (expandInstances caseCounts).caseTypeCounts x y hx hy)
    (expandInstances caseCounts).allCases (expand_counts_ge caseCounts)

/-! ### C10 machinery: decimal rendering and distinctness of generated ids -/

theorem toDigitsCore_append (f : Nat) : ∀ (n : Nat) (acc : List Char),
    Nat.toDigitsCore 10 f n acc = Nat.toDigitsCore 10 f n [] ++ acc := by
  induction f with
  | zero => intro n acc; rfl
  | succ f ih =>
    intro n acc
    have e : ∀ a, Nat.toDigitsCore 10 (f + 1) n a =
        (if n / 10 = 0 then Nat.digitChar (n % 10) :: a
         else Nat.toDigitsCore 10 f (n / 10) (Nat.digitChar (n % 10) :: a)) := by
      intro a; rfl
    rw [e, e]
    by_cases h : n / 10 = 0
    · rw [if_pos h, if_pos h]; rfl
    · rw [if_neg h, if_neg h, ih (n / 10) (Nat.digitChar (n % 10) :: acc),
        ih (n / 10) [Nat.digitChar (n % 10)], List.append_assoc]
      rfl

theorem toDigitsCore_fuel : ∀ (n f₁ f₂ : Nat), n < f₁ → n < f₂ →
    Nat.toDigitsCore 10 f₁ n [] = Nat.toDigitsCore 10 f₂ n [] := by
  intro n
  induction n using Nat.strong_induction_on with
  | h n ih =>
    intro f₁ f₂ h₁ h₂
    obtain ⟨g₁, rfl⟩ : ∃ g, f₁ = g + 1 := ⟨f₁ - 1, by omega⟩
    obtain ⟨g₂, rfl⟩ : ∃ g, f₂ = g + 1 := ⟨f₂ - 1, by omega⟩
    have e : ∀ g, Nat.toDigitsCore 10 (g + 1) n [] =
        (if n / 10 = 0 then [Nat.digitChar (n % 10)]
         else Nat.toDigitsCore 10 g (n / 10) [Nat.digitChar (n % 10)]) := by
      intro g; rfl
    rw [e, e]
    by_cases h : n / 10 = 0
    · rw [if_pos h, if_pos h]
    · rw [if_neg h, if_neg h, toDigitsCore_append g₁ (n / 10),
        toDigitsCore_append g₂ (n / 10)]
      have hlt : n / 10 < n := Nat.div_lt_self (by omega) (by norm_num)
      rw [ih (n / 10) hlt g₁ g₂ (by omega) (by omega)]

theorem digitChar_ne_dash : ∀ m, m < 10 → Nat.digitChar m ≠ '-' := by decide

theorem charVal_digitChar : ∀ m, m < 10 → charVal (Nat.digitChar m) = m := by decide

theorem toDigitsCore_no_dash (f : Nat) : ∀ (n : Nat), '-' ∉ Nat.toDigitsCore 10 f n [] := by
  induction f with
  | zero => intro n h; exact absurd h (List.not_mem_nil _)
  | succ f ih =>
    intro n
    have e : Nat.toDigitsCore 10 (f + 1) n [] =
        (if n / 10 = 0 then [Nat.digitChar (n % 10)]
         else Nat.toDigitsCore 10 f (n / 10) [Nat.digitChar (n % 10)]) := rfl
    rw [e]
    have hm : n % 10 < 10 := Nat.mod_lt _ (by norm_num)
    by_cases h : n / 10 = 0
    · rw [if_pos h]
      intro hmem
      have : '-' = Nat.digitChar (n % 10) := by simpa using hmem
      exact digitChar_ne_dash (n % 10) hm this.symm
    · rw [if_neg h, toDigitsCore_append]
      intro hmem
      rcases List.mem_append.mp hmem with hl | hr
      · exact ih (n / 10) hl
      · have : '-' = Nat.digitChar (n % 10) := by simpa using hr
        exact digitChar_ne_dash (n % 10) hm this.symm

theorem unDigits_append_digit (l : List Char) (c : Char) :
    unDigits (l ++ [c]) = unDigits l * 10 + charVal c := by
  simp [unDigits, List.foldl_append]

theorem unDigits_toDigitsCore : ∀ (n f : Nat), n < f →
    unDigits (Nat.toDigitsCore 10 f n []) = n := by
  intro n
  induction n using Nat.strong_induction_on with
  | h n ih =>
    intro f hf
    obtain ⟨g, rfl⟩ : ∃ g, f = g + 1 := ⟨f - 1, by omega⟩
    have e : Nat.toDigitsCore 10 (g + 1) n [] =
        (if n / 10 = 0 then [Nat.digitChar (n % 10)]
         else Nat.toDigitsCore 10 g (n / 10) [Nat.digitChar (n % 10)]) := rfl
    rw [e]
    have hm : n % 10 < 10 := Nat.mod_lt _ (by norm_num)
    by_cases h : n / 10 = 0
    · rw [if_pos h]
      have hu : unDigits [Nat.digitChar (n % 10)] = charVal (Nat.digitChar (n % 10)) := by
        simp [unDigits]
      rw [hu, charVal_digitChar _ hm]
      omega
    · rw [if_neg h, toDigitsCore_append, unDigits_append_digit, charVal_digitChar _ hm]
      have hlt : n / 10 < n := Nat.div_lt_self (by omega) (by norm_num)
      rw [ih (n / 10) hlt g (by omega)]
      omega

theorem repr_data (n : Nat) : (Nat.repr n).data = Nat.toDigitsCore 10 (n + 1) n [] := rfl

theorem repr_data_inj {a b : Nat} (h : (Nat.repr a).data = (Nat.repr b).data) : a = b := by
  rw [repr_data, repr_data] at h
  have := congrArg unDigits h
  rwa [unDigits_toDigitsCore a (a + 1) (by omega),
    unDigits_toDigitsCore b (b + 1) (by omega)] at this

theorem repr_no_dash (n : Nat) : '-' ∉ (Nat.repr n).data := by
  rw [repr_data]; exact toDigitsCore_no_dash (n + 1) n

theorem dashfree_prefix_eq : ∀ (e₁ e₂ r₁ r₂ : List Char), '-' ∉ e₁ → '-' ∉ e₂ →
    e₁ ++ '-' :: r₁ = e₂ ++ '-' :: r₂ → e₁ = e₂ ∧ r₁ = r₂ := by
  intro e₁
  induction e₁ with
  | nil =>
    intro e₂ r₁ r₂ _ h₂ heq
    cases e₂ with
    | nil => simpa using heq
    | cons c e₂ =>
      simp only [List.nil_append, List.cons_append, List.cons.injEq] at heq
      exact absurd (heq.1 ▸ List.mem_cons_self c e₂) h₂
  | cons c e₁ ih =>
    intro e₂ r₁ r₂ h₁ h₂ heq
    cases e₂ with
    | nil =>
      simp only [List.nil_append, List.cons_append, List.cons.injEq] at heq
      exact absurd (heq.1 ▸ List.mem_cons_self c e₁) h₁
    | cons c₂ e₂ =>
      simp only [List.cons_append, List.cons.injEq] at heq
      obtain ⟨hc, ht⟩ := heq
      have h₁x : '-' ∉ e₁ := fun hm => h₁ (List.mem_cons_of_mem _ hm)
      have h₂x : '-' ∉ e₂ := fun hm => h₂ (List.mem_cons_of_mem _ hm)
      obtain ⟨he, hr⟩ := ih e₂ r₁ r₂ h₁x h₂x ht
      exact ⟨by rw [hc, he], hr⟩

theorem mkId_counter_inj {t₁ t₂ : String} {a b : Nat} (h : mkId t₁ a = mkId t₂ b) : a = b := by
  have hd : t₁.data ++ '-' :: (Nat.repr a).data = t₂.data ++ '-' :: (Nat.repr b).data := by
    have hx := congrArg String.data h
    simpa [mkId, String.data_append] using hx
  have hrev : (Nat.repr a).data.reverse ++ '-' :: t₁.data.reverse
      = (Nat.repr b).data.reverse ++ '-' :: t₂.data.reverse := by
    have hx := congrArg List.reverse hd
    simpa [List.reverse_append] using hx
  have hnd₁ : '-' ∉ (Nat.repr a).data.reverse := by
    simpa [List.mem_reverse] using repr_no_dash a
  have hnd₂ : '-' ∉ (Nat.repr b).data.reverse := by
    simpa [List.mem_reverse] using repr_no_dash b
  obtain ⟨he, _⟩ := dashfree_prefix_eq _ _ _ _ hnd₁ hnd₂ hrev
  have hdata : (Nat.repr a).data = (Nat.repr b).data := by
    have hx := congrArg List.reverse he
    simpa using hx
  exact repr_data_inj hdata

theorem expandStep_inv (st : ExpandState) (e : String × Nat)
    (hb : ∀ c ∈ st.allCases, ∃ t k, c.id = mkId t k ∧ k < st.idCounter)
    (hn : (st.allCases.map (fun c => c.id)).Nodup) :
    st.idCounter ≤ (expandStep st e).idCounter ∧
    (∀ c ∈ (expandStep st e).allCases, ∃ t k, c.id = mkId t k ∧ k < (expandStep st e).idCounter) ∧
    ((expandStep st e).allCases.map (fun c => c.id)).Nodup := by
  unfold expandStep
  by_cases hv : isValidCaseType e.1
  · rw [if_pos hv]
    by_cases hp : 0 < e.2
    · rw [if_pos hp]
      refine ⟨Nat.le_add_right _ _, ?_, ?_⟩
      · intro c hc
        simp only [List.mem_append, List.mem_map, List.mem_range] at hc
        rcases hc with hold | ⟨i, hi, rfl⟩
        · obtain ⟨t, k, hid, hk⟩ := hb c hold
          exact ⟨t, k, hid, by simp; omega⟩
        · exact ⟨e.1, st.idCounter + i, rfl, by simp; omega⟩
      · simp only [List.map_append, List.map_map]
        rw [List.nodup_append]
        refine ⟨hn, ?_, ?_⟩
        · refine List.Nodup.map ?_ (List.nodup_range _)
          intro i j hij
          have : st.idCounter + i = st.idCounter + j :=
            mkId_counter_inj (by simpa using hij)
          omega
        · intro s hs₁ hs₂
          simp only [List.mem_map] at hs₁
          obtain ⟨c, hc, rfl⟩ := hs₁
          obtain ⟨t, k, hid, hk⟩ := hb c hc
          simp only [List.mem_map, List.mem_range, Function.comp] at hs₂
          obtain ⟨i, hi, hmk⟩ := hs₂
          have : st.idCounter + i = k := mkId_counter_inj (by rw [hid] at hmk; exact hmk)
          omega
    · rw [if_neg hp]; exact ⟨Nat.le_refl _, hb, hn⟩
  · rw [if_neg hv]; exact ⟨Nat.le_refl _, hb, hn⟩

theorem expand_fold_inv : ∀ (entries : List (String × Nat)) (st : ExpandState),
    (∀ c ∈ st.allCases, ∃ t k, c.id = mkId t k ∧ k < st.idCounter) →
    (st.allCases.map (fun c => c.id)).Nodup →
    (∀ c ∈ (List.foldl expandStep st entries).allCases,
      ∃ t k, c.id = mkId t k ∧ k < (List.foldl expandStep st entries).idCounter) ∧
    ((List.foldl expandStep st entries).allCases.map (fun c => c.id)).Nodup := by
  intro entries
  induction entries with
  | nil => intro st hb hn; exact ⟨hb, hn⟩
  | cons e entries ih =>
    intro st hb hn
    obtain ⟨_, hb₂, hn₂⟩ := expandStep_inv st e hb hn
    exact ih (expandStep st e) hb₂ hn₂

theorem expandInstances_ids_nodup (caseCounts : List (String × Nat)) :
    ((expandInstances caseCounts).allCases.map (fun c => c.id)).Nodup := by
  have h := expand_fold_inv caseCounts ⟨[], [], 0⟩
    (by intro c hc; exact absurd hc (List.not_mem_nil _)) List.nodup_nil
  exact h.2

/-! ### Grid well-formedness and cell-level semantics of the marking loops -/

theorem foldl_invariant_mem {α β : Type} (P : β → Prop) (f : β → α → β) :
    ∀ (l : List α) (b : β), P b → (∀ b2, ∀ a ∈ l, P b2 → P (f b2 a)) → P (l.foldl f b)
  | [], b, hb, _ => hb
  | a :: l, b, hb, hstep => foldl_invariant_mem P f l (f b a)
      (hstep b a (List.mem_cons_self a l) hb)
      (fun b2 x hx hb2 => hstep b2 x (List.mem_cons_of_mem a hx) hb2)

theorem foldl_congr_mem {α β : Type} : ∀ (l : List α) (b : β) (f f2 : β → α → β),
    (∀ b2, ∀ a ∈ l, f b2 a = f2 b2 a) → l.foldl f b = l.foldl f2 b
  | [], _, _, _, _ => rfl
  | a :: l, b, f, f2, h => by
    rw [List.foldl_cons, List.foldl_cons, h b a (List.mem_cons_self a l)]
    exact foldl_congr_mem l (f2 b a) f f2 (fun b2 x hx => h b2 x (List.mem_cons_of_mem a hx))

theorem getD_set {α : Type} (d v : α) : ∀ (l : List α) (i j : Nat),
    (l.set i v).getD j d = if i = j ∧ i < l.length then v else l.getD j d := by
  intro l
  induction l with
  | nil =>
    intro i j
    rw [if_neg (by simp)]
    rfl
  | cons a l ih =>
    intro i j
    match i, j with
    | 0, 0 => rw [if_pos (by simp)]; rfl
    | 0, j + 1 => rw [if_neg (by omega)]; rfl
    | i + 1, 0 => rw [if_neg (by omega)]; rfl
    | i + 1, j + 1 =>
      have hs : ((a :: l).set (i + 1) v).getD (j + 1) d = (l.set i v).getD j d := rfl
      rw [hs, ih i j]
      by_cases h : i = j ∧ i < l.length
      · rw [if_pos h, if_pos ⟨by omega, by simp; omega⟩]
      · rw [if_neg h, if_neg (by simp; omega)]
        rfl

theorem gridWF_mkGrid (H : Nat) : gridWF H (mkGrid H) := by
  constructor
  · simp [mkGrid]
  · intro row hrow
    rw [List.eq_of_mem_replicate hrow]
    simp

theorem row_len {H : Nat} {g : StashGrid} (wf : gridWF H g) {y : Nat} (hy : y < H) :
    (g.getD y []).length = GRID_WIDTH := by
  have hyl : y < g.length := by rw [wf.1]; exact hy
  rw [List.getD_eq_getElem g [] hyl]
  exact wf.2 _ (List.getElem_mem hyl)

theorem getCell_setCell (g : StashGrid) (x y : Nat) (v : Option String) (x2 y2 : Nat) :
    getCell (setCell g x y v) x2 y2 =
      if y = y2 ∧ y < g.length ∧ x = x2 ∧ x < (g.getD y []).length then v
      else getCell g x2 y2 := by
  show ((g.set y ((g.getD y []).set x v)).getD y2 []).getD x2 none = _
  rw [getD_set]
  by_cases hy : y = y2 ∧ y < g.length
  · rw [if_pos hy]
    obtain ⟨hyy, hylen⟩ := hy
    subst hyy
    rw [getD_set]
    by_cases hx : x = x2 ∧ x < (g.getD y []).length
    · rw [if_pos hx, if_pos ⟨rfl, hylen, hx.1, hx.2⟩]
    · rw [if_neg hx, if_neg (fun hcon => hx ⟨hcon.2.2.1, hcon.2.2.2⟩)]
      rfl
  · rw [if_neg hy, if_neg (fun hcon => hy ⟨hcon.1, hcon.2.1⟩)]
    rfl

theorem gridWF_setCell {H : Nat} {g : StashGrid} (wf : gridWF H g) (x y : Nat)
    (v : Option String) : gridWF H (setCell g x y v) := by
  refine ⟨by simp [setCell, wf.1], ?_⟩
  intro row hrow
  by_cases hy : y < g.length
  · rcases List.mem_or_eq_of_mem_set hrow with hmem | heq
    · exact wf.2 row hmem
    · subst heq
      rw [List.length_set, List.getD_eq_getElem g [] hy]
      exact wf.2 _ (List.getElem_mem hy)
  · rw [setCell, List.set_eq_of_length_le (by omega)] at hrow
    exact wf.2 row hrow

theorem getCell_markCell {H : Nat} {g : StashGrid} (wf : gridWF H g) (x y : Nat) (s : String)
    (x2 y2 : Nat) :
    getCell (markCell H g x y s) x2 y2 =
      if x = x2 ∧ y = y2 ∧ x < GRID_WIDTH ∧ y < H then some s else getCell g x2 y2 := by
  unfold markCell
  by_cases hg : y < H ∧ x < GRID_WIDTH
  · rw [if_pos hg, getCell_setCell]
    have hleng : y < g.length := by rw [wf.1]; exact hg.1
    have hlenr : (g.getD y []).length = GRID_WIDTH := row_len wf hg.1
    by_cases he : x = x2 ∧ y = y2
    · rw [if_pos ⟨he.2, hleng, he.1, by rw [hlenr]; exact hg.2⟩,
        if_pos ⟨he.1, he.2, hg.2, hg.1⟩]
    · rw [if_neg (fun hcon => he ⟨hcon.2.2.1, hcon.1⟩),
        if_neg (fun hcon => he ⟨hcon.1, hcon.2.1⟩)]
  · rw [if_neg hg, if_neg (fun hcon => hg ⟨hcon.2.2.2, hcon.2.2.1⟩)]

theorem gridWF_markCell {H : Nat} {g : StashGrid} (wf : gridWF H g) (x y : Nat) (s : String) :
    gridWF H (markCell H g x y s) := by
  unfold markCell
  split_ifs with h
  · exact gridWF_setCell wf x y (some s)
  · exact wf

theorem getCell_markRow {H : Nat} (s : String) (px py : Nat) :
    ∀ (w : Nat) (g : StashGrid), gridWF H g → ∀ (cx cy : Nat),
      getCell ((List.range w).foldl (fun g2 dx => markCell H g2 (px + dx) py s) g) cx cy =
        if px ≤ cx ∧ cx < px + w ∧ py = cy ∧ cx < GRID_WIDTH ∧ py < H then some s
        else getCell g cx cy := by
  intro w
  induction w with
  | zero =>
    intro g wf cx cy
    rw [if_neg (by omega)]
    rfl
  | succ w ih =>
    intro g wf cx cy
    rw [List.range_succ, List.foldl_append, List.foldl_cons, List.foldl_nil]
    have wfG : gridWF H ((List.range w).foldl (fun g2 dx => markCell H g2 (px + dx) py s) g) :=
      foldl_invariant_mem (gridWF H) _ (List.range w) g wf
        (fun b2 a _ hb2 => gridWF_markCell hb2 _ _ _)
    rw [getCell_markCell wfG, ih g wf cx cy]
    split_ifs <;> first | rfl | omega

theorem gridWF_markRect {H : Nat} {g : StashGrid} (wf : gridWF H g) (px py w h : Nat)
    (s : String) : gridWF H (markRect H g px py w h s) :=
  foldl_invariant_mem (gridWF H) _ (List.range h) g wf
    (fun b2 _ _ hb2 => foldl_invariant_mem (gridWF H) _ (List.range w) b2 hb2
      (fun b3 _ _ hb3 => gridWF_markCell hb3 _ _ _))

theorem getCell_markRect {H : Nat} (s : String) (px py : Nat) :
    ∀ (h w : Nat) (g : StashGrid), gridWF H g → ∀ (cx cy : Nat),
      getCell (markRect H g px py w h s) cx cy =
        if px ≤ cx ∧ cx < px + w ∧ py ≤ cy ∧ cy < py + h ∧ cx < GRID_WIDTH ∧ cy < H then some s
        else getCell g cx cy := by
  intro h
  induction h with
  | zero =>
    intro w g wf cx cy
    rw [if_neg (by omega)]
    rfl
  | succ h ih =>
    intro w g wf cx cy
    have hstep : markRect H g px py w (h + 1) s =
        (List.range w).foldl (fun g2 dx => markCell H g2 (px + dx) (py + h) s)
          (markRect H g px py w h s) := by
      unfold markRect
      rw [List.range_succ, List.foldl_append, List.foldl_cons, List.foldl_nil]
    rw [hstep, getCell_markRow s px (py + h) w _ (gridWF_markRect wf px py w h s) cx cy,
      ih w g wf cx cy]
    split_ifs <;> first | rfl | omega

theorem markRect_isSome_mono {H : Nat} {g : StashGrid} (wf : gridWF H g) (px py w h : Nat)
    (s : String) (cx cy : Nat) (hs : (getCell g cx cy).isSome) :
    (getCell (markRect H g px py w h s) cx cy).isSome := by
  rw [getCell_markRect s px py h w g wf cx cy]
  split_ifs
  · rfl
  · exact hs

theorem markRect_covers_self {H : Nat} {g : StashGrid} (wf : gridWF H g) (px py w h : Nat)
    (s : String) (hinw : px + w ≤ GRID_WIDTH) (hinh : py + h ≤ H) (cx cy : Nat)
    (hc : px ≤ cx ∧ cx < px + w ∧ py ≤ cy ∧ cy < py + h) :
    (getCell (markRect H g px py w h s) cx cy).isSome := by
  rw [getCell_markRect s px py h w g wf cx cy,
    if_pos ⟨hc.1, hc.2.1, hc.2.2.1, hc.2.2.2, by omega, by omega⟩]
  rfl

theorem gridWF_placeLocked {H : Nat} (locked : List PlacedCase) {g : StashGrid}
    (wf : gridWF H g) : gridWF H (placeLocked H locked g) :=
  foldl_invariant_mem (gridWF H) _ locked g wf
    (fun b2 _ _ hb2 => gridWF_markRect hb2 _ _ _ _ _)

theorem placeLocked_isSome_mono {H : Nat} : ∀ (locked : List PlacedCase) (g : StashGrid),
    gridWF H g → ∀ cx cy : Nat, (getCell g cx cy).isSome →
      (getCell (placeLocked H locked g) cx cy).isSome
  | [], _, _, _, _, hs => hs
  | lc :: locked, g, wf, cx, cy, hs =>
    placeLocked_isSome_mono locked _ (gridWF_markRect wf lc.x lc.y lc.width lc.height lc.id)
      cx cy (markRect_isSome_mono wf lc.x lc.y lc.width lc.height lc.id cx cy hs)

theorem placeLocked_covers {H : Nat} : ∀ (locked : List PlacedCase) (g : StashGrid),
    gridWF H g → (∀ lc ∈ locked, inBounds H lc) →
    ∀ c ∈ locked, ∀ cx cy : Nat, cellOf c cx cy →
      (getCell (placeLocked H locked g) cx cy).isSome := by
  intro locked
  induction locked with
  | nil =>
    intro g _ _ c hc
    exact absurd hc (List.not_mem_nil c)
  | cons lc rest ih =>
    intro g wf hin c hc cx cy hcell
    have hstep : placeLocked H (lc :: rest) g =
        placeLocked H rest (markRect H g lc.x lc.y lc.width lc.height lc.id) := rfl
    rw [hstep]
    have wf2 : gridWF H (markRect H g lc.x lc.y lc.width lc.height lc.id) :=
      gridWF_markRect wf lc.x lc.y lc.width lc.height lc.id
    rcases List.mem_cons.mp hc with heq | hmem
    · subst heq
      refine placeLocked_isSome_mono rest _ wf2 cx cy ?_
      have hinl := hin c (List.mem_cons_self c rest)
      exact markRect_covers_self wf c.x c.y c.width c.height c.id hinl.1 hinl.2 cx cy
        ⟨hcell.1, hcell.2.1, hcell.2.2.1, hcell.2.2.2⟩
    · exact ih _ wf2 (fun u hu => hin u (List.mem_cons_of_mem lc hu)) c hmem cx cy hcell

theorem fillRect_eq_markRect {H : Nat} (g : StashGrid) (px py w h : Nat) (s : String)
    (hw : px + w ≤ GRID_WIDTH) (hh : py + h ≤ H) :
    fillRect g px py w h s = markRect H g px py w h s := by
  unfold fillRect markRect
  refine foldl_congr_mem (List.range h) g _ _ ?_
  intro b2 dy hdy
  refine foldl_congr_mem (List.range w) b2 _ _ ?_
  intro b3 dx hdx
  have hdx2 : dx < w := List.mem_range.mp hdx
  have hdy2 : dy < h := List.mem_range.mp hdy
  show setCell b3 (px + dx) (py + dy) (some s) = markCell H b3 (px + dx) (py + dy) s
  unfold markCell
  rw [if_pos ⟨by omega, by omega⟩]

theorem rectFree_spec {g : StashGrid} {px py w h : Nat} (hfree : rectFree g px py w h = true) :
    emptyRect g px py w h := by
  intro dx dy hdx hdy
  simp only [rectFree, List.all_eq_true, List.mem_range] at hfree
  exact Option.isNone_iff_eq_none.mp (hfree dy hdy dx hdx)

theorem rectFreeGuarded_spec {H : Nat} {g : StashGrid} {px py w h : Nat}
    (hfree : rectFreeGuarded H g px py w h = true) :
    ∀ dx dy : Nat, dx < w → dy < h → px + dx < GRID_WIDTH → py + dy < H →
      getCell g (px + dx) (py + dy) = none := by
  intro dx dy hdx hdy hxW hyH
  simp only [rectFreeGuarded, List.all_eq_true, List.mem_range] at hfree
  have hb := hfree dy hdy dx hdx
  cases hoc : getCell g (px + dx) (py + dy) with
  | none => rfl
  | some s =>
    rw [hoc] at hb
    simp [hxW, hyH] at hb

theorem noCommonCell_symm {a b : PlacedCase} (h : noCommonCell a b) : noCommonCell b a :=
  fun cx cy hc => h cx cy ⟨hc.2, hc.1⟩

theorem cellOf_lt {H : Nat} {c : PlacedCase} {cx cy : Nat} (hb : inBounds H c)
    (hc : cellOf c cx cy) : cx < GRID_WIDTH ∧ cy < H := by
  obtain ⟨h1, h2, h3, h4⟩ := hc
  obtain ⟨h5, h6⟩ := hb
  omega

theorem noCommonCell_of_covered_free {g : StashGrid} {d c : PlacedCase}
    (hcov : ∀ cx cy : Nat, cellOf d cx cy → (getCell g cx cy).isSome)
    (hfree : ∀ cx cy : Nat, cellOf c cx cy → getCell g cx cy = none) :
    noCommonCell d c := by
  intro cx cy hc
  have h1 := hcov cx cy hc.1
  rw [hfree cx cy hc.2] at h1
  exact absurd h1 (by simp)

/-! ### List utilities shared by the greedy and genetic invariants -/

theorem perm_getD_eraseIdx {α : Type} (d : α) (l : List α) (i : Nat) (h : i < l.length) :
    List.Perm (l.getD i d :: l.eraseIdx i) l := by
  rw [List.getD_eq_getElem l d h, List.eraseIdx_eq_take_drop_succ]
  have hl : l = l.take i ++ l[i] :: l.drop (i + 1) := by
    conv_lhs => rw [← List.take_append_drop i l]
    rw [List.drop_eq_getElem_cons h]
  conv_rhs => rw [hl]
  exact (List.perm_middle).symm

theorem map_eraseIdx {α β : Type} (f : α → β) : ∀ (l : List α) (i : Nat),
    (l.eraseIdx i).map f = (l.map f).eraseIdx i
  | [], _ => rfl
  | _ :: _, 0 => rfl
  | a :: l, i + 1 => by
    show f a :: (l.eraseIdx i).map f = f a :: (l.map f).eraseIdx i
    rw [map_eraseIdx f l i]

theorem pairwise_set {α : Type} {R : α → α → Prop} (hsymm : ∀ a b, R a b → R b a) :
    ∀ (l : List α) (i : Nat) (v : α), List.Pairwise R l →
      (∀ w ∈ l.eraseIdx i, R v w) → List.Pairwise R (l.set i v)
  | [], _, _, _, _ => List.Pairwise.nil
  | a :: l, 0, v, hp, hv => by
    rw [List.set_cons_zero]
    exact List.Pairwise.cons (fun w hw => hv w hw) (List.pairwise_cons.mp hp).2
  | a :: l, i + 1, v, hp, hv => by
    rw [List.set_cons_succ]
    obtain ⟨ha, hl⟩ := List.pairwise_cons.mp hp
    refine List.pairwise_cons.mpr ⟨?_, pairwise_set hsymm l i v hl ?_⟩
    · intro w hw
      rcases List.mem_or_eq_of_mem_set hw with hmem | heq
      · exact ha w hmem
      · subst heq
        exact hsymm _ _ (hv a (List.mem_cons_self a (l.eraseIdx i)))
    · intro w hw
      exact hv w (List.mem_cons_of_mem a hw)

theorem map_filter_set {α β : Type} (f : α → β) (p : α → Bool) :
    ∀ (l : List α) (i : Nat) (u v : α), l[i]? = some u → p u = p v →
      (p u = true → f u = f v) →
      ((l.set i v).filter p).map f = (l.filter p).map f := by
  intro l
  induction l with
  | nil =>
    intro i u v hu _ _
    simp at hu
  | cons a l ih =>
    intro i u v hu hp hf
    match i with
    | 0 =>
      have ha : a = u := by simpa using hu
      subst ha
      rw [List.set_cons_zero]
      cases hpa : p a
      · have hpv : p v = false := by rw [← hp]; exact hpa
        simp [List.filter_cons, hpa, hpv]
      · have hpv : p v = true := by rw [← hp]; exact hpa
        simp [List.filter_cons, hpa, hpv, hf hpa]
    | i + 1 =>
      have hu2 : l[i]? = some u := by simpa using hu
      rw [List.set_cons_succ]
      cases hpa : p a
      · simp [List.filter_cons, hpa]
        exact ih i u v hu2 hp hf
      · simp [List.filter_cons, hpa]
        exact ih i u v hu2 hp hf

theorem headD_mem {α : Type} {l : List α} (d : α) (h : l ≠ []) : l.headD d ∈ l := by
  cases l with
  | nil => exact absurd rfl h
  | cons a l => exact List.mem_cons_self a l

theorem not_mem_eraseIdx_of_count_le_one {α : Type} [DecidableEq α] :
    ∀ (l : List α) (i : Nat) (u : α), l[i]? = some u →
      l.count u ≤ 1 → u ∉ l.eraseIdx i := by
  intro l
  induction l with
  | nil =>
    intro i u hu _
    simp at hu
  | cons a l ih =>
    intro i u hu hcount
    match i with
    | 0 =>
      have ha : a = u := by simpa using hu
      subst ha
      show a ∉ l
      intro hmem
      have h1 : 0 < l.count a := List.count_pos_iff.mpr hmem
      have h2 : (a :: l).count a = l.count a + 1 := List.count_cons_self a l
      omega
    | i + 1 =>
      have hu2 : l[i]? = some u := by simpa using hu
      have humem : u ∈ l := by
        have := List.getElem?_eq_some.mp hu2
        obtain ⟨hlt, hget⟩ := this
        rw [← hget]
        exact List.getElem_mem hlt
      have hane : a ≠ u := by
        intro hae
        subst hae
        have h1 : 0 < l.count a := List.count_pos_iff.mpr humem
        have h2 : (a :: l).count a = l.count a + 1 := List.count_cons_self a l
        omega
      show u ∉ a :: l.eraseIdx i
      intro hmem
      rcases List.mem_cons.mp hmem with heq | hmem2
      · exact hane heq.symm
      · have hle : l.count u ≤ 1 := by
          have h2 : l.count u ≤ (a :: l).count u := by
            rw [List.count_cons]
            exact Nat.le_add_right _ _
          omega
        exact ih i u hu2 hle hmem2

/-! ### The greedy scan: what an accepted placement guarantees -/

theorem findBest_spec (grid : StashGrid) (H x y aw ah : Nat) (remaining : List CaseInstance)
    (bp : BestPlacement) (hfb : findBest grid H x y aw ah remaining = some bp) :
    bp.caseIndex < remaining.length ∧ x + bp.orientW ≤ GRID_WIDTH ∧ y + bp.orientH ≤ H ∧
      rectFree grid x y bp.orientW bp.orientH = true := by
  unfold findBest at hfb
  have h := foldl_invariant_mem
    (fun best : Option BestPlacement => ∀ b : BestPlacement, best = some b →
      b.caseIndex < remaining.length ∧ x + b.orientW ≤ GRID_WIDTH ∧ y + b.orientH ≤ H ∧
        rectFree grid x y b.orientW b.orientH = true)
    (fun best ic =>
      (orientationsOf ic.2.width ic.2.height).foldl
        (fun b o => considerOrient grid H x y aw ah ic.1 o.1 o.2.1 o.2.2 b) best)
    remaining.enum none (fun b hb => by simp at hb) ?_
  · exact h bp hfb
  · intro b2 ic hic hb2
    have hidx : ic.1 < remaining.length := by
      have h2 : remaining[ic.1]? = some ic.2 := by
        have h3 : (ic.1, ic.2) ∈ remaining.enum := by
          rw [show (ic.1, ic.2) = ic from rfl]
          exact hic
        exact List.mk_mem_enum_iff_getElem?.mp h3
      obtain ⟨hlt, _⟩ := List.getElem?_eq_some.mp h2
      exact hlt
    refine foldl_invariant_mem
      (fun best : Option BestPlacement => ∀ b : BestPlacement, best = some b →
        b.caseIndex < remaining.length ∧ x + b.orientW ≤ GRID_WIDTH ∧ y + b.orientH ≤ H ∧
          rectFree grid x y b.orientW b.orientH = true)
      _ (orientationsOf ic.2.width ic.2.height) b2 hb2 ?_
    intro b3 o _ hb3 b hb
    unfold considerOrient at hb
    split_ifs at hb with h1 h2
    · cases b3 with
      | none =>
        have hb4 : some (⟨ic.1, o.1, o.2.1, o.2.2, scorePlacement o.1 o.2.1 aw ah⟩ :
            BestPlacement) = some b := hb
        have hbe : (⟨ic.1, o.1, o.2.1, o.2.2, scorePlacement o.1 o.2.1 aw ah⟩ : BestPlacement)
            = b := Option.some.inj hb4
        subst hbe
        exact ⟨hidx, h1.2.2.1, h1.2.2.2, h2⟩
      | some bprev =>
        have hb4 : (if bprev.score < scorePlacement o.1 o.2.1 aw ah then
            some (⟨ic.1, o.1, o.2.1, o.2.2, scorePlacement o.1 o.2.1 aw ah⟩ : BestPlacement)
          else some bprev) = some b := hb
        by_cases h3 : bprev.score < scorePlacement o.1 o.2.1 aw ah
        · rw [if_pos h3] at hb4
          have hbe : (⟨ic.1, o.1, o.2.1, o.2.2, scorePlacement o.1 o.2.1 aw ah⟩ : BestPlacement)
              = b := Option.some.inj hb4
          subst hbe
          exact ⟨hidx, h1.2.2.1, h1.2.2.2, h2⟩
        · rw [if_neg h3] at hb4
          exact hb3 b hb4
    · exact hb3 b hb
    · exact hb3 b hb

theorem greedyCell_cases (H : Nat) (st : GreedyState) (x y : Nat) :
    greedyCell H st x y = st ∨
    ∃ bp : BestPlacement,
      findBest st.grid H x y (getAvailableSpace st.grid H x y).1
        (getAvailableSpace st.grid H x y).2 st.remaining = some bp ∧
      greedyCell H st x y =
        { grid := fillRect st.grid x y bp.orientW bp.orientH
            (st.remaining.getD bp.caseIndex default).id,
          placedCases := st.placedCases ++ [⟨(st.remaining.getD bp.caseIndex default).id,
            (st.remaining.getD bp.caseIndex default).type, x, y, bp.orientW, bp.orientH,
            bp.rotated, false⟩],
          remaining := st.remaining.eraseIdx bp.caseIndex } := by
  cases hocc : (getCell st.grid x y).isSome
  · cases hfb : findBest st.grid H x y (getAvailableSpace st.grid H x y).1
        (getAvailableSpace st.grid H x y).2 st.remaining with
    | none =>
      left
      unfold greedyCell
      rw [if_neg (by rw [hocc]; exact Bool.false_ne_true)]
      simp only [hfb]
    | some bp =>
      right
      refine ⟨bp, rfl, ?_⟩
      unfold greedyCell
      rw [if_neg (by rw [hocc]; exact Bool.false_ne_true)]
      simp only [hfb]
  · left
    unfold greedyCell
    rw [if_pos hocc]

theorem greedyCell_pres (H : Nat) (st : GreedyState) (x y : Nat)
    (hI : gridWF H st.grid ∧ covers st.grid st.placedCases ∧
      List.Pairwise noCommonCell st.placedCases ∧ ∀ c ∈ st.placedCases, inBounds H c) :
    gridWF H (greedyCell H st x y).grid ∧
      covers (greedyCell H st x y).grid (greedyCell H st x y).placedCases ∧
      List.Pairwise noCommonCell (greedyCell H st x y).placedCases ∧
      ∀ c ∈ (greedyCell H st x y).placedCases, inBounds H c := by
  rcases greedyCell_cases H st x y with heq | ⟨bp, hfb, heq⟩
  · rw [heq]; exact hI
  · rw [heq]
    obtain ⟨wf, hcov, hpw, hbnd⟩ := hI
    obtain ⟨hidx, hxW, hyH, hfree⟩ := findBest_spec _ _ _ _ _ _ _ _ hfb
    have hfillmark : fillRect st.grid x y bp.orientW bp.orientH
        (st.remaining.getD bp.caseIndex default).id =
        markRect H st.grid x y bp.orientW bp.orientH
          (st.remaining.getD bp.caseIndex default).id :=
      fillRect_eq_markRect st.grid x y bp.orientW bp.orientH _ hxW hyH
    have hempty : emptyRect st.grid x y bp.orientW bp.orientH := rectFree_spec hfree
    have hitemfree : ∀ cx cy : Nat,
        cellOf ⟨(st.remaining.getD bp.caseIndex default).id,
          (st.remaining.getD bp.caseIndex default).type, x, y, bp.orientW, bp.orientH,
          bp.rotated, false⟩ cx cy → getCell st.grid cx cy = none := by
      intro cx cy hcell
      simp only [cellOf] at hcell
      obtain ⟨h1, h2, h3, h4⟩ := hcell
      have he := hempty (cx - x) (cy - y) (by omega) (by omega)
      have hcx : x + (cx - x) = cx := by omega
      have hcy : y + (cy - y) = cy := by omega
      rw [hcx, hcy] at he
      exact he
    refine ⟨?_, ?_, ?_, ?_⟩
    · show gridWF H (fillRect st.grid x y bp.orientW bp.orientH _)
      rw [hfillmark]
      exact gridWF_markRect wf _ _ _ _ _
    · intro d hd cx cy hcell
      show (getCell (fillRect st.grid x y bp.orientW bp.orientH _) cx cy).isSome
      rw [hfillmark]
      rcases List.mem_append.mp hd with hold | hnew
      · exact markRect_isSome_mono wf _ _ _ _ _ cx cy (hcov d hold cx cy hcell)
      · have hde : d = ⟨(st.remaining.getD bp.caseIndex default).id,
            (st.remaining.getD bp.caseIndex default).type, x, y, bp.orientW, bp.orientH,
            bp.rotated, false⟩ := by simpa using hnew
        subst hde
        simp only [cellOf] at hcell
        exact markRect_covers_self wf x y bp.orientW bp.orientH _ hxW hyH cx cy
          ⟨hcell.1, hcell.2.1, hcell.2.2.1, hcell.2.2.2⟩
    · refine List.pairwise_append.mpr ⟨hpw, List.pairwise_singleton _ _, ?_⟩
      intro d hd e he
      have hee : e = ⟨(st.remaining.getD bp.caseIndex default).id,
          (st.remaining.getD bp.caseIndex default).type, x, y, bp.orientW, bp.orientH,
          bp.rotated, false⟩ := by simpa using he
      subst hee
      exact noCommonCell_of_covered_free (hcov d hd) hitemfree
    · intro d hd
      rcases List.mem_append.mp hd with hold | hnew
      · exact hbnd d hold
      · have hde : d = ⟨(st.remaining.getD bp.caseIndex default).id,
            (st.remaining.getD bp.caseIndex default).type, x, y, bp.orientW, bp.orientH,
            bp.rotated, false⟩ := by simpa using hnew
        subst hde
        exact ⟨hxW, hyH⟩

theorem greedyOptimization_placed (ac : List CaseInstance) (H : Nat) (lk : List PlacedCase) :
    (greedyOptimization ac H lk).placedCases =
      ((List.range H).foldl
        (fun st y => (List.range GRID_WIDTH).foldl (fun st2 x => greedyCell H st2 x y) st)
        ⟨placeLocked H lk (mkGrid H), lk.map withLockedFlag, ac⟩).placedCases := rfl

theorem greedyOptimization_unplaced (ac : List CaseInstance) (H : Nat) (lk : List PlacedCase) :
    (greedyOptimization ac H lk).unplacedCases =
      ((List.range H).foldl
        (fun st y => (List.range GRID_WIDTH).foldl (fun st2 x => greedyCell H st2 x y) st)
        ⟨placeLocked H lk (mkGrid H), lk.map withLockedFlag, ac⟩).remaining := rfl

theorem greedy_geo (ac : List CaseInstance) (H : Nat) (lk : List PlacedCase)
    (hpair : List.Pairwise noCommonCell lk) (hin : ∀ lc ∈ lk, inBounds H lc) :
    List.Pairwise noCommonCell (greedyOptimization ac H lk).placedCases ∧
      ∀ c ∈ (greedyOptimization ac H lk).placedCases, inBounds H c := by
  rw [greedyOptimization_placed]
  have wf0 : gridWF H (placeLocked H lk (mkGrid H)) :=
    gridWF_placeLocked lk (gridWF_mkGrid H)
  have h := foldl_invariant_mem
    (fun st : GreedyState => gridWF H st.grid ∧ covers st.grid st.placedCases ∧
      List.Pairwise noCommonCell st.placedCases ∧ ∀ c ∈ st.placedCases, inBounds H c)
    (fun st y => (List.range GRID_WIDTH).foldl (fun st2 x => greedyCell H st2 x y) st)
    (List.range H) ⟨placeLocked H lk (mkGrid H), lk.map withLockedFlag, ac⟩
    ?_ ?_
  · exact ⟨h.2.2.1, h.2.2.2⟩
  · refine ⟨wf0, ?_, ?_, ?_⟩
    · intro c hc cx cy hcell
      obtain ⟨lc, hlc, hlceq⟩ := List.mem_map.mp hc
      subst hlceq
      exact placeLocked_covers lk (mkGrid H) (gridWF_mkGrid H) hin lc hlc cx cy hcell
    · exact List.Pairwise.map withLockedFlag (fun a b hab => hab) hpair
    · intro c hc
      obtain ⟨lc, hlc, hlceq⟩ := List.mem_map.mp hc
      subst hlceq
      exact hin lc hlc
  · intro st y _ hst
    exact foldl_invariant_mem _ _ (List.range GRID_WIDTH) st hst
      (fun st2 x _ hst2 => greedyCell_pres H st2 x y hst2)

theorem greedy_filter_locked (ac : List CaseInstance) (H : Nat) (lk : List PlacedCase) :
    (greedyOptimization ac H lk).placedCases.filter (fun c => c.isLocked) =
      lk.map withLockedFlag := by
  rw [greedyOptimization_placed]
  refine foldl_invariant_mem
    (fun st : GreedyState =>
      st.placedCases.filter (fun c => c.isLocked) = lk.map withLockedFlag)
    _ (List.range H) _ ?_ ?_
  · exact List.filter_eq_self.mpr (by
      intro a ha
      obtain ⟨lc, _, hlceq⟩ := List.mem_map.mp ha
      subst hlceq
      rfl)
  · intro st y _ hst
    refine foldl_invariant_mem
      (fun st : GreedyState =>
        st.placedCases.filter (fun c => c.isLocked) = lk.map withLockedFlag)
      _ (List.range GRID_WIDTH) st hst ?_
    intro st2 x _ hst2
    rcases greedyCell_cases H st2 x y with heq | ⟨bp, _, heq⟩
    · rw [heq]; exact hst2
    · rw [heq]
      show (st2.placedCases ++ ([⟨(st2.remaining.getD bp.caseIndex default).id,
          (st2.remaining.getD bp.caseIndex default).type, x, y, bp.orientW, bp.orientH,
          bp.rotated, false⟩] : List PlacedCase)).filter (fun c => c.isLocked) =
        lk.map withLockedFlag
      rw [List.filter_append]
      simp [hst2]

theorem greedy_count (ac : List CaseInstance) (H : Nat) (lk : List PlacedCase) :
    countNonLocked (greedyOptimization ac H lk).placedCases +
      (greedyOptimization ac H lk).unplacedCases.length = ac.length := by
  rw [greedyOptimization_placed, greedyOptimization_unplaced]
  refine foldl_invariant_mem
    (fun st : GreedyState => countNonLocked st.placedCases + st.remaining.length = ac.length)
    _ (List.range H) _ ?_ ?_
  · show countNonLocked (lk.map withLockedFlag) + ac.length = ac.length
    have hz : countNonLocked (lk.map withLockedFlag) = 0 := by
      unfold countNonLocked
      rw [List.filter_eq_nil_iff.mpr (by
        intro a ha
        obtain ⟨lc, _, hlceq⟩ := List.mem_map.mp ha
        subst hlceq
        simp [withLockedFlag])]
      rfl
    omega
  · intro st y _ hst
    refine foldl_invariant_mem
      (fun st : GreedyState => countNonLocked st.placedCases + st.remaining.length = ac.length)
      _ (List.range GRID_WIDTH) st hst ?_
    intro st2 x _ hst2
    rcases greedyCell_cases H st2 x y with heq | ⟨bp, hfb, heq⟩
    · rw [heq]; exact hst2
    · rw [heq]
      obtain ⟨hidx, _, _, _⟩ := findBest_spec _ _ _ _ _ _ _ _ hfb
      show countNonLocked (st2.placedCases ++ ([⟨(st2.remaining.getD bp.caseIndex default).id,
          (st2.remaining.getD bp.caseIndex default).type, x, y, bp.orientW, bp.orientH,
          bp.rotated, false⟩] : List PlacedCase)) +
        (st2.remaining.eraseIdx bp.caseIndex).length = ac.length
      have hcnt : countNonLocked (st2.placedCases ++ [⟨(st2.remaining.getD bp.caseIndex
          default).id, (st2.remaining.getD bp.caseIndex default).type, x, y, bp.orientW,
          bp.orientH, bp.rotated, false⟩]) = countNonLocked st2.placedCases + 1 := by
        unfold countNonLocked
        rw [List.filter_append]
        simp
      rw [hcnt, List.length_eraseIdx_of_lt hidx]
      omega

theorem greedy_ids (ac : List CaseInstance) (H : Nat) (lk : List PlacedCase) :
    List.Perm
      (nlIds (greedyOptimization ac H lk).placedCases ++
        (greedyOptimization ac H lk).unplacedCases.map (fun c => c.id))
      (ac.map (fun c => c.id)) := by
  rw [greedyOptimization_placed, greedyOptimization_unplaced]
  refine foldl_invariant_mem
    (fun st : GreedyState => List.Perm
      (nlIds st.placedCases ++ st.remaining.map (fun c => c.id)) (ac.map (fun c => c.id)))
    _ (List.range H) _ ?_ ?_
  · show List.Perm (nlIds (lk.map withLockedFlag) ++ ac.map (fun c => c.id)) _
    have hz : nlIds (lk.map withLockedFlag) = [] := by
      unfold nlIds
      rw [List.filter_eq_nil_iff.mpr (by
        intro a ha
        obtain ⟨lc, _, hlceq⟩ := List.mem_map.mp ha
        subst hlceq
        simp [withLockedFlag])]
      rfl
    rw [hz, List.nil_append]
  · intro st y _ hst
    refine foldl_invariant_mem
      (fun st : GreedyState => List.Perm
        (nlIds st.placedCases ++ st.remaining.map (fun c => c.id)) (ac.map (fun c => c.id)))
      _ (List.range GRID_WIDTH) st hst ?_
    intro st2 x _ hst2
    rcases greedyCell_cases H st2 x y with heq | ⟨bp, hfb, heq⟩
    · rw [heq]; exact hst2
    · rw [heq]
      obtain ⟨hidx, _, _, _⟩ := findBest_spec _ _ _ _ _ _ _ _ hfb
      have hnl : nlIds (st2.placedCases ++ [⟨(st2.remaining.getD bp.caseIndex default).id,
          (st2.remaining.getD bp.caseIndex default).type, x, y, bp.orientW, bp.orientH,
          bp.rotated, false⟩]) =
          nlIds st2.placedCases ++ [(st2.remaining.getD bp.caseIndex default).id] := by
        unfold nlIds
        rw [List.filter_append, List.map_append]
        rfl
      show List.Perm (nlIds (st2.placedCases ++
          ([⟨(st2.remaining.getD bp.caseIndex default).id,
            (st2.remaining.getD bp.caseIndex default).type, x, y, bp.orientW, bp.orientH,
            bp.rotated, false⟩] : List PlacedCase)) ++
        (st2.remaining.eraseIdx bp.caseIndex).map (fun c => c.id)) (ac.map (fun c => c.id))
      rw [hnl, map_eraseIdx, List.append_assoc, List.singleton_append]
      have hgid : (st2.remaining.map (fun c => c.id)).getD bp.caseIndex "" =
          (st2.remaining.getD bp.caseIndex default).id := by
        rw [List.getD_eq_getElem _ "" (by rw [List.length_map]; exact hidx),
          List.getD_eq_getElem _ default hidx]
        exact List.getElem_map _
      have hperm : List.Perm
          ((st2.remaining.getD bp.caseIndex default).id ::
            (st2.remaining.map (fun c => c.id)).eraseIdx bp.caseIndex)
          (st2.remaining.map (fun c => c.id)) := by
        rw [← hgid]
        exact perm_getD_eraseIdx "" (st2.remaining.map (fun c => c.id)) bp.caseIndex
          (by rw [List.length_map]; exact hidx)
      exact ((hperm.append_left (nlIds st2.placedCases)).trans hst2)

theorem greedy_IndOk (ac : List CaseInstance) (H : Nat) (lk : List PlacedCase)
    (hpair : List.Pairwise noCommonCell lk) (hin : ∀ lc ∈ lk, inBounds H lc)
    (hnodup : (ac.map (fun c => c.id)).Nodup) :
    IndOk H lk (ac.map (fun c => c.id)) (greedyOptimization ac H lk).placedCases := by
  have hgeo := greedy_geo ac H lk hpair hin
  have hperm := greedy_ids ac H lk
  have hnd : (nlIds (greedyOptimization ac H lk).placedCases ++
      (greedyOptimization ac H lk).unplacedCases.map (fun c => c.id)).Nodup :=
    hperm.symm.nodup hnodup
  refine ⟨greedy_filter_locked ac H lk, hgeo.2, hgeo.1, hnd.of_append_left, ?_⟩
  intro i hi
  exact hperm.mem_iff.mp (List.mem_append.mpr (Or.inl hi))

/-! ### Genetic operators: what each accepted random placement guarantees -/

/-! ### Genetic operators: guarantees of each accepted random placement -/

theorem tryPlaceCase_spec (H : Nat) (ors : List (Nat × Nat × Bool)) (grid : StashGrid) :
    ∀ (fuel : Nat) (g : RS) (rx ry ow oh : Nat) (rot : Bool) (g2 : RS),
      tryPlaceCase H ors grid fuel g = (some (rx, ry, ow, oh, rot), g2) →
      rx + ow ≤ GRID_WIDTH ∧ ry + oh ≤ H ∧ rectFree grid rx ry ow oh = true := by
  intro fuel
  induction fuel with
  | zero =>
    intro g rx ry ow oh rot g2 h
    exact absurd h (by simp [tryPlaceCase])
  | succ fuel ih =>
    intro g rx ry ow oh rot g2 h
    simp only [tryPlaceCase] at h
    split_ifs at h with h1 h2
    · simp only [Prod.mk.injEq, Option.some.injEq] at h
      obtain ⟨⟨e1, e2, e3, e4, _⟩, _⟩ := h
      subst e1
      subst e2
      subst e3
      subst e4
      exact ⟨h1.1, h1.2, h2⟩
    · exact ih _ rx ry ow oh rot g2 h
    · exact ih _ rx ry ow oh rot g2 h

theorem setOrder_props (l : List String) : (setOrder l).Nodup ∧ ∀ a ∈ setOrder l, a ∈ l := by
  unfold setOrder
  refine foldl_invariant_mem
    (fun acc : List String => acc.Nodup ∧ ∀ a ∈ acc, a ∈ l)
    (fun acc a => if acc.contains a then acc else acc ++ [a]) l [] ⟨List.nodup_nil, by simp⟩ ?_
  intro acc a ha hh
  obtain ⟨hnd, hsub⟩ := hh
  show (if acc.contains a then acc else acc ++ [a]).Nodup ∧
    ∀ x ∈ (if acc.contains a then acc else acc ++ [a]), x ∈ l
  by_cases hc : acc.contains a
  · rw [if_pos hc]; exact ⟨hnd, hsub⟩
  · rw [if_neg hc]
    refine ⟨?_, ?_⟩
    · rw [List.nodup_append]
      refine ⟨hnd, List.nodup_singleton a, ?_⟩
      intro x hx hx2
      have hxa : x = a := by simpa using hx2
      subst hxa
      exact hc (by simpa using hx)
    · intro x hx
      rcases List.mem_append.mp hx with hx1 | hx2
      · exact hsub x hx1
      · have hxa : x = a := by simpa using hx2
        subst hxa
        exact ha

theorem shuffleGo_perm : ∀ (fuel : Nat) (l : List CaseInstance) (g : RS), l.length = fuel →
    List.Perm (shuffleGo fuel l g).1 l := by
  intro fuel
  induction fuel with
  | zero =>
    intro l g hl
    exact List.Perm.refl _
  | succ fuel ih =>
    intro l g hl
    have hne : l.isEmpty = false := by
      cases l with
      | nil => simp at hl
      | cons a l => rfl
    have hlen : 0 < l.length := by rw [hl]; omega
    have hd : (g.draw l.length).1 < l.length := by
      rw [draw_eq]
      exact Nat.mod_lt _ hlen
    have he : (shuffleGo (fuel + 1) l g).1 =
        l.getD (g.draw l.length).1 default ::
          (shuffleGo fuel (l.eraseIdx (g.draw l.length).1) (g.draw l.length).2).1 := by
      simp only [shuffleGo, hne, Bool.false_eq_true, if_neg (fun hcon => hcon)]
    rw [he]
    have hperm := ih (l.eraseIdx (g.draw l.length).1) (g.draw l.length).2
      (by rw [List.length_eraseIdx_of_lt hd]; omega)
    exact (hperm.cons _).trans (perm_getD_eraseIdx default l _ hd)

theorem shuffle_perm (l : List CaseInstance) (g : RS) : List.Perm (shuffle l g).1 l :=
  shuffleGo_perm l.length l g rfl

theorem randomPlaceStep_cases (H : Nat) (acc : BuildAcc) (c : CaseInstance) :
    (randomPlaceStep H acc c).individual = acc.individual ∧
      (randomPlaceStep H acc c).grid = acc.grid ∨
    ∃ (rx ry ow oh : Nat) (rot : Bool) (g2 : RS),
      tryPlaceCase H (orientationsOf c.width c.height) acc.grid 100 acc.rng
        = (some (rx, ry, ow, oh, rot), g2) ∧
      (randomPlaceStep H acc c).individual =
        acc.individual ++ [⟨c.id, c.type, rx, ry, ow, oh, rot, false⟩] ∧
      (randomPlaceStep H acc c).grid = fillRect acc.grid rx ry ow oh c.id := by
  rcases htp : tryPlaceCase H (orientationsOf c.width c.height) acc.grid 100 acc.rng
    with ⟨o, g2⟩
  cases o with
  | none =>
    left
    constructor <;> simp only [randomPlaceStep, htp]
  | some t =>
    obtain ⟨rx, ry, ow, oh, rot⟩ := t
    right
    exact ⟨rx, ry, ow, oh, rot, g2, rfl, by simp only [randomPlaceStep, htp], by
      simp only [randomPlaceStep, htp]⟩

theorem crossover_result (H : Nat) (p1 p2 : List PlacedCase) (g : RS) :
    (crossover H p1 p2 g).1 = (p1.filter fun c => c.isLocked) ++
      ((setOrder (((p1.filter fun c => !c.isLocked).map fun c => c.id) ++
        ((p2.filter fun c => !c.isLocked).map fun c => c.id))).foldl
        (crossoverStep H (p1.filter fun c => !c.isLocked) (p2.filter fun c => !c.isLocked))
        ⟨[], placeLocked H (p1.filter fun c => c.isLocked) (mkGrid H), g⟩).child := rfl

theorem crossoverStep_cases (H : Nat) (p1c p2c : List PlacedCase) (acc : CrossAcc)
    (caseId : String) :
    ((crossoverStep H p1c p2c acc caseId).child = acc.child ∧
     (crossoverStep H p1c p2c acc caseId).grid = acc.grid) ∨
    ∃ c : PlacedCase, (c ∈ p1c ∨ c ∈ p2c) ∧ c.id = caseId ∧
      rectFreeGuarded H acc.grid c.x c.y c.width c.height = true ∧
      (crossoverStep H p1c p2c acc caseId).child = acc.child ++ [c] ∧
      (crossoverStep H p1c p2c acc caseId).grid =
        markRect H acc.grid c.x c.y c.width c.height caseId := by
  by_cases hd : (acc.rng.draw 2).1 = 0
  · rcases hf : p1c.find? (fun c => c.id = caseId) with _ | c
    · left
      constructor <;> simp [crossoverStep, hd, hf]
    · by_cases hfree : rectFreeGuarded H acc.grid c.x c.y c.width c.height
      · right
        refine ⟨c, Or.inl (List.mem_of_find?_eq_some hf), ?_, hfree, ?_, ?_⟩
        · have h5 := List.find?_some hf
          simpa using h5
        · simp [crossoverStep, hd, hf, hfree]
        · have hcid : c.id = caseId := by
            have h5 := List.find?_some hf
            simpa using h5
          simp [crossoverStep, hd, hf, hfree, hcid]
      · left
        constructor <;> simp [crossoverStep, hd, hf, hfree]
  · rcases hf : p2c.find? (fun c => c.id = caseId) with _ | c
    · left
      constructor <;> simp [crossoverStep, hd, hf]
    · by_cases hfree : rectFreeGuarded H acc.grid c.x c.y c.width c.height
      · right
        refine ⟨c, Or.inr (List.mem_of_find?_eq_some hf), ?_, hfree, ?_, ?_⟩
        · have h5 := List.find?_some hf
          simpa using h5
        · simp [crossoverStep, hd, hf, hfree]
        · have hcid : c.id = caseId := by
            have h5 := List.find?_some hf
            simpa using h5
          simp [crossoverStep, hd, hf, hfree, hcid]
      · left
        constructor <;> simp [crossoverStep, hd, hf, hfree]

theorem crossover_child_mem (H : Nat) (p1c p2c : List PlacedCase) (ids : List String)
    (acc : CrossAcc) (hacc : ∀ c ∈ acc.child, c ∈ p1c ∨ c ∈ p2c) :
    ∀ c ∈ (ids.foldl (crossoverStep H p1c p2c) acc).child, c ∈ p1c ∨ c ∈ p2c := by
  refine foldl_invariant_mem (fun acc : CrossAcc => ∀ c ∈ acc.child, c ∈ p1c ∨ c ∈ p2c)
    (crossoverStep H p1c p2c) ids acc hacc ?_
  intro acc2 caseId _ h2
  rcases crossoverStep_cases H p1c p2c acc2 caseId with ⟨hch, _⟩ | ⟨c, hc, _, _, hch, _⟩
  · rw [hch]; exact h2
  · rw [hch]
    intro d hd
    rcases List.mem_append.mp hd with h3 | h3
    · exact h2 d h3
    · have hdc : d = c := by simpa using h3
      subst hdc
      exact hc

theorem crossover_fold_geo (H : Nat) (p1c p2c L : List PlacedCase)
    (hp1 : ∀ c ∈ p1c, inBounds H c) (hp2 : ∀ c ∈ p2c, inBounds H c) (ids : List String)
    (acc : CrossAcc) (hwf : gridWF H acc.grid) (hcov : covers acc.grid (L ++ acc.child))
    (hpw : List.Pairwise noCommonCell (L ++ acc.child))
    (hbnd : ∀ c ∈ acc.child, inBounds H c) :
    gridWF H (ids.foldl (crossoverStep H p1c p2c) acc).grid ∧
      covers (ids.foldl (crossoverStep H p1c p2c) acc).grid
        (L ++ (ids.foldl (crossoverStep H p1c p2c) acc).child) ∧
      List.Pairwise noCommonCell (L ++ (ids.foldl (crossoverStep H p1c p2c) acc).child) ∧
      ∀ c ∈ (ids.foldl (crossoverStep H p1c p2c) acc).child, inBounds H c := by
  refine foldl_invariant_mem
    (fun acc : CrossAcc => gridWF H acc.grid ∧ covers acc.grid (L ++ acc.child) ∧
      List.Pairwise noCommonCell (L ++ acc.child) ∧ ∀ c ∈ acc.child, inBounds H c)
    (crossoverStep H p1c p2c) ids acc ⟨hwf, hcov, hpw, hbnd⟩ ?_
  intro acc2 caseId _ h2
  obtain ⟨wf2, cov2, pw2, bnd2⟩ := h2
  rcases crossoverStep_cases H p1c p2c acc2 caseId with ⟨hch, hgr⟩ | ⟨c, hc, _, hfree, hch, hgr⟩
  · rw [hch, hgr]
    exact ⟨wf2, cov2, pw2, bnd2⟩
  · have hcb : inBounds H c := by
      rcases hc with h3 | h3
      · exact hp1 c h3
      · exact hp2 c h3
    have hcfree : ∀ cx cy : Nat, cellOf c cx cy → getCell acc2.grid cx cy = none := by
      intro cx cy hcell
      obtain ⟨h3, h4, h5, h6⟩ := hcell
      have hlt := cellOf_lt hcb ⟨h3, h4, h5, h6⟩
      have he := rectFreeGuarded_spec hfree (cx - c.x) (cy - c.y) (by omega) (by omega)
        (by omega) (by omega)
      have hcx : c.x + (cx - c.x) = cx := by omega
      have hcy : c.y + (cy - c.y) = cy := by omega
      rw [hcx, hcy] at he
      exact he
    rw [hch, hgr]
    refine ⟨gridWF_markRect wf2 _ _ _ _ _, ?_, ?_, ?_⟩
    · intro d hd cx cy hcell
      rw [← List.append_assoc] at hd
      rcases List.mem_append.mp hd with hold | hnew
      · exact markRect_isSome_mono wf2 _ _ _ _ _ cx cy (cov2 d hold cx cy hcell)
      · have hdc : d = c := by simpa using hnew
        subst hdc
        exact markRect_covers_self wf2 d.x d.y d.width d.height caseId hcb.1 hcb.2 cx cy
          ⟨hcell.1, hcell.2.1, hcell.2.2.1, hcell.2.2.2⟩
    · rw [← List.append_assoc]
      refine List.pairwise_append.mpr ⟨pw2, List.pairwise_singleton _ _, ?_⟩
      intro d hd e he
      have hee : e = c := by simpa using he
      subst hee
      exact noCommonCell_of_covered_free (cov2 d hd) hcfree
    · intro d hd
      rcases List.mem_append.mp hd with hold | hnew
      · exact bnd2 d hold
      · have hdc : d = c := by simpa using hnew
        subst hdc
        exact hcb

theorem crossover_fold_ids (H : Nat) (p1c p2c : List PlacedCase) :
    ∀ (ids : List String) (acc : CrossAcc),
      ((acc.child.map fun c => c.id) ++ ids).Nodup →
      ((ids.foldl (crossoverStep H p1c p2c) acc).child.map fun c => c.id).Nodup := by
  intro ids
  induction ids with
  | nil =>
    intro acc h
    simpa using h
  | cons caseId ids ih =>
    intro acc h
    rw [List.foldl_cons]
    rcases crossoverStep_cases H p1c p2c acc caseId with ⟨hch, _⟩ | ⟨c, _, hcid, _, hch, _⟩
    · refine ih _ ?_
      rw [hch]
      exact List.Nodup.sublist
        (List.Sublist.append_left (List.sublist_cons_self caseId ids) _) h
    · refine ih _ ?_
      rw [hch, List.map_append]
      have hone : (([c].map fun c => c.id) : List String) = [caseId] := by
        rw [← hcid]
        rfl
      rw [hone, List.append_assoc, List.singleton_append]
      exact h

theorem lockedMap_filters (lk : List PlacedCase) :
    (lk.map withLockedFlag).filter (fun c => c.isLocked) = lk.map withLockedFlag ∧
      (lk.map withLockedFlag).filter (fun c => !c.isLocked) = [] := by
  constructor
  · refine List.filter_eq_self.mpr ?_
    intro a ha
    obtain ⟨lc, _, h⟩ := List.mem_map.mp ha
    subst h
    rfl
  · refine List.filter_eq_nil_iff.mpr ?_
    intro a ha
    obtain ⟨lc, _, h⟩ := List.mem_map.mp ha
    subst h
    simp [withLockedFlag]

theorem crossover_parts (H : Nat) (p1 p2 : List PlacedCase) (g : RS) :
    ∃ child : List PlacedCase,
      (crossover H p1 p2 g).1 = (p1.filter fun c => c.isLocked) ++ child ∧
      (∀ c ∈ child,
        c ∈ p1.filter (fun c => !c.isLocked) ∨ c ∈ p2.filter (fun c => !c.isLocked)) ∧
      (child.map fun c => c.id).Nodup := by
  refine ⟨_, crossover_result H p1 p2 g, ?_, ?_⟩
  · exact crossover_child_mem H _ _ _ _ (fun c hc => absurd hc (List.not_mem_nil c))
  · refine crossover_fold_ids H _ _ _ _ ?_
    simpa using (setOrder_props (((p1.filter fun c => !c.isLocked).map fun c => c.id) ++
      ((p2.filter fun c => !c.isLocked).map fun c => c.id))).1

theorem crossover_geo (H : Nat) (p1 p2 : List PlacedCase) (g : RS)
    (hb1 : ∀ c ∈ p1, inBounds H c) (hb2 : ∀ c ∈ p2, inBounds H c)
    (hpw1 : List.Pairwise noCommonCell p1) :
    List.Pairwise noCommonCell (crossover H p1 p2 g).1 ∧
      ∀ c ∈ (crossover H p1 p2 g).1, inBounds H c := by
  have hLb : ∀ c ∈ p1.filter (fun c => c.isLocked), inBounds H c :=
    fun c hc => hb1 c (List.mem_of_mem_filter hc)
  have hcov0 : covers (placeLocked H (p1.filter fun c => c.isLocked) (mkGrid H))
      ((p1.filter fun c => c.isLocked) ++ ([] : List PlacedCase)) := by
    intro c hc cx cy hcell
    rw [List.append_nil] at hc
    exact placeLocked_covers _ (mkGrid H) (gridWF_mkGrid H) hLb c hc cx cy hcell
  have hpw0 : List.Pairwise noCommonCell
      ((p1.filter fun c => c.isLocked) ++ ([] : List PlacedCase)) := by
    rw [List.append_nil]
    exact List.Pairwise.filter _ hpw1
  have h := crossover_fold_geo H (p1.filter fun c => !c.isLocked)
    (p2.filter fun c => !c.isLocked) (p1.filter fun c => c.isLocked)
    (fun c hc => hb1 c (List.mem_of_mem_filter hc))
    (fun c hc => hb2 c (List.mem_of_mem_filter hc))
    (setOrder (((p1.filter fun c => !c.isLocked).map fun c => c.id) ++
      ((p2.filter fun c => !c.isLocked).map fun c => c.id)))
    ⟨[], placeLocked H (p1.filter fun c => c.isLocked) (mkGrid H), g⟩
    (gridWF_placeLocked _ (gridWF_mkGrid H)) hcov0 hpw0
    (fun c hc => absurd hc (List.not_mem_nil c))
  rw [crossover_result]
  constructor
  · exact h.2.2.1
  · intro c hc
    rcases List.mem_append.mp hc with h3 | h3
    · exact hLb c h3
    · exact h.2.2.2 c h3

theorem mutate_cases (H : Nat) (ac : List CaseInstance) (ind : List PlacedCase) (g : RS) :
    (mutate H ac ind g).1 = ind ∨
    ∃ (i : Nat) (u : PlacedCase) (rx ry ow oh : Nat) (rot : Bool),
      ind[i]? = some u ∧ u ∈ ind.filter (fun c => !c.isLocked) ∧
      rx + ow ≤ GRID_WIDTH ∧ ry + oh ≤ H ∧
      rectFree (ind.foldl (fun gr pc => if pc.id = u.id then gr
        else markRect H gr pc.x pc.y pc.width pc.height pc.id) (mkGrid H)) rx ry ow oh = true ∧
      (mutate H ac ind g).1 =
        ind.set i { u with x := rx, y := ry, width := ow, height := oh, rotated := rot } := by
  by_cases hz : (ind.filter fun c => !c.isLocked).length = 0
  · left
    simp [mutate, hz]
  · have hlen : 0 < (ind.filter fun c => !c.isLocked).length := Nat.pos_of_ne_zero hz
    have hd : (g.draw (ind.filter fun c => !c.isLocked).length).1 <
        (ind.filter fun c => !c.isLocked).length := by
      rw [draw_eq]
      exact Nat.mod_lt _ hlen
    have humem : (ind.filter fun c => !c.isLocked).getD
        (g.draw (ind.filter fun c => !c.isLocked).length).1 default ∈
        (ind.filter fun c => !c.isLocked) := by
      rw [List.getD_eq_getElem _ default hd]
      exact List.getElem_mem hd
    have huind : (ind.filter fun c => !c.isLocked).getD
        (g.draw (ind.filter fun c => !c.isLocked).length).1 default ∈ ind :=
      List.mem_of_mem_filter humem
    have hex : ∃ x ∈ ind, (fun c => decide (c = (ind.filter fun c => !c.isLocked).getD
        (g.draw (ind.filter fun c => !c.isLocked).length).1 default)) x = true :=
      ⟨_, huind, by simp⟩
    have hidx : ind.findIdx (fun c => decide (c = (ind.filter fun c => !c.isLocked).getD
        (g.draw (ind.filter fun c => !c.isLocked).length).1 default)) < ind.length :=
      List.findIdx_lt_length_of_exists hex
    have hp := @List.findIdx_getElem PlacedCase
      (fun c => decide (c = (ind.filter fun c => !c.isLocked).getD
        (g.draw (ind.filter fun c => !c.isLocked).length).1 default)) ind hidx
    have heqi : ind.get ⟨ind.findIdx (fun c => decide (c = (ind.filter fun c => !c.isLocked).getD
        (g.draw (ind.filter fun c => !c.isLocked).length).1 default)), hidx⟩ =
        (ind.filter fun c => !c.isLocked).getD
          (g.draw (ind.filter fun c => !c.isLocked).length).1 default :=
      of_decide_eq_true hp
    have hget : ind[ind.findIdx (fun c => decide (c = (ind.filter fun c => !c.isLocked).getD
        (g.draw (ind.filter fun c => !c.isLocked).length).1 default))]? =
        some ((ind.filter fun c => !c.isLocked).getD
          (g.draw (ind.filter fun c => !c.isLocked).length).1 default) :=
      List.getElem?_eq_some.mpr ⟨hidx, heqi⟩
    cases hfd : ac.find? fun c => c.id = ((ind.filter fun c => !c.isLocked).getD
        (g.draw (ind.filter fun c => !c.isLocked).length).1 default).id with
    | none =>
      left
      have hfd2 := hfd
      simp only [List.getD_eq_getElem?_getD] at hfd2
      simp [mutate, hz, hfd2]
    | some caseDef =>
      rcases htp : tryPlaceCase H (orientationsOf caseDef.width caseDef.height)
          (ind.foldl (fun gr pc => if pc.id = ((ind.filter fun c => !c.isLocked).getD
              (g.draw (ind.filter fun c => !c.isLocked).length).1 default).id then gr
            else markRect H gr pc.x pc.y pc.width pc.height pc.id) (mkGrid H)) 50
          (g.draw (ind.filter fun c => !c.isLocked).length).2 with ⟨o, g2⟩
      cases o with
      | none =>
        left
        have hfd2 := hfd
        have htp2 := htp
        simp only [List.getD_eq_getElem?_getD] at hfd2 htp2
        simp [mutate, hz, hfd2, htp2]
      | some t =>
        obtain ⟨rx, ry, ow, oh, rot⟩ := t
        right
        obtain ⟨hbw, hbh, hfree⟩ := tryPlaceCase_spec H _ _ 50 _ rx ry ow oh rot g2 htp
        refine ⟨_, _, rx, ry, ow, oh, rot, hget, humem, hbw, hbh, hfree, ?_⟩
        have hfd2 := hfd
        have htp2 := htp
        simp only [List.getD_eq_getElem?_getD] at hfd2 htp2
        simp [mutate, hz, hfd2, htp2]

theorem mutgrid_covers (H : Nat) (s : String) :
    ∀ (l : List PlacedCase) (g : StashGrid), gridWF H g → (∀ c ∈ l, inBounds H c) →
      gridWF H (l.foldl (fun gr pc => if pc.id = s then gr
        else markRect H gr pc.x pc.y pc.width pc.height pc.id) g) ∧
      (∀ cx cy : Nat, (getCell g cx cy).isSome →
        (getCell (l.foldl (fun gr pc => if pc.id = s then gr
          else markRect H gr pc.x pc.y pc.width pc.height pc.id) g) cx cy).isSome) ∧
      (∀ c ∈ l, c.id ≠ s → ∀ cx cy : Nat, cellOf c cx cy →
        (getCell (l.foldl (fun gr pc => if pc.id = s then gr
          else markRect H gr pc.x pc.y pc.width pc.height pc.id) g) cx cy).isSome) := by
  intro l
  induction l with
  | nil =>
    intro g wf _
    exact ⟨wf, fun cx cy h => h, fun c hc => absurd hc (List.not_mem_nil c)⟩
  | cons pc l ih =>
    intro g wf hin
    have hstep : (pc :: l).foldl (fun gr pc => if pc.id = s then gr
        else markRect H gr pc.x pc.y pc.width pc.height pc.id) g =
        l.foldl (fun gr pc => if pc.id = s then gr
          else markRect H gr pc.x pc.y pc.width pc.height pc.id)
          (if pc.id = s then g else markRect H g pc.x pc.y pc.width pc.height pc.id) := rfl
    by_cases hpcid : pc.id = s
    · rw [hstep, if_pos hpcid]
      obtain ⟨w1, w2, w3⟩ := ih g wf (fun c hc => hin c (List.mem_cons_of_mem pc hc))
      refine ⟨w1, w2, ?_⟩
      intro c hc hcid cx cy hcell
      rcases List.mem_cons.mp hc with heq | hmem
      · subst heq
        exact absurd hpcid hcid
      · exact w3 c hmem hcid cx cy hcell
    · rw [hstep, if_neg hpcid]
      have wf2 := gridWF_markRect wf pc.x pc.y pc.width pc.height pc.id
      obtain ⟨w1, w2, w3⟩ := ih _ wf2 (fun c hc => hin c (List.mem_cons_of_mem pc hc))
      refine ⟨w1, fun cx cy h => w2 cx cy (markRect_isSome_mono wf _ _ _ _ _ cx cy h), ?_⟩
      intro c hc hcid cx cy hcell
      rcases List.mem_cons.mp hc with heq | hmem
      · subst heq
        have hinpc := hin c (List.mem_cons_self c l)
        exact w2 cx cy (markRect_covers_self wf c.x c.y c.width c.height c.id hinpc.1 hinpc.2
          cx cy ⟨hcell.1, hcell.2.1, hcell.2.2.1, hcell.2.2.2⟩)
      · exact w3 c hmem hcid cx cy hcell

theorem mutate_A (H : Nat) (ac : List CaseInstance) (ind : List PlacedCase) (g : RS) :
    (mutate H ac ind g).1.filter (fun c => c.isLocked) = ind.filter (fun c => c.isLocked) := by
  rcases mutate_cases H ac ind g with heq |
    ⟨i, u, rx, ry, ow, oh, rot, hget, humem, _, _, _, heq⟩
  · rw [heq]
  · rw [heq]
    have hul : u.isLocked = false := by
      have h5 := List.of_mem_filter humem
      simpa using h5
    have h := map_filter_set id (fun c : PlacedCase => c.isLocked) ind i u
      { u with x := rx, y := ry, width := ow, height := oh, rotated := rot } hget rfl
      (fun hpu => absurd hpu (by simp [hul]))
    simpa using h

theorem mutate_nlIds (H : Nat) (ac : List CaseInstance) (ind : List PlacedCase) (g : RS) :
    nlIds (mutate H ac ind g).1 = nlIds ind := by
  rcases mutate_cases H ac ind g with heq |
    ⟨i, u, rx, ry, ow, oh, rot, hget, humem, _, _, _, heq⟩
  · rw [heq]
  · rw [heq]
    show ((ind.set i _).filter (fun c => !c.isLocked)).map (fun c => c.id) =
      (ind.filter (fun c => !c.isLocked)).map (fun c => c.id)
    exact map_filter_set (fun c : PlacedCase => c.id) (fun c : PlacedCase => !c.isLocked) ind i u
      { u with x := rx, y := ry, width := ow, height := oh, rotated := rot } hget rfl
      (fun _ => rfl)

theorem mutate_geo (H : Nat) (locked : List PlacedCase) (allIds : List String)
    (ac : List CaseInstance) (ind : List PlacedCase) (g : RS)
    (hfresh : ∀ lc ∈ locked, lc.id ∉ allIds) (hok : IndOk H locked allIds ind) :
    List.Pairwise noCommonCell (mutate H ac ind g).1 ∧
      ∀ c ∈ (mutate H ac ind g).1, inBounds H c := by
  obtain ⟨hA, hbnd, hpw, hnd, hsub⟩ := hok
  have hnd2 : ((ind.filter fun c => !c.isLocked).map fun c => c.id).Nodup := hnd
  have hsub2 : ∀ s ∈ (ind.filter fun c => !c.isLocked).map fun c => c.id, s ∈ allIds := hsub
  rcases mutate_cases H ac ind g with heq |
    ⟨i, u, rx, ry, ow, oh, rot, hget, humem, hbw, hbh, hfree, heq⟩
  · rw [heq]
    exact ⟨hpw, hbnd⟩
  · rw [heq]
    have huid : u.id ∈ allIds := hsub2 u.id (List.mem_map_of_mem _ humem)
    obtain ⟨hilt, hgeti⟩ := List.getElem?_eq_some.mp hget
    have hcnt : ind.count u ≤ 1 := by
      have hup := List.of_mem_filter humem
      have h1 : (ind.filter fun c => !c.isLocked).count u = ind.count u :=
        List.count_filter hup
      have h2 : (ind.filter fun c => !c.isLocked).count u ≤
          ((ind.filter fun c => !c.isLocked).map fun c => c.id).count u.id :=
        List.count_le_count_map _ _ u
      have h3 : ((ind.filter fun c => !c.isLocked).map fun c => c.id).count u.id ≤ 1 :=
        List.nodup_iff_count_le_one.mp hnd2 u.id
      omega
    have hwne : ∀ w ∈ ind.eraseIdx i, w.id ≠ u.id := by
      intro w hw hwid
      have hwind : w ∈ ind := List.mem_of_mem_eraseIdx hw
      have hwnl : w.isLocked = false := by
        cases hwl : w.isLocked
        · rfl
        · exfalso
          have hwf : w ∈ ind.filter (fun c => c.isLocked) :=
            List.mem_filter_of_mem hwind (by rw [hwl])
          rw [hA] at hwf
          obtain ⟨lc, hlc, hlceq⟩ := List.mem_map.mp hwf
          have hidw : w.id = lc.id := by rw [← hlceq]; rfl
          have : lc.id ∈ allIds := by rw [← hidw, hwid]; exact huid
          exact hfresh lc hlc this
      have hwmem : w ∈ ind.filter (fun c => !c.isLocked) :=
        List.mem_filter_of_mem hwind (by rw [hwnl]; rfl)
      have hwu : w = u := List.inj_on_of_nodup_map hnd2 hwmem humem hwid
      exact not_mem_eraseIdx_of_count_le_one ind i u hget hcnt (hwu ▸ hw)
    obtain ⟨mwf, mmono, mcov⟩ := mutgrid_covers H u.id ind (mkGrid H) (gridWF_mkGrid H) hbnd
    have hempty : emptyRect (ind.foldl (fun gr pc => if pc.id = u.id then gr
        else markRect H gr pc.x pc.y pc.width pc.height pc.id) (mkGrid H)) rx ry ow oh :=
      rectFree_spec hfree
    have hvfree : ∀ cx cy : Nat,
        cellOf { u with x := rx, y := ry, width := ow, height := oh, rotated := rot } cx cy →
        getCell (ind.foldl (fun gr pc => if pc.id = u.id then gr
          else markRect H gr pc.x pc.y pc.width pc.height pc.id) (mkGrid H)) cx cy = none := by
      intro cx cy hcell
      simp only [cellOf] at hcell
      obtain ⟨h1, h2, h3, h4⟩ := hcell
      have he := hempty (cx - rx) (cy - ry) (by omega) (by omega)
      have hcx : rx + (cx - rx) = cx := by omega
      have hcy : ry + (cy - ry) = cy := by omega
      rw [hcx, hcy] at he
      exact he
    constructor
    · refine pairwise_set (fun a b h => noCommonCell_symm h) ind i _ hpw ?_
      intro w hw
      have hwcov := mcov w (List.mem_of_mem_eraseIdx hw) (hwne w hw)
      exact noCommonCell_symm (noCommonCell_of_covered_free hwcov hvfree)
    · intro c hc
      rcases List.mem_or_eq_of_mem_set hc with hmem | hceq
      · exact hbnd c hmem
      · subst hceq
        exact ⟨hbw, hbh⟩

theorem randomIndividual_result (H : Nat) (lk : List PlacedCase) (ac : List CaseInstance)
    (g : RS) :
    (randomIndividual H lk ac g).1 =
      ((shuffle ac g).1.foldl (randomPlaceStep H)
        ⟨lk.map withLockedFlag, placeLocked H lk (mkGrid H), (shuffle ac g).2⟩).individual := rfl

theorem randfold_A (H : Nat) : ∀ (cs : List CaseInstance) (acc : BuildAcc),
    (cs.foldl (randomPlaceStep H) acc).individual.filter (fun c => c.isLocked) =
      acc.individual.filter (fun c => c.isLocked) := by
  intro cs
  induction cs with
  | nil => intro acc; rfl
  | cons c cs ih =>
    intro acc
    rw [List.foldl_cons, ih (randomPlaceStep H acc c)]
    rcases randomPlaceStep_cases H acc c with ⟨hind, _⟩ | ⟨rx, ry, ow, oh, rot, g2, _, hind, _⟩
    · rw [hind]
    · rw [hind, List.filter_append]
      simp

theorem randfold_geo (H : Nat) : ∀ (cs : List CaseInstance) (acc : BuildAcc),
    gridWF H acc.grid → covers acc.grid acc.individual →
    List.Pairwise noCommonCell acc.individual → (∀ c ∈ acc.individual, inBounds H c) →
    gridWF H (cs.foldl (randomPlaceStep H) acc).grid ∧
      covers (cs.foldl (randomPlaceStep H) acc).grid
        (cs.foldl (randomPlaceStep H) acc).individual ∧
      List.Pairwise noCommonCell (cs.foldl (randomPlaceStep H) acc).individual ∧
      ∀ c ∈ (cs.foldl (randomPlaceStep H) acc).individual, inBounds H c := by
  intro cs
  induction cs with
  | nil =>
    intro acc wf hcov hpw hbnd
    exact ⟨wf, hcov, hpw, hbnd⟩
  | cons c cs ih =>
    intro acc wf hcov hpw hbnd
    rw [List.foldl_cons]
    rcases randomPlaceStep_cases H acc c with ⟨hind, hgr⟩ |
      ⟨rx, ry, ow, oh, rot, g2, htp, hind, hgr⟩
    · exact ih (randomPlaceStep H acc c) (by rw [hgr]; exact wf)
        (by rw [hgr, hind]; exact hcov) (by rw [hind]; exact hpw) (by rw [hind]; exact hbnd)
    · obtain ⟨hbw, hbh, hfree⟩ := tryPlaceCase_spec H _ _ 100 _ rx ry ow oh rot g2 htp
      have hfillmark : fillRect acc.grid rx ry ow oh c.id =
          markRect H acc.grid rx ry ow oh c.id :=
        fillRect_eq_markRect acc.grid rx ry ow oh c.id hbw hbh
      have hempty : emptyRect acc.grid rx ry ow oh := rectFree_spec hfree
      have hitemfree : ∀ cx cy : Nat,
          cellOf ⟨c.id, c.type, rx, ry, ow, oh, rot, false⟩ cx cy →
          getCell acc.grid cx cy = none := by
        intro cx cy hcell
        simp only [cellOf] at hcell
        obtain ⟨h1, h2, h3, h4⟩ := hcell
        have he := hempty (cx - rx) (cy - ry) (by omega) (by omega)
        have hcx : rx + (cx - rx) = cx := by omega
        have hcy : ry + (cy - ry) = cy := by omega
        rw [hcx, hcy] at he
        exact he
      refine ih (randomPlaceStep H acc c) ?_ ?_ ?_ ?_
      · rw [hgr, hfillmark]
        exact gridWF_markRect wf _ _ _ _ _
      · rw [hgr, hind, hfillmark]
        intro d hd cx cy hcell
        rcases List.mem_append.mp hd with hold | hnew
        · exact markRect_isSome_mono wf _ _ _ _ _ cx cy (hcov d hold cx cy hcell)
        · have hde : d = ⟨c.id, c.type, rx, ry, ow, oh, rot, false⟩ := by simpa using hnew
          subst hde
          simp only [cellOf] at hcell
          exact markRect_covers_self wf rx ry ow oh c.id hbw hbh cx cy
            ⟨hcell.1, hcell.2.1, hcell.2.2.1, hcell.2.2.2⟩
      · rw [hind]
        refine List.pairwise_append.mpr ⟨hpw, List.pairwise_singleton _ _, ?_⟩
        intro d hd e he
        have hee : e = ⟨c.id, c.type, rx, ry, ow, oh, rot, false⟩ := by simpa using he
        subst hee
        exact noCommonCell_of_covered_free (hcov d hd) hitemfree
      · rw [hind]
        intro d hd
        rcases List.mem_append.mp hd with hold | hnew
        · exact hbnd d hold
        · have hde : d = ⟨c.id, c.type, rx, ry, ow, oh, rot, false⟩ := by simpa using hnew
          subst hde
          exact ⟨hbw, hbh⟩

theorem randfold_ids (H : Nat) : ∀ (cs : List CaseInstance) (acc : BuildAcc),
    (nlIds acc.individual ++ cs.map (fun c => c.id)).Nodup →
    (nlIds (cs.foldl (randomPlaceStep H) acc).individual).Nodup := by
  intro cs
  induction cs with
  | nil =>
    intro acc h
    simpa using h
  | cons c cs ih =>
    intro acc h
    rw [List.foldl_cons]
    rcases randomPlaceStep_cases H acc c with ⟨hind, _⟩ |
      ⟨rx, ry, ow, oh, rot, g2, _, hind, _⟩
    · refine ih _ ?_
      rw [hind]
      exact List.Nodup.sublist
        (List.Sublist.append_left (List.sublist_cons_self c.id (cs.map fun c => c.id)) _)
        (by simpa using h)
    · refine ih _ ?_
      rw [hind]
      have hnl : nlIds (acc.individual ++ [⟨c.id, c.type, rx, ry, ow, oh, rot, false⟩]) =
          nlIds acc.individual ++ [c.id] := by
        unfold nlIds
        rw [List.filter_append, List.map_append]
        rfl
      rw [hnl, List.append_assoc, List.singleton_append]
      simpa using h

theorem randfold_sub (H : Nat) (S : List String) (cs : List CaseInstance) (acc : BuildAcc)
    (hacc : ∀ i ∈ nlIds acc.individual, i ∈ S) (hcs : ∀ c ∈ cs, c.id ∈ S) :
    ∀ i ∈ nlIds (cs.foldl (randomPlaceStep H) acc).individual, i ∈ S := by
  refine foldl_invariant_mem
    (fun acc : BuildAcc => ∀ i ∈ nlIds acc.individual, i ∈ S)
    (randomPlaceStep H) cs acc hacc ?_
  intro acc2 c hc h2
  rcases randomPlaceStep_cases H acc2 c with ⟨hind, _⟩ |
    ⟨rx, ry, ow, oh, rot, g2, _, hind, _⟩
  · rw [hind]; exact h2
  · rw [hind]
    have hnl : nlIds (acc2.individual ++ [⟨c.id, c.type, rx, ry, ow, oh, rot, false⟩]) =
        nlIds acc2.individual ++ [c.id] := by
      unfold nlIds
      rw [List.filter_append, List.map_append]
      rfl
    rw [hnl]
    intro i hi
    rcases List.mem_append.mp hi with h3 | h3
    · exact h2 i h3
    · have : i = c.id := by simpa using h3
      subst this
      exact hcs c hc

theorem nlIds_lockedMap (lk : List PlacedCase) : nlIds (lk.map withLockedFlag) = [] := by
  unfold nlIds
  rw [(lockedMap_filters lk).2]
  rfl

theorem randomIndividual_IndOk (H : Nat) (lk : List PlacedCase) (ac : List CaseInstance)
    (g : RS) (hpair : List.Pairwise noCommonCell lk) (hin : ∀ lc ∈ lk, inBounds H lc)
    (hnodup : (ac.map (fun c => c.id)).Nodup) :
    IndOk H lk (ac.map (fun c => c.id)) (randomIndividual H lk ac g).1 := by
  rw [randomIndividual_result]
  have hshuf : List.Perm (shuffle ac g).1 ac := shuffle_perm ac g
  have hA0 : (lk.map withLockedFlag).filter (fun c => c.isLocked) = lk.map withLockedFlag :=
    (lockedMap_filters lk).1
  have hcov0 : covers (placeLocked H lk (mkGrid H)) (lk.map withLockedFlag) := by
    intro c hc cx cy hcell
    obtain ⟨lc, hlc, hlceq⟩ := List.mem_map.mp hc
    subst hlceq
    exact placeLocked_covers lk (mkGrid H) (gridWF_mkGrid H) hin lc hlc cx cy hcell
  have hpw0 : List.Pairwise noCommonCell (lk.map withLockedFlag) :=
    List.Pairwise.map withLockedFlag (fun a b hab => hab) hpair
  have hbnd0 : ∀ c ∈ lk.map withLockedFlag, inBounds H c := by
    intro c hc
    obtain ⟨lc, hlc, hlceq⟩ := List.mem_map.mp hc
    subst hlceq
    exact hin lc hlc
  have hgeo := randfold_geo H (shuffle ac g).1
    ⟨lk.map withLockedFlag, placeLocked H lk (mkGrid H), (shuffle ac g).2⟩
    (gridWF_placeLocked lk (gridWF_mkGrid H)) hcov0 hpw0 hbnd0
  refine ⟨?_, hgeo.2.2.2, hgeo.2.2.1, ?_, ?_⟩
  · rw [randfold_A]
    exact hA0
  · refine randfold_ids H _ _ ?_
    rw [nlIds_lockedMap, List.nil_append]
    exact ((hshuf.map (fun c => c.id)).symm).nodup hnodup
  · refine randfold_sub H _ _ _ ?_ ?_
    · rw [nlIds_lockedMap]
      intro i hi
      exact absurd hi (List.not_mem_nil i)
    · intro c hc
      exact List.mem_map_of_mem _ (hshuf.mem_iff.mp hc)

theorem crossover_IndOk (H : Nat) (locked : List PlacedCase) (allIds : List String)
    (p1 p2 : List PlacedCase) (g : RS) (h1 : IndOk H locked allIds p1)
    (h2 : IndOk H locked allIds p2) : IndOk H locked allIds (crossover H p1 p2 g).1 := by
  obtain ⟨child, hres, hmem, hndc⟩ := crossover_parts H p1 p2 g
  have hgeo := crossover_geo H p1 p2 g h1.2.1 h2.2.1 h1.2.2.1
  have hLf : (p1.filter fun c => c.isLocked).filter (fun c => c.isLocked) =
      p1.filter (fun c => c.isLocked) :=
    List.filter_eq_self.mpr (fun a ha => List.of_mem_filter ha)
  have hcf : child.filter (fun c => c.isLocked) = [] := by
    refine List.filter_eq_nil_iff.mpr ?_
    intro c hc
    rcases hmem c hc with h3 | h3 <;>
    · have h4 := List.of_mem_filter h3
      simp at h4 ⊢
      exact h4
  have hcs : child.filter (fun c => !c.isLocked) = child := by
    refine List.filter_eq_self.mpr ?_
    intro c hc
    rcases hmem c hc with h3 | h3 <;> simpa using List.of_mem_filter h3
  have hLn : (p1.filter fun c => c.isLocked).filter (fun c => !c.isLocked) = [] := by
    refine List.filter_eq_nil_iff.mpr ?_
    intro c hc
    have h4 := List.of_mem_filter hc
    simp at h4 ⊢
    exact h4
  have hnl : nlIds (crossover H p1 p2 g).1 = child.map (fun c => c.id) := by
    rw [hres]
    unfold nlIds
    rw [List.filter_append, hLn, hcs, List.nil_append]
  refine ⟨?_, hgeo.2, hgeo.1, ?_, ?_⟩
  · rw [hres, List.filter_append, hLf, hcf, List.append_nil]
    exact h1.1
  · rw [hnl]
    exact hndc
  · rw [hnl]
    intro i hi
    obtain ⟨c, hc, heq⟩ := List.mem_map.mp hi
    subst heq
    rcases hmem c hc with h3 | h3
    · exact h1.2.2.2.2 c.id (List.mem_map_of_mem _ h3)
    · exact h2.2.2.2.2 c.id (List.mem_map_of_mem _ h3)

theorem mutate_IndOk (H : Nat) (locked : List PlacedCase) (allIds : List String)
    (ac : List CaseInstance) (ind : List PlacedCase) (g : RS)
    (hfresh : ∀ lc ∈ locked, lc.id ∉ allIds) (hok : IndOk H locked allIds ind) :
    IndOk H locked allIds (mutate H ac ind g).1 := by
  have hgeo := mutate_geo H locked allIds ac ind g hfresh hok
  refine ⟨?_, hgeo.2, hgeo.1, ?_, ?_⟩
  · rw [mutate_A]
    exact hok.1
  · rw [mutate_nlIds]
    exact hok.2.2.2.1
  · rw [mutate_nlIds]
    exact hok.2.2.2.2

theorem PresPred_IndOk (H : Nat) (ac : List CaseInstance) (locked : List PlacedCase)
    (hL : LockedOk H (ac.map fun c => c.id) locked)
    (hnodup : (ac.map fun c => c.id).Nodup) :
    PresPred H ac locked (IndOk H locked (ac.map fun c => c.id)) :=
  ⟨greedy_IndOk ac H locked hL.1 hL.2.1 hnodup,
   fun g => randomIndividual_IndOk H locked ac g hL.1 hL.2.1 hnodup,
   fun p1 p2 g h1 h2 => crossover_IndOk H locked _ p1 p2 g h1 h2,
   fun ind g h => mutate_IndOk H locked _ ac ind g hL.2.2 h⟩

/-! ### Population plumbing: a preserved predicate reaches the returned best -/

theorem scorePop_mem (t H : Nat) (pop : List (List PlacedCase)) (s : ScoredInd)
    (hs : s ∈ scorePopulation t H pop) : s.individual ∈ pop := by
  obtain ⟨ind, hind, heq⟩ := List.mem_map.mp hs
  subst heq
  exact hind

theorem sortScores_mem {s : ScoredInd} {l : List ScoredInd} (hs : s ∈ sortScores l) : s ∈ l :=
  (List.perm_insertionSort _ l).subset hs

theorem sortScores_length (l : List ScoredInd) : (sortScores l).length = l.length :=
  (List.perm_insertionSort _ l).length_eq

theorem scorePop_length (t H : Nat) (pop : List (List PlacedCase)) :
    (scorePopulation t H pop).length = pop.length := List.length_map pop _

theorem tournamentDraw_mem (ss : List ScoredInd) (hpos : 0 < ss.length) :
    ∀ (n : Nat) (acc : List ScoredInd) (g : RS),
      ∀ s ∈ (tournamentDraw ss n acc g).1, s ∈ acc ∨ s ∈ ss := by
  intro n
  induction n with
  | zero =>
    intro acc g s hs
    exact Or.inl hs
  | succ n ih =>
    intro acc g s hs
    have hstep : tournamentDraw ss (n + 1) acc g =
        tournamentDraw ss n (acc ++ [ss.getD (g.draw ss.length).1 default])
          (g.draw ss.length).2 := rfl
    rw [hstep] at hs
    rcases ih _ _ s hs with h3 | h3
    · rcases List.mem_append.mp h3 with h4 | h4
      · exact Or.inl h4
      · right
        have hse : s = ss.getD (g.draw ss.length).1 default := by simpa using h4
        subst hse
        have hd : (g.draw ss.length).1 < ss.length := by
          rw [draw_eq]
          exact Nat.mod_lt _ hpos
        rw [List.getD_eq_getElem _ default hd]
        exact List.getElem_mem hd
    · exact Or.inr h3

theorem tournamentDraw_length (ss : List ScoredInd) :
    ∀ (n : Nat) (acc : List ScoredInd) (g : RS),
      (tournamentDraw ss n acc g).1.length = acc.length + n := by
  intro n
  induction n with
  | zero => intro acc g; rfl
  | succ n ih =>
    intro acc g
    have hstep : tournamentDraw ss (n + 1) acc g =
        tournamentDraw ss n (acc ++ [ss.getD (g.draw ss.length).1 default])
          (g.draw ss.length).2 := rfl
    rw [hstep, ih]
    rw [List.length_append]
    simp
    omega

theorem tournamentSelect_mem (ss : List ScoredInd) (g : RS) (hpos : 0 < ss.length) :
    ∃ s ∈ ss, (tournamentSelect ss g).1 = s.individual := by
  have hlen : (tournamentDraw ss 5 [] g).1.length = 5 := tournamentDraw_length ss 5 [] g
  have hne : sortScores (tournamentDraw ss 5 [] g).1 ≠ [] := by
    intro hnil
    have h5 := sortScores_length (tournamentDraw ss 5 [] g).1
    rw [hnil, hlen] at h5
    simp at h5
  have hmem := headD_mem default hne
  have hmem2 : (sortScores (tournamentDraw ss 5 [] g).1).headD default ∈
      (tournamentDraw ss 5 [] g).1 := sortScores_mem hmem
  rcases tournamentDraw_mem ss hpos 5 [] g _ hmem2 with h3 | h3
  · exact absurd h3 (List.not_mem_nil _)
  · exact ⟨_, h3, rfl⟩

theorem makeOffspring_pres (P : List PlacedCase → Prop) (H : Nat) (ac : List CaseInstance)
    (ss : List ScoredInd) (g : RS) (hpos : 0 < ss.length)
    (hss : ∀ s ∈ ss, P s.individual)
    (hcross : ∀ p1 p2 g2, P p1 → P p2 → P (crossover H p1 p2 g2).1)
    (hmut : ∀ ind g2, P ind → P (mutate H ac ind g2).1) :
    P (makeOffspring H ac ss g).1 := by
  obtain ⟨s1, hs1, he1⟩ := tournamentSelect_mem ss g hpos
  obtain ⟨s2, hs2, he2⟩ := tournamentSelect_mem ss (tournamentSelect ss g).2 hpos
  have hp1 : P (tournamentSelect ss g).1 := he1 ▸ hss s1 hs1
  have hp2 : P (tournamentSelect ss (tournamentSelect ss g).2).1 := he2 ▸ hss s2 hs2
  have hchild := hcross (tournamentSelect ss g).1
    (tournamentSelect ss (tournamentSelect ss g).2).1
    (tournamentSelect ss (tournamentSelect ss g).2).2 hp1 hp2
  show P ((if ((crossover H (tournamentSelect ss g).1
      (tournamentSelect ss (tournamentSelect ss g).2).1
      (tournamentSelect ss (tournamentSelect ss g).2).2).2.draw 10).1 = 0 then
      mutate H ac (crossover H (tournamentSelect ss g).1
        (tournamentSelect ss (tournamentSelect ss g).2).1
        (tournamentSelect ss (tournamentSelect ss g).2).2).1
        ((crossover H (tournamentSelect ss g).1
          (tournamentSelect ss (tournamentSelect ss g).2).1
          (tournamentSelect ss (tournamentSelect ss g).2).2).2.draw 10).2
    else ((crossover H (tournamentSelect ss g).1
        (tournamentSelect ss (tournamentSelect ss g).2).1
        (tournamentSelect ss (tournamentSelect ss g).2).2).1,
      ((crossover H (tournamentSelect ss g).1
        (tournamentSelect ss (tournamentSelect ss g).2).1
        (tournamentSelect ss (tournamentSelect ss g).2).2).2.draw 10).2)).1)
  split_ifs with hd
  · exact hmut _ _ hchild
  · exact hchild

theorem makeOffspringList_pres (P : List PlacedCase → Prop) (H : Nat) (ac : List CaseInstance)
    (ss : List ScoredInd) (hpos : 0 < ss.length) (hss : ∀ s ∈ ss, P s.individual)
    (hcross : ∀ p1 p2 g2, P p1 → P p2 → P (crossover H p1 p2 g2).1)
    (hmut : ∀ ind g2, P ind → P (mutate H ac ind g2).1) :
    ∀ (n : Nat) (g : RS), ∀ ind ∈ (makeOffspringList H ac ss n g).1, P ind := by
  intro n
  induction n with
  | zero =>
    intro g ind hind
    exact absurd hind (List.not_mem_nil ind)
  | succ n ih =>
    intro g ind hind
    have hstep : (makeOffspringList H ac ss (n + 1) g).1 =
        (makeOffspring H ac ss g).1 ::
          (makeOffspringList H ac ss n (makeOffspring H ac ss g).2).1 := rfl
    rw [hstep] at hind
    rcases List.mem_cons.mp hind with heq | hmem
    · subst heq
      exact makeOffspring_pres P H ac ss g hpos hss hcross hmut
    · exact ih _ ind hmem

theorem makeOffspringList_length (H : Nat) (ac : List CaseInstance) (ss : List ScoredInd) :
    ∀ (n : Nat) (g : RS), (makeOffspringList H ac ss n g).1.length = n := by
  intro n
  induction n with
  | zero => intro g; rfl
  | succ n ih =>
    intro g
    have hstep : (makeOffspringList H ac ss (n + 1) g).1 =
        (makeOffspring H ac ss g).1 ::
          (makeOffspringList H ac ss n (makeOffspring H ac ss g).2).1 := rfl
    rw [hstep, List.length_cons, ih]

theorem generationStep_pres (P : List PlacedCase → Prop) (H : Nat) (ac : List CaseInstance)
    (pop : List (List PlacedCase)) (g : RS)
    (hcross : ∀ p1 p2 g2, P p1 → P p2 → P (crossover H p1 p2 g2).1)
    (hmut : ∀ ind g2, P ind → P (mutate H ac ind g2).1)
    (hlen : pop.length = POPULATION_SIZE) (hpop : ∀ ind ∈ pop, P ind) :
    (generationStep H ac pop g).1.length = POPULATION_SIZE ∧
      ∀ ind ∈ (generationStep H ac pop g).1, P ind := by
  have hslen : (sortScores (scorePopulation ac.length H pop)).length = POPULATION_SIZE := by
    rw [sortScores_length, scorePop_length, hlen]
  have hpos : 0 < (sortScores (scorePopulation ac.length H pop)).length := by
    rw [hslen]
    decide
  have hss : ∀ s ∈ sortScores (scorePopulation ac.length H pop), P s.individual :=
    fun s hs => hpop s.individual (scorePop_mem ac.length H pop s (sortScores_mem hs))
  constructor
  · show (((sortScores (scorePopulation ac.length H pop)).take ELITE_COUNT).map
        (fun s => s.individual) ++
      (makeOffspringList H ac (sortScores (scorePopulation ac.length H pop))
        (POPULATION_SIZE - ELITE_COUNT) g).1).length = POPULATION_SIZE
    rw [List.length_append, List.length_map, List.length_take, hslen,
      makeOffspringList_length]
    decide
  · intro ind hind
    have hind2 : ind ∈ ((sortScores (scorePopulation ac.length H pop)).take ELITE_COUNT).map
        (fun s => s.individual) ++
      (makeOffspringList H ac (sortScores (scorePopulation ac.length H pop))
        (POPULATION_SIZE - ELITE_COUNT) g).1 := hind
    rcases List.mem_append.mp hind2 with h3 | h3
    · obtain ⟨s, hs, heq⟩ := List.mem_map.mp h3
      subst heq
      exact hss s (List.mem_of_mem_take hs)
    · exact makeOffspringList_pres P H ac _ hpos hss hcross hmut _ g ind h3

theorem runGenerations_pres (P : List PlacedCase → Prop) (H : Nat) (ac : List CaseInstance)
    (hcross : ∀ p1 p2 g2, P p1 → P p2 → P (crossover H p1 p2 g2).1)
    (hmut : ∀ ind g2, P ind → P (mutate H ac ind g2).1) :
    ∀ (n : Nat) (pop : List (List PlacedCase)) (g : RS),
      pop.length = POPULATION_SIZE → (∀ ind ∈ pop, P ind) →
      (runGenerations H ac n pop g).1.length = POPULATION_SIZE ∧
        ∀ ind ∈ (runGenerations H ac n pop g).1, P ind := by
  intro n
  induction n with
  | zero =>
    intro pop g hlen hpop
    exact ⟨hlen, hpop⟩
  | succ n ih =>
    intro pop g hlen hpop
    have hstep : runGenerations H ac (n + 1) pop g =
        runGenerations H ac n (generationStep H ac pop g).1 (generationStep H ac pop g).2 :=
      rfl
    rw [hstep]
    obtain ⟨h1, h2⟩ := generationStep_pres P H ac pop g hcross hmut hlen hpop
    exact ih _ _ h1 h2

theorem initPopulation_facts (H : Nat) (lk : List PlacedCase) (ac : List CaseInstance)
    (P : List PlacedCase → Prop) (hrand : ∀ g, P (randomIndividual H lk ac g).1) :
    ∀ (n : Nat) (g : RS), (initPopulation H lk ac n g).1.length = n ∧
      ∀ ind ∈ (initPopulation H lk ac n g).1, P ind := by
  intro n
  induction n with
  | zero =>
    intro g
    exact ⟨rfl, fun ind hind => absurd hind (List.not_mem_nil ind)⟩
  | succ n ih =>
    intro g
    have hstep : (initPopulation H lk ac (n + 1) g).1 =
        (randomIndividual H lk ac g).1 ::
          (initPopulation H lk ac n (randomIndividual H lk ac g).2).1 := rfl
    rw [hstep]
    obtain ⟨hlen, hmem⟩ := ih (randomIndividual H lk ac g).2
    refine ⟨by rw [List.length_cons, hlen], ?_⟩
    intro ind hind
    rcases List.mem_cons.mp hind with heq | hmem2
    · subst heq
      exact hrand g
    · exact hmem ind hmem2

theorem genetic_best_shape (ac : List CaseInstance) (H : Nat) (lk : List PlacedCase)
    (rng : Nat → Nat) :
    (geneticOptimization ac H lk rng).placedCases =
      ((sortScores (scorePopulation ac.length H (runGenerations H ac GENERATIONS
        (((List.range SORTED_INDIVIDUAL_COUNT).map
            (fun _ => (greedyOptimization ac H lk).placedCases)) ++
          (initPopulation H lk ac (POPULATION_SIZE - SORTED_INDIVIDUAL_COUNT) ⟨rng, 0⟩).1)
        (initPopulation H lk ac (POPULATION_SIZE - SORTED_INDIVIDUAL_COUNT)
          ⟨rng, 0⟩).2).1)).headD default).individual := by
  simp only [geneticOptimization]

theorem genetic_unplaced_eq (ac : List CaseInstance) (H : Nat) (lk : List PlacedCase)
    (rng : Nat → Nat) :
    (geneticOptimization ac H lk rng).unplacedCases =
      ac.filter (fun c =>
        !(((geneticOptimization ac H lk rng).placedCases.map (fun c => c.id)).contains
          c.id)) := by
  simp only [geneticOptimization]

theorem genetic_pres (H : Nat) (ac : List CaseInstance) (lk : List PlacedCase)
    (P : List PlacedCase → Prop) (hP : PresPred H ac lk P) (rng : Nat → Nat) :
    P (geneticOptimization ac H lk rng).placedCases := by
  obtain ⟨hseed, hrand, hcross, hmut⟩ := hP
  rw [genetic_best_shape]
  obtain ⟨hinitlen, hinitmem⟩ := initPopulation_facts H lk ac P hrand
    (POPULATION_SIZE - SORTED_INDIVIDUAL_COUNT) ⟨rng, 0⟩
  have hlen0 : (((List.range SORTED_INDIVIDUAL_COUNT).map
      (fun _ => (greedyOptimization ac H lk).placedCases)) ++
      (initPopulation H lk ac (POPULATION_SIZE - SORTED_INDIVIDUAL_COUNT) ⟨rng, 0⟩).1).length
      = POPULATION_SIZE := by
    rw [List.length_append, List.length_map, List.length_range, hinitlen]
    decide
  have hmem0 : ∀ ind ∈ ((List.range SORTED_INDIVIDUAL_COUNT).map
      (fun _ => (greedyOptimization ac H lk).placedCases)) ++
      (initPopulation H lk ac (POPULATION_SIZE - SORTED_INDIVIDUAL_COUNT) ⟨rng, 0⟩).1,
      P ind := by
    intro ind hind
    rcases List.mem_append.mp hind with h3 | h3
    · obtain ⟨_, _, heq⟩ := List.mem_map.mp h3
      subst heq
      exact hseed
    · exact hinitmem ind h3
  obtain ⟨hevlen, hevmem⟩ := runGenerations_pres P H ac hcross hmut GENERATIONS _ _
    hlen0 hmem0
  have hne : sortScores (scorePopulation ac.length H (runGenerations H ac GENERATIONS
      (((List.range SORTED_INDIVIDUAL_COUNT).map
          (fun _ => (greedyOptimization ac H lk).placedCases)) ++
        (initPopulation H lk ac (POPULATION_SIZE - SORTED_INDIVIDUAL_COUNT) ⟨rng, 0⟩).1)
      (initPopulation H lk ac (POPULATION_SIZE - SORTED_INDIVIDUAL_COUNT)
        ⟨rng, 0⟩).2).1) ≠ [] := by
    intro hnil
    have h5 := sortScores_length (scorePopulation ac.length H (runGenerations H ac GENERATIONS
      (((List.range SORTED_INDIVIDUAL_COUNT).map
          (fun _ => (greedyOptimization ac H lk).placedCases)) ++
        (initPopulation H lk ac (POPULATION_SIZE - SORTED_INDIVIDUAL_COUNT) ⟨rng, 0⟩).1)
      (initPopulation H lk ac (POPULATION_SIZE - SORTED_INDIVIDUAL_COUNT)
        ⟨rng, 0⟩).2).1)
    rw [hnil, scorePop_length, hevlen] at h5
    simp [POPULATION_SIZE] at h5
  have hmem := headD_mem default hne
  have hmem2 := sortScores_mem hmem
  have hmem3 := scorePop_mem _ _ _ _ hmem2
  exact hevmem _ hmem3

/-! ### The id bookkeeping predicate behind the placement counting claim -/

theorem crossover_A (H : Nat) (p1 p2 : List PlacedCase) (g : RS) :
    (crossover H p1 p2 g).1.filter (fun c => c.isLocked) = p1.filter (fun c => c.isLocked) := by
  obtain ⟨child, hres, hmem, _⟩ := crossover_parts H p1 p2 g
  have hLf : (p1.filter fun c => c.isLocked).filter (fun c => c.isLocked) =
      p1.filter (fun c => c.isLocked) :=
    List.filter_eq_self.mpr (fun a ha => List.of_mem_filter ha)
  have hcf : child.filter (fun c => c.isLocked) = [] := by
    refine List.filter_eq_nil_iff.mpr ?_
    intro c hc
    rcases hmem c hc with h3 | h3 <;>
    · have h4 := List.of_mem_filter h3
      simp at h4 ⊢
      exact h4
  rw [hres, List.filter_append, hLf, hcf, List.append_nil]

theorem crossover_nl (H : Nat) (p1 p2 : List PlacedCase) (g : RS) :
    ∃ child : List PlacedCase,
      nlIds (crossover H p1 p2 g).1 = child.map (fun c => c.id) ∧
      (child.map (fun c => c.id)).Nodup ∧
      (∀ c ∈ child,
        c ∈ p1.filter (fun c => !c.isLocked) ∨ c ∈ p2.filter (fun c => !c.isLocked)) := by
  obtain ⟨child, hres, hmem, hndc⟩ := crossover_parts H p1 p2 g
  have hcs : child.filter (fun c => !c.isLocked) = child := by
    refine List.filter_eq_self.mpr ?_
    intro c hc
    rcases hmem c hc with h3 | h3 <;> simpa using List.of_mem_filter h3
  have hLn : (p1.filter fun c => c.isLocked).filter (fun c => !c.isLocked) = [] := by
    refine List.filter_eq_nil_iff.mpr ?_
    intro c hc
    have h4 := List.of_mem_filter hc
    simp at h4 ⊢
    exact h4
  refine ⟨child, ?_, hndc, hmem⟩
  rw [hres]
  unfold nlIds
  rw [List.filter_append, hLn, hcs, List.nil_append]

theorem randomIndividual_A (H : Nat) (lk : List PlacedCase) (ac : List CaseInstance) (g : RS) :
    (randomIndividual H lk ac g).1.filter (fun c => c.isLocked) = lk.map withLockedFlag := by
  rw [randomIndividual_result, randfold_A]
  exact (lockedMap_filters lk).1

theorem PresPred_A (H : Nat) (ac : List CaseInstance) (lk : List PlacedCase) :
    PresPred H ac lk
      (fun ind => ind.filter (fun c => c.isLocked) = lk.map withLockedFlag) :=
  ⟨greedy_filter_locked ac H lk,
   fun g => randomIndividual_A H lk ac g,
   fun p1 p2 g h1 _ => by
     show (crossover H p1 p2 g).1.filter (fun c => c.isLocked) = lk.map withLockedFlag
     rw [crossover_A]
     exact h1,
   fun ind g h => by
     show (mutate H ac ind g).1.filter (fun c => c.isLocked) = lk.map withLockedFlag
     rw [mutate_A]
     exact h⟩

theorem greedy_C2pred (ac : List CaseInstance) (H : Nat) (lk : List PlacedCase)
    (hnodup : (ac.map (fun c => c.id)).Nodup) :
    (greedyOptimization ac H lk).placedCases.filter (fun c => c.isLocked) =
        lk.map withLockedFlag ∧
      (nlIds (greedyOptimization ac H lk).placedCases).Nodup ∧
      ∀ i ∈ nlIds (greedyOptimization ac H lk).placedCases, i ∈ ac.map (fun c => c.id) := by
  have hperm := greedy_ids ac H lk
  have hnd : (nlIds (greedyOptimization ac H lk).placedCases ++
      (greedyOptimization ac H lk).unplacedCases.map (fun c => c.id)).Nodup :=
    hperm.symm.nodup hnodup
  refine ⟨greedy_filter_locked ac H lk, hnd.of_append_left, ?_⟩
  intro i hi
  exact hperm.mem_iff.mp (List.mem_append.mpr (Or.inl hi))

theorem randomIndividual_C2 (H : Nat) (lk : List PlacedCase) (ac : List CaseInstance)
    (g : RS) (hnodup : (ac.map (fun c => c.id)).Nodup) :
    (randomIndividual H lk ac g).1.filter (fun c => c.isLocked) = lk.map withLockedFlag ∧
      (nlIds (randomIndividual H lk ac g).1).Nodup ∧
      ∀ i ∈ nlIds (randomIndividual H lk ac g).1, i ∈ ac.map (fun c => c.id) := by
  have hshuf : List.Perm (shuffle ac g).1 ac := shuffle_perm ac g
  refine ⟨randomIndividual_A H lk ac g, ?_, ?_⟩
  · rw [randomIndividual_result]
    refine randfold_ids H _ _ ?_
    rw [nlIds_lockedMap, List.nil_append]
    exact ((hshuf.map (fun c => c.id)).symm).nodup hnodup
  · rw [randomIndividual_result]
    refine randfold_sub H _ _ _ ?_ ?_
    · rw [nlIds_lockedMap]
      intro i hi
      exact absurd hi (List.not_mem_nil i)
    · intro c hc
      exact List.mem_map_of_mem _ (hshuf.mem_iff.mp hc)

theorem PresPred_C2 (H : Nat) (ac : List CaseInstance) (lk : List PlacedCase)
    (hnodup : (ac.map (fun c => c.id)).Nodup) :
    PresPred H ac lk
      (fun ind => ind.filter (fun c => c.isLocked) = lk.map withLockedFlag ∧
        (nlIds ind).Nodup ∧ ∀ i ∈ nlIds ind, i ∈ ac.map (fun c => c.id)) := by
  refine ⟨greedy_C2pred ac H lk hnodup, fun g => randomIndividual_C2 H lk ac g hnodup, ?_, ?_⟩
  · intro p1 p2 g h1 h2
    obtain ⟨child, hnl, hndc, hmem⟩ := crossover_nl H p1 p2 g
    refine ⟨by rw [crossover_A, h1.1], by rw [hnl]; exact hndc, ?_⟩
    rw [hnl]
    intro i hi
    obtain ⟨c, hc, heq⟩ := List.mem_map.mp hi
    subst heq
    rcases hmem c hc with h3 | h3
    · exact h1.2.2 c.id (List.mem_map_of_mem _ h3)
    · exact h2.2.2 c.id (List.mem_map_of_mem _ h3)
  · intro ind g h
    exact ⟨by rw [mutate_A, h.1], by rw [mutate_nlIds]; exact h.2.1,
      by rw [mutate_nlIds]; exact h.2.2⟩

theorem count_of_C2pred (H : Nat) (lk : List PlacedCase) (ac : List CaseInstance)
    (ind : List PlacedCase)
    (hfresh : ∀ lc ∈ lk, lc.id ∉ ac.map (fun c => c.id))
    (hnodup : (ac.map (fun c => c.id)).Nodup)
    (hA : ind.filter (fun c => c.isLocked) = lk.map withLockedFlag)
    (hnd : (nlIds ind).Nodup)
    (hsub : ∀ i ∈ nlIds ind, i ∈ ac.map (fun c => c.id)) :
    countNonLocked ind +
      (ac.filter (fun c => !((ind.map (fun c => c.id)).contains c.id))).length = ac.length := by
  have hiff : ∀ c ∈ ac, c.id ∈ ind.map (fun c => c.id) ↔ c.id ∈ nlIds ind := by
    intro c hc
    constructor
    · intro h
      obtain ⟨e, he, heq⟩ := List.mem_map.mp h
      cases hel : e.isLocked
      · have hmem : e ∈ ind.filter (fun c => !c.isLocked) :=
          List.mem_filter_of_mem he (by rw [hel]; rfl)
        rw [← heq]
        exact List.mem_map_of_mem _ hmem
      · exfalso
        have hmem : e ∈ ind.filter (fun c => c.isLocked) :=
          List.mem_filter_of_mem he (by rw [hel])
        rw [hA] at hmem
        obtain ⟨lc, hlc, hlceq⟩ := List.mem_map.mp hmem
        have hide : e.id = lc.id := by rw [← hlceq]; rfl
        apply hfresh lc hlc
        rw [← hide, heq]
        exact List.mem_map_of_mem _ hc
    · intro h
      obtain ⟨e, he, heq⟩ := List.mem_map.mp h
      rw [← heq]
      exact List.mem_map_of_mem _ (List.mem_of_mem_filter he)
  have hfr : ac.filter (fun c => !((ind.map (fun c => c.id)).contains c.id)) =
      ac.filter (fun c => !(decide (c.id ∈ nlIds ind))) := by
    refine List.filter_congr' ?_
    intro c hc
    by_cases h : c.id ∈ nlIds ind
    · have h2 : c.id ∈ ind.map (fun c => c.id) := (hiff c hc).mpr h
      simp [h, h2]
    · have h2 : c.id ∉ ind.map (fun c => c.id) := fun hx => h ((hiff c hc).mp hx)
      simp [h, h2]
  have hkeep : (ac.filter (fun c => decide (c.id ∈ nlIds ind))).length = (nlIds ind).length := by
    have h1 : (ac.filter (fun c => decide (c.id ∈ nlIds ind))).length =
        ((ac.map (fun c => c.id)).filter (fun i => decide (i ∈ nlIds ind))).length := by
      rw [← List.countP_eq_length_filter, ← List.countP_eq_length_filter, List.countP_map]
      rfl
    have h2 : List.Perm ((ac.map (fun c => c.id)).filter (fun i => decide (i ∈ nlIds ind)))
        (nlIds ind) := by
      refine (List.perm_ext_iff_of_nodup (List.Nodup.filter _ hnodup) hnd).mpr ?_
      intro i
      rw [List.mem_filter]
      constructor
      · intro h3
        exact of_decide_eq_true h3.2
      · intro h3
        exact ⟨hsub i h3, decide_eq_true h3⟩
    rw [h1, h2.length_eq]
  have hcnl : countNonLocked ind = (nlIds ind).length := by
    unfold countNonLocked nlIds
    rw [List.length_map]
  have hpart : ∀ l : List CaseInstance,
      (l.filter (fun c => decide (c.id ∈ nlIds ind))).length +
        (l.filter (fun c => !(decide (c.id ∈ nlIds ind)))).length = l.length := by
    intro l
    induction l with
    | nil => rfl
    | cons a l ih =>
      by_cases h : a.id ∈ nlIds ind <;> simp [List.filter_cons, h] <;> omega
  have hpart2 := hpart ac
  rw [hfr, hcnl]
  omega

theorem expandAndSort_ids_nodup (counts : List (String × Nat)) :
    ((expandAndSort counts).map (fun c => c.id)).Nodup := by
  have h := expandInstances_ids_nodup counts
  have hperm : List.Perm (expandAndSort counts) (expandInstances counts).allCases :=
    List.perm_insertionSort _ _
  exact ((hperm.map (fun c => c.id)).symm).nodup h

theorem ce8b_lhs : evaluateFitness 1 10 ce8bInd = 1505 := by
  with_unfolding_all rfl

/-!
## The claims
-/

/-- C1 counterexample: with a locked item that is disjoint and in bounds but
reuses the generated id "ammo-0", the genetic method returns two overlapping
rectangles, refuting the claim as stated. -/
theorem claim_C1_counterexample :
    List.Pairwise noCommonCell ce1Locked ∧ (∀ lc ∈ ce1Locked, inBounds 2 lc) ∧
    ¬ List.Pairwise noCommonCell
      (optimizeStashLayout [("ammo", 1)] 2 ce1Locked .genetic zeroOracle).placedCases := by
  refine ⟨List.pairwise_singleton _ _, ?_, ?_⟩
  · intro lc hlc
    have hlceq : lc = ⟨"ammo-0", "ammo", 0, 0, 2, 2, false, false⟩ := by simpa [ce1Locked] using hlc
    subst hlceq
    exact ⟨by decide, by decide⟩
  · have hplaced : (optimizeStashLayout [("ammo", 1)] 2 ce1Locked .genetic
        zeroOracle).placedCases = ce1Overlap := by rw [ce1_result]
    rw [hplaced]
    intro hpw
    have hpw2 : List.Pairwise noCommonCell
        [(⟨"ammo-0", "ammo", 0, 0, 2, 2, false, true⟩ : PlacedCase),
         ⟨"ammo-0", "ammo", 0, 0, 2, 2, false, false⟩] := hpw
    have h := (List.pairwise_cons.mp hpw2).1 _ (List.mem_cons_self _ _)
    exact h 0 0 ⟨by simp [cellOf], by simp [cellOf]⟩

/-- C1 (amended): when the locked items are pairwise disjoint, lie inside the
grid, and carry ids distinct from every generated instance id, no two placed
rectangles of either method's result overlap. -/
theorem claim_C1 (counts : List (String × Nat)) (H : Nat) (locked : List PlacedCase)
    (method : OptimizationMethod) (rng : Nat → Nat)
    (hpair : List.Pairwise noCommonCell locked)
    (hin : ∀ lc ∈ locked, inBounds H lc)
    (hfresh : ∀ lc ∈ locked, lc.id ∉ (expandAndSort counts).map (fun c => c.id)) :
    List.Pairwise noCommonCell
      (optimizeStashLayout counts H locked method rng).placedCases := by
  cases method with
  | greedy =>
    have hshape : (optimizeStashLayout counts H locked .greedy rng).placedCases =
        (greedyOptimization (expandAndSort counts) H locked).placedCases := rfl
    rw [hshape]
    exact (greedy_geo (expandAndSort counts) H locked hpair hin).1
  | genetic =>
    have hshape : optimizeStashLayout counts H locked .genetic rng =
        geneticOptimization (expandAndSort counts) H locked rng := rfl
    rw [hshape]
    have hok := genetic_pres H (expandAndSort counts) locked
      (IndOk H locked ((expandAndSort counts).map fun c => c.id))
      (PresPred_IndOk H (expandAndSort counts) locked ⟨hpair, hin, hfresh⟩
        (expandAndSort_ids_nodup counts)) rng
    exact hok.2.2.1

/-- C1 witness: the amended theorem applied at a call with no locked items. -/
theorem claim_C1_witness :
    List.Pairwise noCommonCell
      (optimizeStashLayout [("ammo", 1)] 2 [] .greedy zeroOracle).placedCases :=
  claim_C1 [("ammo", 1)] 2 [] .greedy zeroOracle List.Pairwise.nil
    (fun lc hlc => absurd hlc (List.not_mem_nil lc))
    (fun lc hlc => absurd hlc (List.not_mem_nil lc))

/-- C2 counterexample: with a locked item whose id collides with the generated
id, the genetic method counts the submitted instance as placed although nothing
non-locked was placed, so the balance equation fails. -/
theorem claim_C2_counterexample :
    countNonLocked
        (optimizeStashLayout [("ammo", 1)] 2 ce2Locked .genetic zeroOracle).placedCases +
      (optimizeStashLayout [("ammo", 1)] 2 ce2Locked .genetic
        zeroOracle).unplacedCases.length ≠
      (expandAndSort [("ammo", 1)]).length := by
  rw [ce2_result, expand_ammo]
  decide

/-- C2 (amended): when the locked ids are distinct from every generated
instance id, the number of non-locked placed cases plus the number of unplaced
cases equals the number of expanded instances, for either method. -/
theorem claim_C2 (counts : List (String × Nat)) (H : Nat) (locked : List PlacedCase)
    (method : OptimizationMethod) (rng : Nat → Nat)
    (hfresh : ∀ lc ∈ locked, lc.id ∉ (expandAndSort counts).map (fun c => c.id)) :
    countNonLocked (optimizeStashLayout counts H locked method rng).placedCases +
      (optimizeStashLayout counts H locked method rng).unplacedCases.length =
      (expandAndSort counts).length := by
  cases method with
  | greedy =>
    have hshape : optimizeStashLayout counts H locked .greedy rng =
        greedyOptimization (expandAndSort counts) H locked := rfl
    rw [hshape]
    exact greedy_count (expandAndSort counts) H locked
  | genetic =>
    have hshape : optimizeStashLayout counts H locked .genetic rng =
        geneticOptimization (expandAndSort counts) H locked rng := rfl
    rw [hshape]
    have hpred := genetic_pres H (expandAndSort counts) locked
      (fun ind => ind.filter (fun c => c.isLocked) = locked.map withLockedFlag ∧
        (nlIds ind).Nodup ∧
        ∀ i ∈ nlIds ind, i ∈ (expandAndSort counts).map (fun c => c.id))
      (PresPred_C2 H (expandAndSort counts) locked (expandAndSort_ids_nodup counts)) rng
    obtain ⟨hA, hnd, hsub⟩ := hpred
    rw [genetic_unplaced_eq]
    exact count_of_C2pred H locked (expandAndSort counts) _ hfresh
      (expandAndSort_ids_nodup counts) hA hnd hsub

/-- C2 witness: the amended theorem applied at a call with no locked items. -/
theorem claim_C2_witness :
    countNonLocked (optimizeStashLayout [("ammo", 1)] 2 [] .genetic zeroOracle).placedCases +
      (optimizeStashLayout [("ammo", 1)] 2 [] .genetic zeroOracle).unplacedCases.length =
      (expandAndSort [("ammo", 1)]).length :=
  claim_C2 [("ammo", 1)] 2 [] .genetic zeroOracle
    (fun lc hlc => absurd hlc (List.not_mem_nil lc))

/-- C3: for every call with either method, the locked entries of the returned
placedCases, compared on id, position, dimensions and rotation, are exactly
the locked items supplied by the caller, in order. -/
theorem claim_C3 (counts : List (String × Nat)) (H : Nat) (locked : List PlacedCase)
    (method : OptimizationMethod) (rng : Nat → Nat) :
    ((optimizeStashLayout counts H locked method rng).placedCases.filter
      (fun c => c.isLocked)).map lockedKey = locked.map lockedKey := by
  have hA : (optimizeStashLayout counts H locked method rng).placedCases.filter
      (fun c => c.isLocked) = locked.map withLockedFlag := by
    cases method with
    | greedy =>
      have hshape : optimizeStashLayout counts H locked .greedy rng =
          greedyOptimization (expandAndSort counts) H locked := rfl
      rw [hshape]
      exact greedy_filter_locked (expandAndSort counts) H locked
    | genetic =>
      have hshape : optimizeStashLayout counts H locked .genetic rng =
          geneticOptimization (expandAndSort counts) H locked rng := rfl
      rw [hshape]
      exact genetic_pres H (expandAndSort counts) locked
        (fun ind => ind.filter (fun c => c.isLocked) = locked.map withLockedFlag)
        (PresPred_A H (expandAndSort counts) locked) rng
  rw [hA, List.map_map]
  exact List.map_eq_map_iff.mpr (fun lc _ => rfl)

/-- C4 counterexample: a greedy run that leaves one THICCItems instance
unplaced, while the rerun with the first run's placements locked places that
instance — the rerun does not reproduce the same placement set. -/
theorem claim_C4_counterexample :
    (optimizeStashLayout [("THICCItems", 2)] 6 ce4Locked .greedy
        zeroOracle).unplacedCases.map (fun c => c.type) = ["THICCItems"] ∧
    countNonLocked (optimizeStashLayout [("THICCItems", 1)] 6
      (optimizeStashLayout [("THICCItems", 2)] 6 ce4Locked .greedy zeroOracle).placedCases
      .greedy zeroOracle).placedCases = 1 := by
  constructor
  · rw [ce4_run1_unplaced]
    rfl
  · rw [ce4_run1_placed]
    exact ce4_run2_newPlacement

/-- C4 (amended): rerunning the greedy packer with the previous run's
placedCases supplied back as locked items reproduces every previous placement
verbatim as a locked entry, whatever new counts are supplied; previously
unplaced instances may however now be placed. -/
theorem claim_C4 (counts : List (String × Nat)) (H : Nat) (locked : List PlacedCase)
    (counts2 : List (String × Nat)) (rng rng2 : Nat → Nat) :
    (optimizeStashLayout counts2 H
        (optimizeStashLayout counts H locked .greedy rng).placedCases .greedy
        rng2).placedCases.filter (fun c => c.isLocked) =
      (optimizeStashLayout counts H locked .greedy rng).placedCases.map withLockedFlag := by
  have hshape : optimizeStashLayout counts2 H
      (optimizeStashLayout counts H locked .greedy rng).placedCases .greedy rng2 =
      greedyOptimization (expandAndSort counts2) H
        (optimizeStashLayout counts H locked .greedy rng).placedCases := rfl
  rw [hshape]
  exact greedy_filter_locked (expandAndSort counts2) H
    (optimizeStashLayout counts H locked .greedy rng).placedCases

/-- C5: the greedy method is deterministic — the random stream does not enter
the greedy path, so two calls with equal inputs return identical layouts. -/
theorem claim_C5 (counts : List (String × Nat)) (H : Nat) (locked : List PlacedCase)
    (r1 r2 : Nat → Nat) :
    optimizeStashLayout counts H locked .greedy r1 =
      optimizeStashLayout counts H locked .greedy r2 := rfl

/-- C6: scorePlacement computes exactly the spec's formula: area*1000, plus
5000 on exact width fit, plus 3000 on exact height fit, minus waste*10, plus
(widthFit + heightFit)*1000. -/
theorem claim_C6 (cw ch aw ah : Nat) :
    scorePlacement cw ch aw ah =
      (cw : ℚ) * (ch : ℚ) * 1000 + (if cw = aw then (5000 : ℚ) else 0) +
        (if ch = ah then (3000 : ℚ) else 0) -
        ((aw : ℚ) * (ah : ℚ) - (cw : ℚ) * (ch : ℚ)) * 10 +
        ((cw : ℚ) / (aw : ℚ) + (ch : ℚ) / (ah : ℚ)) * 1000 := by
  simp only [scorePlacement]
  split_ifs <;> ring

/-- C7 (amended): the expanded instance list is sorted by: kinds with count
above one first, then wider, then taller, then kind identifier ascending in
the collation order of the comparator's localeCompare tie-break (primary
weights case-insensitive, so e.g. custom_3x2 before Key_case), which is not
ascending code-point lexical order. -/
theorem claim_C7 (counts : List (String × Nat)) :
    (expandAndSort counts).Sorted (claimOrderColl (expandInstances counts).caseTypeCounts) :=
  expandAndSort_sorted counts

/-- C7 counterexample: Key_case and custom_3x2 both measure 3x2, so with one
instance of each every sort rule up to the identifier tie-break ties; the
comparator's localeCompare collation puts custom_3x2 first (primary c < k,
case only tertiary), while the claimed ascending lexical (code-point) order
demands Key_case first — so the output is not sorted by the claimed order. -/
theorem claim_C7_counterexample :
    ¬ (expandAndSort [("Key_case", 1), ("custom_3x2", 1)]).Sorted
        (claimOrder (expandInstances [("Key_case", 1), ("custom_3x2", 1)]).caseTypeCounts) := by
  intro h
  have he : expandAndSort [("Key_case", 1), ("custom_3x2", 1)] =
      [⟨"custom_3x2-1", "custom_3x2", 3, 2⟩, ⟨"Key_case-0", "Key_case", 3, 2⟩] := by
    with_unfolding_all rfl
  have hm : (expandInstances [("Key_case", 1), ("custom_3x2", 1)]).caseTypeCounts =
      [("Key_case", 1), ("custom_3x2", 1)] := by
    with_unfolding_all rfl
  rw [he, hm] at h
  have hp := (List.sorted_cons.mp h).1 _ (List.mem_singleton.mpr rfl)
  have hne : ¬ claimOrder [("Key_case", 1), ("custom_3x2", 1)]
      ⟨"custom_3x2-1", "custom_3x2", 3, 2⟩ ⟨"Key_case-0", "Key_case", 3, 2⟩ := by
    have hty : ¬ (("custom_3x2" : String) ≤ "Key_case") :=
      not_le.mpr (by rw [String.lt_iff_toList_lt]; decide)
    unfold claimOrder instPriority
    intro hco
    rcases hco with hlt | ⟨_, hco⟩
    · exact absurd hlt (by decide)
    · rcases hco with hw | ⟨_, hco⟩
      · exact absurd hw (by decide)
      · rcases hco with hh | ⟨_, ht⟩
        · exact absurd hh (by decide)
        · exact hty ht
  exact hne hp

/-- C8 counterexample: no fixed per-item alignment increment makes the fitness
match the spec formula built on the smallest enclosing rectangle: two
one-item layouts force two different increments. -/
theorem claim_C8_counterexample :
    ¬ ∃ β : ℚ, ∀ (total h2 : Nat) (ind : List PlacedCase),
      evaluateFitness total h2 ind =
        ((countNonLocked ind : ℚ) / (total : ℚ)) * 1000 +
          (1 - (specSmallestEnclosingArea ind : ℚ) / ((GRID_WIDTH : ℚ) * (h2 : ℚ))) * 500 +
          β * (alignedCount ind : ℚ) := by
  rintro ⟨β, hβ⟩
  have h1 := hβ 1 10 ce8Ind
  have h2 := hβ 1 10 ce8bInd
  rw [ce8_lhs] at h1
  rw [ce8b_lhs] at h2
  have e1 : countNonLocked ce8Ind = 1 := by with_unfolding_all rfl
  have e2 : specSmallestEnclosingArea ce8Ind = 1 := by with_unfolding_all rfl
  have e3 : alignedCount ce8Ind = 1 := by with_unfolding_all rfl
  have f1 : countNonLocked ce8bInd = 1 := by with_unfolding_all rfl
  have f2 : specSmallestEnclosingArea ce8bInd = 1 := by with_unfolding_all rfl
  have f3 : alignedCount ce8bInd = 1 := by with_unfolding_all rfl
  have hG : (GRID_WIDTH : ℚ) = 10 := by norm_num [GRID_WIDTH]
  rw [e1, e2, e3, hG] at h1
  rw [f1, f2, f3, hG] at h2
  norm_num at h1 h2
  linarith

/-- C8 (amended): the fitness equals placedRatio*1000 plus compactness*500
plus 10 per aligned item, where the bounding box is the origin-anchored
rectangle from (0,0) to the placements' maximal right and bottom edges. -/
theorem claim_C8 (total h2 : Nat) (ind : List PlacedCase) :
    evaluateFitness total h2 ind =
      ((countNonLocked ind : ℚ) / (total : ℚ)) * 1000 +
        (1 - ((originMaxX ind : ℚ) * (originMaxY ind : ℚ)) /
          ((GRID_WIDTH : ℚ) * (h2 : ℚ))) * 500 +
        10 * (alignedCount ind : ℚ) :=
  evaluateFitness_formula total h2 ind

/-- C9 counterexample: at the empty corner (0,0) of ce9Grid the function
returns a 1 x 2 rectangle although the empty 5 x 1 strip anchored there has
larger area, so the result is not the largest anchored empty rectangle. -/
theorem claim_C9_counterexample :
    getCell ce9Grid 0 0 = none ∧ ¬ isLargestAnchored ce9Grid 2 0 0 :=
  ⟨rfl, ce9_not_largest⟩

/-- C9 (amended): at an empty in-bounds cell, getAvailableSpace returns a
nonempty empty rectangle anchored there that is maximal — its height cannot
be extended, and its width is blocked within the returned height — but not
necessarily of largest area. -/
theorem claim_C9 (grid : StashGrid) (h : Nat) (x y : Nat) (hx : x < GRID_WIDTH)
    (hy : y < h) (hc : getCell grid x y = none) :
    emptyRect grid x y (getAvailableSpace grid h x y).1 (getAvailableSpace grid h x y).2 ∧
    0 < (getAvailableSpace grid h x y).1 ∧ 0 < (getAvailableSpace grid h x y).2 ∧
    (y + (getAvailableSpace grid h x y).2 = h ∨
      getCell grid x (y + (getAvailableSpace grid h x y).2) ≠ none) ∧
    (x + (getAvailableSpace grid h x y).1 = GRID_WIDTH ∨
      ∃ dy, dy < (getAvailableSpace grid h x y).2 ∧
        getCell grid (x + (getAvailableSpace grid h x y).1) (y + dy) ≠ none) :=
  ⟨avail_emptyRect grid h x y, (avail_pos grid h x y hx hy hc).1,
    (avail_pos grid h x y hx hy hc).2, avail_height_max grid h x y hy,
    avail_width_max grid h x y hx hy hc⟩

/-- C9 witness: the amended theorem applied at the empty 10 x 2 grid. -/
theorem claim_C9_witness :
    emptyRect (mkGrid 2) 0 0 (getAvailableSpace (mkGrid 2) 2 0 0).1
      (getAvailableSpace (mkGrid 2) 2 0 0).2 ∧
    0 < (getAvailableSpace (mkGrid 2) 2 0 0).1 ∧ 0 < (getAvailableSpace (mkGrid 2) 2 0 0).2 ∧
    (0 + (getAvailableSpace (mkGrid 2) 2 0 0).2 = 2 ∨
      getCell (mkGrid 2) 0 (0 + (getAvailableSpace (mkGrid 2) 2 0 0).2) ≠ none) ∧
    (0 + (getAvailableSpace (mkGrid 2) 2 0 0).1 = GRID_WIDTH ∨
      ∃ dy, dy < (getAvailableSpace (mkGrid 2) 2 0 0).2 ∧
        getCell (mkGrid 2) (0 + (getAvailableSpace (mkGrid 2) 2 0 0).1) (0 + dy) ≠ none) :=
  claim_C9 (mkGrid 2) 2 0 0 (by decide) (by decide) rfl

/-- C10: the ids generated by the expansion step are pairwise distinct, both
in generation order and after the sort, so id-set membership identifies each
instance uniquely within one call. -/
theorem claim_C10 (counts : List (String × Nat)) :
    ((expandInstances counts).allCases.map (fun c => c.id)).Nodup ∧
      ((expandAndSort counts).map (fun c => c.id)).Nodup :=
  ⟨expandInstances_ids_nodup counts, expandAndSort_ids_nodup counts⟩
